import Mathlib

/-!
# Verification of the Shopee template-creation pipeline

Shallow embedding of the Google-Sheets ETL pipeline of this repository
(`item_creator/creation_steps.py`, `shopee_creator/creation_steps.py`,
`item_creator/utils_common.py`, `shopee_creator/utils_creator.py`).

Worksheets are embedded as `List (List String)` value matrices (the result of
`get_all_values()`), and the pipeline steps as pure functions from matrices to
update lists / new matrices, following the Python sources line by line.

Python string primitives (`strip`, `lower`, regular expressions `\s`, `\d`,
`\w`) are modelled over the ASCII range plus NBSP; the worksheets manipulated
by these claims use ASCII header names and plain cell text, for which the
model is exact.
-/

set_option maxHeartbeats 1000000

namespace Shopee

/-- Python whitespace for `str.strip()` and regex `\s` (ASCII range plus NBSP). -/
def pyWs (c : Char) : Bool :=
  c = ' ' || c = '\t' || c = '\n' || c = '\r' || c = '\x0b' || c = '\x0c' || c = '\u00A0'

/-- `str.strip()` on a character list. -/
def pyStripL (l : List Char) : List Char :=
  ((l.dropWhile pyWs).reverse.dropWhile pyWs).reverse

/-- Python `str.strip()`. -/
def pyStrip (s : String) : String := ⟨pyStripL s.toList⟩

/-- Python `str.lower()` (ASCII case mapping). -/
def pyLower (s : String) : String := ⟨s.toList.map Char.toLower⟩

/-- A cell is blank when it strips to the empty string (`not (x or "").strip()`). -/
def isBlank (s : String) : Bool := pyStrip s == ""

/-- Zero-width characters removed by `item_creator.utils_common.norm`. -/
def zwChar (c : Char) : Bool := c = '\u200B' || c = '\u200C' || c = '\u200D'

/-- `item_creator.utils_common.norm`: strip, lower, NBSP to space, drop zero-width. -/
def normIC (s : String) : String :=
  ⟨((pyLower (pyStrip s)).toList.map (fun c => if c = '\u00A0' then ' ' else c)).filter
      (fun c => !(zwChar c))⟩

/-- Characters kept by `item_creator`'s `header_key` regex `[^a-z0-9\-]+ -> ""`. -/
def keepIC (c : Char) : Bool :=
  ('a' ≤ c && c ≤ 'z') || ('0' ≤ c && c ≤ '9') || c = '-'

/-- `item_creator.utils_common.header_key`: keep lowercase alphanumerics and hyphens
of the normalised string. -/
def headerKeyIC (s : String) : String := ⟨(normIC s).toList.filter keepIC⟩

/-- Characters kept by `shopee_creator`'s `header_key` regex `[\W_]+ -> ""`
(word characters except underscore; ASCII model). -/
def keepSC (c : Char) : Bool :=
  ('a' ≤ c && c ≤ 'z') || ('0' ≤ c && c ≤ '9')

/-- `shopee_creator.utils_creator.header_key`: lowercase, keep alphanumerics only. -/
def headerKeySC (s : String) : String := ⟨(pyLower s).toList.filter keepSC⟩

/-- `leadEq pat l`: `pat` is an initial run of `l`. -/
def leadEq : List Char → List Char → Bool
  | [], _ => true
  | _ :: _, [] => false
  | a :: as, b :: bs => a == b && leadEq as bs

/-- `hasSubL hay pat`: Python `pat in hay` (contiguous substring). -/
def hasSubL (hay pat : List Char) : Bool :=
  match hay with
  | [] => leadEq pat []
  | _ :: t => leadEq pat hay || hasSubL t pat

/-- Python substring containment `pat in hay`. -/
def hasSub (hay pat : String) : Bool := hasSubL hay.toList pat.toList

/-- `_is_true` (both step modules): truthy marks accepted by the `create` column. -/
def isTrueStr (v : String) : Bool :=
  ["true", "t", "1", "y", "yes", "✔", "✅"].contains (pyLower (pyStrip v))

/-- Length of `dropWhile` never exceeds the input length. -/
theorem dropWhile_len_le (p : Char → Bool) (l : List Char) :
    (l.dropWhile p).length ≤ l.length := by
  induction l with
  | nil => simp [List.dropWhile]
  | cons a t ih =>
    by_cases h : p a <;> simp [List.dropWhile, h] <;> omega

/-- Scanner for `re.sub(r"\s*X\s*", "X", s)` with a single non-whitespace
character `X`.  In mode `false` it buffers a run of whitespace in `ws`
(reversed); meeting `X` discards the buffered run (it belongs to the match),
any other character flushes it.  Mode `true` consumes the `\s*` that follows a
replaced `X`. -/
def subGo (t : Char) (mode : Bool) (ws : List Char) : List Char → List Char
  | [] => if mode then [] else ws.reverse
  | c :: rest =>
    if pyWs c then
      if mode then subGo t true [] rest
      else subGo t false (c :: ws) rest
    else if c = t then t :: subGo t true [] rest
    else (if mode then [] else ws.reverse) ++ c :: subGo t false [] rest

/-- `re.sub(r"\s*X\s*", "X", s)` for a single non-whitespace character `X`
(used with `/` in `shopee_creator.top_of_category` and with `-` in the CSV
category normalisation `re.sub(r"\s*-\s*", "-", s)`). -/
def subWsAround (t : Char) (l : List Char) : List Char := subGo t false [] l

/-- `item_creator.utils_common.strip_category_id`:
`re.match(r"^\s*\d+\s*-\s*(.+)$", s)`, returning the group when the pattern
matches and `s` unchanged otherwise.  `$` also accepts a single trailing
newline; `.` does not cross newlines. -/
def stripCategoryIdIC (s : String) : String :=
  let l1 := s.toList.dropWhile pyWs
  let ds := l1.takeWhile Char.isDigit
  if ds.isEmpty then s
  else
    match (l1.dropWhile Char.isDigit).dropWhile pyWs with
    | '-' :: rest =>
      let rest2 := rest.dropWhile pyWs
      let body := if rest2.getLast? = some '\n' then rest2.dropLast else rest2
      if body ≠ [] ∧ ¬ body.contains '\n' then ⟨body⟩ else s
    | _ => s

/-- First cut of `item_creator.top_of_category`: try separators `/ > | \` in
order, split at the first occurrence of the first one present. -/
def splitFirstSepIC (s : String) : String :=
  let l := s.toList
  if l.contains '/' then ⟨l.takeWhile (· ≠ '/')⟩
  else if l.contains '>' then ⟨l.takeWhile (· ≠ '>')⟩
  else if l.contains '|' then ⟨l.takeWhile (· ≠ '|')⟩
  else if l.contains '\\' then ⟨l.takeWhile (· ≠ '\\')⟩
  else s

/-- `item_creator.utils_common.top_of_category`: strip the numeric id, cut at the
first separator, strip and lowercase; `none` models Python `None`. -/
def topOfCategoryIC (cat : String) : Option String :=
  if cat == "" then none
  else
    let t := pyStrip (splitFirstSepIC (stripCategoryIdIC cat))
    if t == "" then none else some (pyLower t)

/-- `shopee_creator` numeric-id stripping inside `top_of_category`:
`re.match(r"^\s*\d+\s*-\s*(.*)", top_part)`; the group is the greedy
non-newline remainder, stripped. -/
def stripCatIdSC (top : String) : String :=
  let l1 := top.toList.dropWhile pyWs
  let ds := l1.takeWhile Char.isDigit
  if ds.isEmpty then top
  else
    match (l1.dropWhile Char.isDigit).dropWhile pyWs with
    | '-' :: rest => pyStrip ⟨(rest.dropWhile pyWs).takeWhile (· ≠ '\n')⟩
    | _ => top

/-- `shopee_creator.utils_creator.top_of_category`: normalise whitespace around
slashes, take the segment before the first slash, strip the numeric id. -/
def topOfCategorySC (s : String) : String :=
  let n : List Char := subWsAround '/' (pyStrip s).toList
  let p0 : String := ⟨n.takeWhile (· ≠ '/')⟩
  if pyStrip p0 == "" then "" else stripCatIdSC (pyStrip p0)

/-- `_find_col_index` (identical in both step modules, parameterised by the
module's `header_key`): exact alias match first, then substring containment;
`none` models the `-1` sentinel. -/
def findColIdx (hk : String → String) (keys : List String) (name : String)
    (extra : List String) : Option Nat :=
  let als := extra.map hk ++ [hk name]
  match keys.findIdx? (fun k => als.contains k) with
  | some i => some i
  | none => keys.findIdx? (fun k => als.any (fun a => a ≠ "" && hasSub k a))

/-- `join_url` of `item_creator.utils_common`, for the single-segment calls made
by Step C5: strip the base, drop its trailing slashes, append `/seg` when the
part is non-blank (the part stripped of whitespace then of slashes). -/
def joinUrl (base p : String) : String :=
  let b := pyStrip base
  if b == "" then ""
  else
    let b2 : String := ⟨(b.toList.reverse.dropWhile (· = '/')).reverse⟩
    if pyStrip p == "" then b2
    else
      let seg : List Char :=
        (((pyStrip p).toList.dropWhile (· = '/')).reverse.dropWhile (· = '/')).reverse
      b2 ++ "/" ++ ⟨seg⟩

/-! ## Forward fill (`forward_fill_by_group`, both variants) -/

/-- `r[i] if i < len(r) else ""`. -/
def cell (r : List String) (i : Nat) : String := r.getD i ""

/-- The `item_creator` carry dictionary `last_vals` as a total function with the
`dict.get(idx, "")` default. -/
def carryOfRow (cols : List Nat) (r : List String) : Nat → String :=
  fun i => if cols.contains i then cell r i else ""

/-- Cache refresh after a row: `for idx in cols: if idx < len(r) and r[idx].strip():
last_vals[idx] = r[idx]`. -/
def carryRefresh (cols : List Nat) (r : List String) (carry : Nat → String) :
    Nat → String :=
  fun i =>
    if cols.contains i && decide (i < r.length) && !(isBlank (cell r i)) then cell r i
    else carry i

/-- Fill pass of `item_creator.forward_fill_by_group` on one row:
blank cells of the fill columns receive the carried value. -/
def fillRowIC (cols : List Nat) (carry : Nat → String) (r : List String) :
    List String :=
  cols.foldl
    (fun acc i =>
      if i < acc.length ∧ isBlank (cell acc i) then acc.set i (carry i) else acc)
    r

/-- One data row of `item_creator.forward_fill_by_group` (reset rows handled by
the caller): returns the written row, the group key and the carry afterwards. -/
def ffRowIC (g : Nat) (cols : List Nat) (key : Option String)
    (carry : Nat → String) (r : List String) :
    List String × Option String × (Nat → String) :=
  let gval := pyStrip (cell r g)
  if gval ≠ "" then
    (r, some gval, carryRefresh cols r (carryOfRow cols r))
  else
    let r2 := if key.isSome then fillRowIC cols carry r else r
    (r2, key, carryRefresh cols r2 carry)

/-- Data-row loop of `item_creator.forward_fill_by_group`. -/
def ffGoIC (g : Nat) (cols : List Nat) (reset : List String → Bool) :
    List (List String) → Option String → (Nat → String) → List (List String)
  | [], _, _ => []
  | r :: rest, key, carry =>
    if reset r then r :: ffGoIC g cols reset rest none (fun _ => "")
    else
      let s := ffRowIC g cols key carry r
      s.1 :: ffGoIC g cols reset rest s.2.1 s.2.2

/-- `item_creator.utils_common.forward_fill_by_group` (value level; the heap
behaviour of the Python function is modelled separately below). -/
def forwardFillIC (rows : List (List String)) (g : Nat) (cols : List Nat)
    (reset : List String → Bool) : List (List String) :=
  match rows with
  | [] => []
  | hdr :: data => hdr :: ffGoIC g cols reset data none (fun _ => "")

/-- The `(current_key, last_vals)` state transformer of one loop iteration of
`item_creator.forward_fill_by_group` (reset branch included). -/
def ffStep (g : Nat) (cols : List Nat) (reset : List String → Bool)
    (st : Option String × (Nat → String)) (r : List String) :
    Option String × (Nat → String) :=
  if reset r then (none, fun _ => "")
  else ((ffRowIC g cols st.1 st.2 r).2.1, (ffRowIC g cols st.1 st.2 r).2.2)

/-- Reset branch of `shopee_creator.forward_fill_by_group`: the fill columns of
the row are blanked. -/
def scBlankRow (cols : List Nat) (r : List String) : List String :=
  cols.foldl (fun acc j => if j < acc.length then acc.set j "" else acc) r

/-- Fill branch of `shopee_creator.forward_fill_by_group`: a blank cell receives
the stripped value of the previous (already processed) row; the computed
`is_same_group` flag of the source is never used. -/
def scFillRow (cols : List Nat) (prev r : List String) : List String :=
  cols.foldl
    (fun acc j =>
      if j < acc.length ∧ j < prev.length then
        if pyStrip (cell acc j) = "" ∧ pyStrip (cell prev j) ≠ "" then
          acc.set j (pyStrip (cell prev j))
        else acc
      else acc)
    r

/-- Data-row loop of `shopee_creator.forward_fill_by_group`, carrying the
previous processed row. -/
def ffGoSC (cols : List Nat) (reset : List String → Bool) :
    List String → List (List String) → List (List String)
  | _, [] => []
  | prev, r :: rest =>
    if reset r then
      let r2 := scBlankRow cols r
      r2 :: ffGoSC cols reset r2 rest
    else
      let r2 := scFillRow cols prev r
      r2 :: ffGoSC cols reset r2 rest

/-- `shopee_creator.utils_creator.forward_fill_by_group` with the default
`header_rows = 1`.  The `group_idx` argument `g` only feeds the dead
`is_same_group` computation of the source and has no effect on the result. -/
def forwardFillSC (data : List (List String)) (g : Nat) (cols : List Nat)
    (reset : List String → Bool) : List (List String) :=
  match data with
  | [] => []
  | hdr :: rest => hdr :: ffGoSC cols reset hdr rest

/-- The reset predicate used by Step C2 (both variants): the row is entirely
blank. -/
def fullyBlank (r : List String) : Bool := r.all (fun x => isBlank x)

/-! ## Step C2 (`run_step_C2`, both variants) -/

/-- Column indices resolved from the Collection header by `_collect_indices`
plus the positional fallbacks applied in `run_step_C2` / `run_step_C5_images`. -/
structure CollIdx where
  create : Nat
  variation : Nat
  sku : Nat
  brand : Nat
  option1 : Nat
  prodName : Nat
  desc : Nat
  category : Nat
  dcount : Nat

/-- `_collect_indices` (item variant) with the `x if x >= 0 else k` fallbacks of
`run_step_C2`. -/
def collectIdxIC (hdr : List String) : CollIdx :=
  let keys := hdr.map headerKeyIC
  let f := fun name extra dflt => (findColIdx headerKeyIC keys name extra).getD dflt
  { create := f "create" ["use", "apply"] 0
    variation := f "variation"
      ["variationno", "variationintegrationno", "var code", "variation code"] 1
    sku := f "sku" ["seller_sku"] 2
    brand := f "brand" ["brandname"] 3
    option1 := f "option(eng)"
      ["optioneng", "option", "option1", "option name", "option for variation 1"] 5
    prodName := f "product name" ["item(eng)", "itemeng", "name"] 7
    desc := f "description" ["product description"] 9
    category := f "category" [] 10
    dcount := f "details index" ["detail image count", "details count", "detailindex"] 11 }

/-- One per-category bucket of Step C2 (`{"headers": ..., "pids": ..., "rows": ...}`). -/
structure Bucket where
  headers : List String
  pids : List (List String)
  rows : List (List String)
deriving DecidableEq

/-- The state threaded through the Step C2 row loop: the insertion-ordered
bucket dictionary and the failure log. -/
structure C2State where
  buckets : List (String × Bucket)
  failures : List (List String)
deriving DecidableEq

/-- `buckets.setdefault(key, {...})` followed by appending one pid row and one
data row to the chosen bucket. -/
def bucketAdd (bs : List (String × Bucket)) (k : String) (hdrs : List String)
    (pid : String) (row : List String) : List (String × Bucket) :=
  if (bs.lookup k).isSome then
    bs.map (fun p =>
      if p.1 = k then
        (p.1, ⟨p.2.headers, p.2.pids ++ [[pid]], p.2.rows ++ [row]⟩)
      else p)
  else bs ++ [(k, ⟨hdrs, [[pid]], [row]⟩)]

/-- `set_if_exists`: write `value` into the schema column named `name` when the
(`header_key`-normalised) header is found. -/
def setIfExists (hk : String → String) (headers : List String) (row : List String)
    (name value : String) : List String :=
  match findColIdx hk (headers.map hk) name [] with
  | some i => row.set i value
  | none => row

/-- Python `str(None)` / `str(s)` used by the f-string in the failure detail. -/
def optStr : Option String → String
  | none => "None"
  | some s => s

/-- The output row built by the item variant of Step C2 for one Collection row. -/
def temRowIC (headers : List String) (category pname desc variation opt1 sku brand :
    String) : List String :=
  let r0 := List.replicate headers.length ""
  let r1 := setIfExists headerKeyIC headers r0 "category" category
  let r2 := setIfExists headerKeyIC headers r1 "product name" pname
  let r3 := setIfExists headerKeyIC headers r2 "product description" desc
  let r4 := setIfExists headerKeyIC headers r3 "variation integration" variation
  let r5 := setIfExists headerKeyIC headers r4 "variation name1" "Options"
  let r6 := setIfExists headerKeyIC headers r5 "option for variation 1" opt1
  let r7 := setIfExists headerKeyIC headers r6 "sku" sku
  setIfExists headerKeyIC headers r7 "brand" brand

/-- One iteration of the row loop of `item_creator.run_step_C2` on the
forward-filled row with (0-based) index `ri` in `ff_vals`. -/
def c2RowIC (td : List (String × List String)) (ix : CollIdx) (ri : Nat)
    (st : C2State) (row : List String) : C2State :=
  if !(isTrueStr (cell row ix.create)) then st
  else
    let variation := pyStrip (cell row ix.variation)
    let sku := pyStrip (cell row ix.sku)
    let brand := pyStrip (cell row ix.brand)
    let opt1 := pyStrip (cell row ix.option1)
    let pname := pyStrip (cell row ix.prodName)
    let desc := pyStrip (cell row ix.desc)
    let category := pyStrip (cell row ix.category)
    let pid :=
      if variation ≠ "" then variation
      else if sku ≠ "" then sku
      else "ROW" ++ toString (ri + 1)
    if category = "" then
      { st with failures :=
          st.failures ++ [[pid, "", pname, "CATEGORY_MISSING", "row=" ++ toString (ri + 1)]] }
    else
      let topNorm := headerKeyIC ((topOfCategoryIC category).getD "")
      let headers := ((td.lookup topNorm).getD [])
      if headers = [] then
        { st with failures :=
            st.failures ++
              [["", category, pname, "TEMPLATE_TOPLEVEL_NOT_FOUND",
                "top=" ++ optStr (topOfCategoryIC category)]] }
      else
        let temRow := temRowIC headers category pname desc variation opt1 sku brand
        { st with buckets := bucketAdd st.buckets topNorm headers pid temRow }

/-- Row loop of `item_creator.run_step_C2` over the forward-filled data rows,
`ri` being the `ff_vals` index of the next row (the loop starts at 1). -/
def c2GoIC (td : List (String × List String)) (ix : CollIdx) :
    Nat → List (List String) → C2State → C2State
  | _, [], st => st
  | ri, r :: rest, st => c2GoIC td ix (ri + 1) rest (c2RowIC td ix ri st r)

/-- `item_creator.run_step_C2` as a pure function from the TemplateDict and the
Collection matrix to buckets and failures. -/
def c2RunIC (td : List (String × List String)) (coll : List (List String)) :
    C2State :=
  if coll.length < 2 then ⟨[], []⟩
  else
    match coll with
    | [] => ⟨[], []⟩
    | hdr :: _ =>
      let ix := collectIdxIC hdr
      let ff := forwardFillIC coll ix.variation
        [ix.variation, ix.brand, ix.prodName, ix.desc, ix.category, ix.dcount] fullyBlank
      match ff with
      | [] => ⟨[], []⟩
      | _ :: data => c2GoIC td ix 1 data ⟨[], []⟩

/-- The `out_matrix` written to TEM_OUTPUT: per bucket a `["PID"] ++ headers`
row followed by `pid ++ data` rows. -/
def outMatrix (bs : List (String × Bucket)) : List (List String) :=
  (bs.map (fun p =>
    (["PID"] ++ p.2.headers) ::
      (p.2.pids.zip p.2.rows).map (fun q => q.1 ++ q.2))).join

/-- The output row built by the shopee variant of Step C2 (two extra parent-sku
aliases are written). -/
def temRowSC (headers : List String) (category pname desc variation opt1 sku brand :
    String) : List String :=
  let r0 := List.replicate headers.length ""
  let r1 := setIfExists headerKeySC headers r0 "category" category
  let r2 := setIfExists headerKeySC headers r1 "product name" pname
  let r3 := setIfExists headerKeySC headers r2 "product description" desc
  let r4 := setIfExists headerKeySC headers r3 "variation integration" variation
  let r5 := setIfExists headerKeySC headers r4 "variation name1" "Options"
  let r6 := setIfExists headerKeySC headers r5 "parent sku" variation
  let r7 := setIfExists headerKeySC headers r6 "variation integration no." variation
  let r8 := setIfExists headerKeySC headers r7 "option for variation 1" opt1
  let r9 := setIfExists headerKeySC headers r8 "sku" sku
  setIfExists headerKeySC headers r9 "brand" brand

/-- One iteration of the row loop of `shopee_creator.run_step_C2`. -/
def c2RowSC (td : List (String × List String)) (ix : CollIdx) (ri : Nat)
    (st : C2State) (row : List String) : C2State :=
  if !(isTrueStr (cell row ix.create)) then st
  else
    let variation := pyStrip (cell row ix.variation)
    let sku := pyStrip (cell row ix.sku)
    let brand := pyStrip (cell row ix.brand)
    let opt1 := pyStrip (cell row ix.option1)
    let pname := pyStrip (cell row ix.prodName)
    let desc := pyStrip (cell row ix.desc)
    let category := pyStrip (cell row ix.category)
    let pid :=
      if variation ≠ "" then variation
      else if sku ≠ "" then sku
      else "ROW" ++ toString (ri + 1)
    if category = "" then
      { st with failures :=
          st.failures ++ [[pid, "", pname, "CATEGORY_MISSING", "row=" ++ toString (ri + 1)]] }
    else
      let topRaw := topOfCategorySC category
      let topNorm := headerKeySC topRaw
      let headers := ((td.lookup topNorm).getD [])
      if headers = [] then
        { st with failures :=
            st.failures ++
              [["", category, pname, "TEMPLATE_TOPLEVEL_NOT_FOUND",
                "top=" ++ topRaw ++ " (Key: " ++ topNorm ++ ")"]] }
      else
        let temRow := temRowSC headers category pname desc variation opt1 sku brand
        { st with buckets := bucketAdd st.buckets topNorm headers pid temRow }

/-! ## Step C4 (`item_creator.run_step_C4_prices`) -/

/-- A pending `gspread` `Cell` write, stored with 0-based coordinates
(`Cell(row=r+1, col=c+1, value=v)` in the source). -/
structure CellUpd where
  row : Nat
  col : Nat
  val : String
deriving DecidableEq

/-- Header-block boundary test used by steps C3–C6:
`(row[1] if len(row) > 1 else "").strip().lower() == "category"`. -/
def isHeaderRow (row : List String) : Bool :=
  pyLower (pyStrip (cell row 1)) == "category"

/-- `dict[k] = v` on an association list (later assignments overwrite). -/
def dictUpsert (m : List (String × String)) (k v : String) :
    List (String × String) :=
  if (m.lookup k).isSome then m.map (fun p => if p.1 = k then (p.1, v) else p)
  else m ++ [(k, v)]

/-- The `sku_to_price` / `sku_to_weight` dictionaries built from the MARGIN data
rows: keep rows with non-blank key and value, later rows overwriting. -/
def buildSkuMap (rows : List (List String)) (iK iV : Nat) :
    List (String × String) :=
  rows.foldl
    (fun m row =>
      let k := pyStrip (cell row iK)
      let v := pyStrip (cell row iV)
      if k ≠ "" ∧ v ≠ "" then dictUpsert m k v else m)
    []

/-- Row loop of `run_step_C4_prices` over TEM_OUTPUT: the state holds, once a
header block has been seen, the block's sku and price column indices (indices
into the headers, i.e. the sheet column minus one). -/
def c4Go (prices : List (String × String)) :
    Nat → List (List String) → Option (Option Nat × Option Nat) → List CellUpd
  | _, [], _ => []
  | r0, row :: rest, st =>
    if isHeaderRow row then
      let keys := (row.drop 1).map headerKeyIC
      let iS := findColIdx headerKeyIC keys "sku" []
      let iP := findColIdx headerKeyIC keys "sku price" ["price", "selling price", "sell price"]
      c4Go prices (r0 + 1) rest (some (iS, iP))
    else
      match st with
      | some (some iS, some iP) =>
        let sku := pyStrip (cell row (iS + 1))
        if sku = "" then c4Go prices (r0 + 1) rest st
        else
          let val := (prices.lookup sku).getD ""
          if val = "" then c4Go prices (r0 + 1) rest st
          else
            let cur := pyStrip (cell row (iP + 1))
            if cur ≠ val then
              ⟨r0, iP + 1, val⟩ :: c4Go prices (r0 + 1) rest st
            else c4Go prices (r0 + 1) rest st
      | _ => c4Go prices (r0 + 1) rest st

/-- `run_step_C4_prices` as a pure function: parse the MARGIN sheet, then
collect the cell writes over TEM_OUTPUT. -/
def runC4IC (tem mg : List (List String)) : List CellUpd :=
  if tem.isEmpty then []
  else if mg.length < 2 then []
  else
    let mgKeys := (mg.headD []).map headerKeyIC
    match findColIdx headerKeyIC mgKeys "sku" ["seller_sku"],
        findColIdx headerKeyIC mgKeys "소비자가"
          ["consumer price", "consumerprice", "price", "list price", "selling price",
            "sell price"] with
    | some iSku, some iPrice => c4Go (buildSkuMap (mg.drop 1) iSku iPrice) 0 tem none
    | _, _ => []

/-- Pad a row with empty cells up to length `n`. -/
def padTo (r : List String) (n : Nat) : List String :=
  r ++ List.replicate (n - r.length) ""

/-- Apply a batch of cell writes (`update_cells`) to a value matrix; a write
beyond the current row length lands on a padded cell, as it would in the sheet. -/
def applyUpds (m : List (List String)) (us : List CellUpd) : List (List String) :=
  us.foldl
    (fun acc u => acc.set u.row ((padTo (acc.getD u.row []) (u.col + 1)).set u.col u.val))
    m

/-- The effect of a single cell write on one row. -/
def patchCell (u : CellUpd) (row : List String) : List String :=
  (padTo row (u.col + 1)).set u.col u.val

/-- Apply to one row (sitting at sheet index `r`) those writes of a batch that
target it, in order. -/
def patchFold (us : List CellUpd) (r : Nat) (row : List String) : List String :=
  us.foldl (fun acc u => if u.row = r then patchCell u acc else acc) row

/-- Row-by-row view of a batch of writes applied to the matrix whose first row
sits at sheet index `r0`. -/
def patchList (us : List CellUpd) : Nat → List (List String) → List (List String)
  | _, [] => []
  | r0, row :: rest => patchFold us r0 row :: patchList us (r0 + 1) rest

/-- Invariant carried by the Step C4 row loop: whenever both a sku and a price
column have been detected, the price column is not the block-marker column and
differs from the sku column. -/
def stOK : Option (Option Nat × Option Nat) → Prop
  | some (some iS, some iP) => 1 ≤ iP ∧ iS ≠ iP
  | _ => True

/-- A TEM_OUTPUT fixture for Step C4 whose sku and price columns are distinct. -/
def c4TemW : List (List String) :=
  [["PID", "Category", "SKU", "SKU Price"], ["p", "c", "A", ""]]

/-- A MARGIN fixture for Step C4. -/
def c4MgW : List (List String) := [["SKU", "Price"], ["A", "9"]]

/-! ## Step C6 (`run_step_C6_stock_weight_brand`, both variants) -/

/-- Row loop of `item_creator.run_step_C6_stock_weight_brand`; the state holds
the block's (sku, stock, weight, brand) column indices. -/
def c6GoIC (wmap : List (String × String)) :
    Nat → List (List String) →
      Option (Option Nat × Option Nat × Option Nat × Option Nat) → List CellUpd
  | _, [], _ => []
  | r0, row :: rest, st =>
    if isHeaderRow row then
      let keys := (row.drop 1).map headerKeyIC
      let iS := findColIdx headerKeyIC keys "sku" []
      let iStock := findColIdx headerKeyIC keys "stock" []
      let iW := findColIdx headerKeyIC keys "weight" []
      let iB := findColIdx headerKeyIC keys "brand" []
      c6GoIC wmap (r0 + 1) rest (some (iS, iStock, iW, iB))
    else
      match st with
      | some (some iS, iStock, iW, iB) =>
        let sku := pyStrip (cell row (iS + 1))
        if sku = "" then c6GoIC wmap (r0 + 1) rest st
        else
          let u1 : List CellUpd :=
            match iStock with
            | some j =>
              if pyStrip (cell row (j + 1)) ≠ "1000" then [⟨r0, j + 1, "1000"⟩] else []
            | none => []
          let u2 : List CellUpd :=
            match iB with
            | some j =>
              if pyStrip (cell row (j + 1)) ≠ "0" then [⟨r0, j + 1, "0"⟩] else []
            | none => []
          let u3 : List CellUpd :=
            match iW with
            | some j =>
              let v := (wmap.lookup sku).getD ""
              if v ≠ "" ∧ pyStrip (cell row (j + 1)) ≠ v then [⟨r0, j + 1, v⟩] else []
            | none => []
          u1 ++ u2 ++ u3 ++ c6GoIC wmap (r0 + 1) rest st
      | _ => c6GoIC wmap (r0 + 1) rest st

/-- The MARGIN weight map of the item variant (header aliases `무게`, `f`). -/
def c6WeightMapIC (mg : List (List String)) : List (String × String) :=
  if mg.length < 2 then []
  else
    let mgKeys := (mg.headD []).map headerKeyIC
    match findColIdx headerKeyIC mgKeys "sku" ["seller_sku"],
        findColIdx headerKeyIC mgKeys "weight" ["무게", "f"] with
    | some iSku, some iW => buildSkuMap (mg.drop 1) iSku iW
    | _, _ => []

/-- `item_creator.run_step_C6_stock_weight_brand` as a pure function. -/
def runC6IC (tem mg : List (List String)) : List CellUpd :=
  if tem.isEmpty then [] else c6GoIC (c6WeightMapIC mg) 0 tem none

/-- `_pick_index_by_candidates` (shopee variant): exact match over the candidate
list first, then substring containment, candidates tried in order. -/
def pickIdxByCands (hdr : List String) (cands : List String) : Option Nat :=
  let keys := hdr.map headerKeySC
  let exact := cands.foldl
    (fun a c => a.orElse (fun _ => keys.findIdx? (· == headerKeySC c))) none
  let part := cands.foldl
    (fun a c =>
      a.orElse (fun _ =>
        if headerKeySC c = "" then none
        else keys.findIdx? (fun k => hasSub k (headerKeySC c))))
    none
  exact.orElse (fun _ => part)

/-- Row loop of `shopee_creator.run_step_C6_stock_weight_brand`.  In the source
the `idx_t_days` assignment sits after the header branch's `continue` and is
never executed, so the first data row that reaches the `Days to ship` block
(non-blank sku under a recognised header) raises `UnboundLocalError`; the
error aborts the whole step before any write. -/
def c6GoSC (wmap : List (String × String)) :
    List (List String) →
      Option (Option Nat × Option Nat × Option Nat × Option Nat) →
      Except String Unit
  | [], _ => Except.ok ()
  | row :: rest, st =>
    if isHeaderRow row then
      let keys := (row.drop 1).map headerKeySC
      let iS := findColIdx headerKeySC keys "sku" []
      let iStock := findColIdx headerKeySC keys "stock" []
      let iW := findColIdx headerKeySC keys "weight" []
      let iB := findColIdx headerKeySC keys "brand" []
      c6GoSC wmap rest (some (iS, iStock, iW, iB))
    else
      match st with
      | some (some iS, _, _, _) =>
        if pyStrip (cell row (iS + 1)) = "" then c6GoSC wmap rest st
        else Except.error "UnboundLocalError: idx_t_days"
      | _ => c6GoSC wmap rest st

/-- `shopee_creator.run_step_C6_stock_weight_brand`: either finishes having
written nothing interesting, or aborts with `UnboundLocalError`. -/
def runC6SC (tem mg : List (List String)) : Except String Unit :=
  if tem.isEmpty then Except.ok ()
  else
    let wmap :=
      if mg.length < 2 then []
      else
        match pickIdxByCands (mg.headD []) ["sku", "seller_sku"],
            pickIdxByCands (mg.headD []) ["weight", "package weight"] with
        | some iSku, some iW => buildSkuMap (mg.drop 1) iSku iW
        | _, _ => []
    c6GoSC wmap tem none

/-! ## Step C5 (`run_step_C5_images_values`, shopee variant) -/

/-- The alias sets of `_find_header_row_and_offset` (`WANT`); they are compared
verbatim against normalised header keys, so entries containing spaces or dots
can only ever hit through the substring pass. -/
def wantVariation : List String :=
  ["variationintegrationno", "variationintegrationno.", "variationno",
    "variationintegration", "variation", "variation integration no",
    "variation integration", "variation code", "variation id"]

def wantSku : List String := ["sku", "seller_sku", "seller sku", "item sku"]

def wantCover : List String :=
  ["coverimage", "cover image", "coverimageurl", "cover image url", "cover",
    "cover url"]

def wantIpv : List String :=
  ["imagepervariation", "image per variation", "imageurlpervariation",
    "image url per variation", "ipv", "variation image", "image each variation"]

/-- `_first_index` of `_try_parse_row_as_header`: exact membership, then
substring containment. -/
def firstIdxIn (keys : List String) (ms : List String) : Option Nat :=
  match keys.findIdx? (fun k => ms.contains k) with
  | some i => some i
  | none => keys.findIdx? (fun k => ms.any (fun m => m ≠ "" && hasSub k m))

/-- Column indices found by `_try_parse_row_as_header` (indices are relative to
the row minus the `base_offset` prefix). -/
structure IxMap where
  variation : Option Nat
  sku : Option Nat
  cover : Option Nat
  ipv : Option Nat
  items : List (Option Nat)
deriving DecidableEq

/-- Lookup of the `item image n` column: exact key match first, then substring. -/
def itemIdx (keys : List String) (n : Nat) : Option Nat :=
  let we := headerKeySC ("item image " ++ toString n)
  match keys.findIdx? (· == we) with
  | some i => some i
  | none => keys.findIdx? (fun k => hasSub k we)

/-- `_try_parse_row_as_header`: the row qualifies when it shows at least one
image column and at least one of the variation / sku key columns. -/
def tryParseHeaderSC (row : List String) (off : Nat) : Option IxMap :=
  let keys := (row.drop off).map headerKeySC
  if keys.isEmpty then none
  else
    let vi := firstIdxIn keys wantVariation
    let si := firstIdxIn keys wantSku
    let ci := firstIdxIn keys wantCover
    let ii := firstIdxIn keys wantIpv
    let items := (List.range 8).map (fun j => itemIdx keys (j + 1))
    if (ci.isSome || ii.isSome || items.any (·.isSome)) && (vi.isSome || si.isSome) then
      some ⟨vi, si, ci, ii, items⟩
    else none

/-- Scan for the first row accepted by a header predicate. -/
def firstHeaderPass (p : List String → Option IxMap) :
    Nat → List (List String) → Option (Nat × IxMap)
  | _, [] => none
  | r, row :: rest =>
    match p row with
    | some m => some (r, m)
    | none => firstHeaderPass p (r + 1) rest

/-- `_find_header_row_and_offset`: the `PID` pass, then the `Category` pass
(both with offset 1), then the offset-0 pass; `none` models the
`RuntimeError`. -/
def findHeaderSC (tem : List (List String)) : Option (Nat × Nat × IxMap) :=
  let p1 := fun (row : List String) =>
    if row ≠ [] ∧ headerKeySC (row.headD "") = "pid" then tryParseHeaderSC row 1 else none
  let p2 := fun (row : List String) =>
    if row.length > 1 ∧ headerKeySC (cell row 1) = "category" then tryParseHeaderSC row 1
    else none
  let p3 := fun (row : List String) =>
    if row ≠ [] then tryParseHeaderSC row 0 else none
  match firstHeaderPass p1 0 tem with
  | some (r, m) => some (r, 1, m)
  | none =>
    match firstHeaderPass p2 0 tem with
    | some (r, m) => some (r, 1, m)
    | none =>
      match firstHeaderPass p3 0 tem with
      | some (r, m) => some (r, 0, m)
      | none => none

/-- Value of a digit string. -/
def digitsVal (l : List Char) : Nat :=
  l.foldl (fun a c => a * 10 + (c.toNat - '0'.toNat)) 0

/-- Python `int(float(s))` on simple decimal literals (optional sign, integer
and/or fractional digits); exotic float syntax (exponents, inf) is out of the
data range of these sheets.  Truncation is toward zero. -/
def parseFloatTrunc (s : String) : Option Int :=
  let l := s.toList
  let sgn : Bool × List Char :=
    match l with
    | '-' :: t => (true, t)
    | '+' :: t => (false, t)
    | _ => (false, l)
  let ip := sgn.2.takeWhile Char.isDigit
  let rest := sgn.2.dropWhile Char.isDigit
  let mk := fun (n : Nat) => some (if sgn.1 then -(n : Int) else (n : Int))
  match rest with
  | [] => if ip.isEmpty then none else mk (digitsVal ip)
  | '.' :: fr =>
    if fr.all Char.isDigit ∧ (ip ≠ [] ∨ fr ≠ []) then mk (digitsVal ip) else none
  | _ => none

/-- Python `int(s)` on a stripped string: optional sign and digits only. -/
def parseIntPy (s : String) : Option Int :=
  let l := s.toList
  let sgn : Bool × List Char :=
    match l with
    | '-' :: t => (true, t)
    | '+' :: t => (false, t)
    | _ => (false, l)
  if sgn.2 ≠ [] ∧ sgn.2.all Char.isDigit then
    some (if sgn.1 then -(digitsVal sgn.2 : Int) else (digitsVal sgn.2 : Int))
  else none

/-- `dict[k] = v` on a `String × Nat` association list. -/
def dictUpsertN (m : List (String × Nat)) (k : String) (v : Nat) :
    List (String × Nat) :=
  if (m.lookup k).isSome then m.map (fun p => if p.1 = k then (p.1, v) else p)
  else m ++ [(k, v)]

/-- Exact header keys accepted by `_build_details_count_by_var` for the
variation column (set membership only — no substring pass). -/
def varKeysSC : List String :=
  ["variationintegrationno.", "variationno.", "variationintegration", "variation"]

/-- Exact header keys accepted for the Details Index column. -/
def detKeysSC : List String :=
  ["detailsindex", "details", "detailindex", "detailimagecount", "detailscount",
    "detailcount", "detailimages", "detailimage"]

/-- `_build_details_count_by_var`: `{variation_no: clamp(int(float(details)), 0, 8)}`,
skipping rows that are too short or have a blank variation; later rows
overwrite earlier ones. -/
def buildDmapSC (coll : List (List String)) : List (String × Nat) :=
  match coll with
  | [] => []
  | hdr :: rows =>
    let keys := hdr.map headerKeySC
    match keys.findIdx? (fun k => varKeysSC.contains k),
        keys.findIdx? (fun k => detKeysSC.contains k) with
    | some iv, some idt =>
      rows.foldl
        (fun m row =>
          if row.length ≤ max iv idt then m
          else
            let vn := pyStrip (cell row iv)
            if vn = "" then m
            else
              let dr := pyStrip (cell row idt)
              let dc : Int := if dr = "" then 0 else (parseFloatTrunc dr).getD 0
              dictUpsertN m vn (Int.toNat (max 0 (min 8 dc))))
        []
    | _, _ => []

/-- `data[ix_map["variation"]].strip() if "variation" in ix_map and
ix_map["variation"] < len(data) else ""`. -/
def c5VarNo (ix : IxMap) (data : List String) : String :=
  match ix.variation with
  | some i => if i < data.length then pyStrip (cell data i) else ""
  | none => ""

/-- The sku read of `run_step_C5_images_values`. -/
def c5SkuOf (ix : IxMap) (data : List String) : String :=
  match ix.sku with
  | some i => if i < data.length then pyStrip (cell data i) else ""
  | none => ""

/-- The write step of the item-image fold of `c5RowSC` and the other guarded
single-cell writes of Step C5, abstracted over the target and written value. -/
def stepOf (tgt : Nat → Option Nat) (v : Nat → String) :
    List String → Nat → List String := fun d j =>
  match tgt j with
  | some i => if i < d.length then d.set i (v j) else d
  | none => d

/-- The cover-image write of `c5RowSC` (`data[ix_map["cover"]] = ...` guarded
by the index being present and in range). -/
def c5CoverW (ix : IxMap) (base shop varNo : String) (data : List String) :
    List String :=
  match ix.cover with
  | some i =>
    if i < data.length then
      data.set i
        (if varNo ≠ "" ∧ shop ≠ "" then base ++ varNo ++ "_C_" ++ shop ++ ".jpg" else "")
    else data
  | none => data

/-- The image-per-variation write of `c5RowSC`. -/
def c5IpvW (ix : IxMap) (base sku : String) (data : List String) : List String :=
  match ix.ipv with
  | some i =>
    if i < data.length then data.set i (if sku ≠ "" then base ++ sku ++ ".jpg" else "")
    else data
  | none => data

/-- The per-row update of `run_step_C5_images_values`: read the variation and
sku cells, then overwrite the cover, image-per-variation and item-image cells
in source order. -/
def c5RowSC (ix : IxMap) (off : Nat) (dmap : List (String × Nat))
    (base shop : String) (row : List String) : List String :=
  let data := row.drop off
  if data.isEmpty then row
  else
    let varNo := c5VarNo ix data
    let sku := c5SkuOf ix data
    let dcount := (dmap.lookup varNo).getD 0
    let d2 := c5IpvW ix base sku (c5CoverW ix base shop varNo data)
    let d3 := (List.range 8).foldl
      (stepOf (fun j => ix.items.getD j none)
        (fun j =>
          if varNo ≠ "" ∧ j + 1 ≤ dcount then
            base ++ varNo ++ "_D" ++ toString (j + 1) ++ ".jpg"
          else ""))
      d2
    row.take off ++ d3

/-- `(base_url or "").rstrip("/") + "/"`. -/
def c5Base (baseUrl : String) : String :=
  (⟨(baseUrl.toList.reverse.dropWhile (· = '/')).reverse⟩ : String) ++ "/"

/-- `shopee_creator.run_step_C5_images_values`; `none` models the
`RuntimeError` raised when no header row is recognised. -/
def runC5SCvalues (tem coll : List (List String)) (baseUrl shop : String) :
    Option (List (List String)) :=
  if tem.isEmpty then some tem
  else
    match findHeaderSC tem with
    | none => none
    | some (hr, off, ix) =>
      let dmap := buildDmapSC coll
      some (tem.take (hr + 1) ++
        (tem.drop (hr + 1)).map (c5RowSC ix off dmap (c5Base baseUrl) shop))

/-! ## Step C5 (`item_creator.run_step_C5_images`) -/

/-- The `sku_to_var` / `var_to_count` maps collected from the forward-filled
Collection rows with a truthy create flag; `var_to_count` keeps the first
value per variation, `sku_to_var` the last. -/
def c5CollMapsIC (coll : List (List String)) :
    List (String × String) × List (String × Nat) :=
  match coll with
  | hdr :: _ :: _ =>
    let ix := collectIdxIC hdr
    let reset := fun (row : List String) =>
      fullyBlank row || !(isTrueStr (cell row ix.create))
    let ff := forwardFillIC coll ix.variation [ix.variation, ix.dcount] reset
    (ff.drop 1).foldl
      (fun maps row =>
        if !(isTrueStr (cell row ix.create)) then maps
        else
          let var := pyStrip (cell row ix.variation)
          let sku := pyStrip (cell row ix.sku)
          let dstr := pyStrip (cell row ix.dcount)
          let cnt0 : Int :=
            (parseIntPy (if dstr = "" then "8" else dstr)).getD 8
          let cnt : Nat := Int.toNat (max 1 (min 8 cnt0))
          let m1 := if sku ≠ "" then dictUpsert maps.1 sku var else maps.1
          let m2 :=
            if var ≠ "" ∧ (maps.2.lookup var).isNone then maps.2 ++ [(var, cnt)]
            else maps.2
          (m1, m2))
      ([], [])
  | _ => ([], [])

/-- Column indices found at a header block by `item_creator.run_step_C5_images`. -/
structure C5Ix where
  cover : Option Nat
  ipv : Option Nat
  sku : Option Nat
  varno : Option Nat
  items : List (Option Nat)
deriving DecidableEq

/-- Row loop of `item_creator.run_step_C5_images`: per data row it may restore
the variation cell, then write option, cover and detail-image URLs (the cover
suffix `_C_{shop}` only when a shop code is given, and `join_url` without a
`.jpg` suffix for the detail images). -/
def c5GoIC (s2v : List (String × String)) (v2c : List (String × Nat))
    (shop covB detB optB : String) :
    Nat → List (List String) → Option C5Ix → List CellUpd
  | _, [], _ => []
  | r0, row :: rest, st =>
    if isHeaderRow row then
      let keys := (row.drop 1).map headerKeyIC
      let ix : C5Ix :=
        { cover := findColIdx headerKeyIC keys "coverimage" []
          ipv := findColIdx headerKeyIC keys "imagepervariation" []
          sku := findColIdx headerKeyIC keys "sku" []
          varno := findColIdx headerKeyIC keys "variationintegration" []
          items := (List.range 8).map
            (fun j => findColIdx headerKeyIC keys ("itemimage" ++ toString (j + 1)) []) }
      c5GoIC s2v v2c shop covB detB optB (r0 + 1) rest (some ix)
    else
      match st with
      | none => c5GoIC s2v v2c shop covB detB optB (r0 + 1) rest st
      | some ix =>
        let sku :=
          match ix.sku with
          | some i => pyStrip (cell row (i + 1))
          | none => ""
        let fallbackVar :=
          match ix.varno with
          | some i => pyStrip (cell row (i + 1))
          | none => ""
        let var := (s2v.lookup sku).getD fallbackVar
        let key := if var ≠ "" then var else sku
        let suffix := if shop ≠ "" then "_C_" ++ shop else ""
        let uVar : List CellUpd :=
          match ix.varno with
          | some i =>
            if var ≠ "" ∧ cell row (i + 1) ≠ var then [⟨r0, i + 1, var⟩] else []
          | none => []
        let uOpt : List CellUpd :=
          match ix.ipv with
          | some i =>
            if sku ≠ "" ∧ cell row (i + 1) ≠ joinUrl optB sku then
              [⟨r0, i + 1, joinUrl optB sku⟩]
            else []
          | none => []
        let uCov : List CellUpd :=
          match ix.cover with
          | some i =>
            if key ≠ "" ∧ cell row (i + 1) ≠ joinUrl covB key ++ suffix ++ ".jpg" then
              [⟨r0, i + 1, joinUrl covB key ++ suffix ++ ".jpg"⟩]
            else []
          | none => []
        let count := (v2c.lookup var).getD 8
        let uItems : List CellUpd := (List.range 8).foldl
          (fun us j =>
            match ix.items.getD j none with
            | some i =>
              let val :=
                if j + 1 ≤ count then joinUrl detB key ++ "_D" ++ toString (j + 1) else ""
              if cell row (i + 1) ≠ val then us ++ [⟨r0, i + 1, val⟩] else us
            | none => us)
          []
        uVar ++ uOpt ++ uCov ++ uItems ++
          c5GoIC s2v v2c shop covB detB optB (r0 + 1) rest st

/-- `item_creator.run_step_C5_images` as a pure function returning the pending
cell writes. -/
def runC5IC (tem coll : List (List String)) (shop covB detB optB : String) :
    List CellUpd :=
  if tem.isEmpty then []
  else
    let maps := c5CollMapsIC coll
    c5GoIC maps.1 maps.2 shop covB detB optB 0 tem none

/-! ## CSV (`csv.writer` / `csv.reader`, default dialect)

`get_tem_values_csv` and `export_tem_csv` serialise the matrix with
`csv.writer` (delimiter `,`, quotechar `"`, minimal quoting, doubled quotes,
`\r\n` line ends); re-parsing is standard-CSV / `csv.reader` semantics.  The
`utf-8-sig` encoding only wraps the text in a byte-order mark and is outside
this text-level model. -/

/-- Minimal quoting: a field is quoted iff it contains the delimiter, the quote
character or a line-end character. -/
def needsQuote (f : String) : Bool :=
  f.toList.any (fun c => c = ',' || c = '"' || c = '\r' || c = '\n')

/-- Quote doubling inside a quoted field. -/
def escQ (c : Char) : List Char := if c = '"' then ['"', '"'] else [c]

/-- `csv.writer` rendering of one field. -/
def encodeField (f : String) : List Char :=
  if needsQuote f then '"' :: (f.toList.flatMap escQ) ++ ['"']
  else f.toList

/-- `csv.writer` rendering of one row.  CPython forces quoting of an empty
field when it is the only field of the record (`writerow([''])` emits `""`),
so that the record stays distinct from a blank line. -/
def encodeRow (r : List String) : List Char :=
  if r = [""] then ['"', '"']
  else (List.intercalate [','] (r.map encodeField))

/-- `csv.writer.writerows`: each row followed by CRLF. -/
def encodeCsv (m : List (List String)) : List Char :=
  (m.map (fun r => encodeRow r ++ ['\r', '\n'])).join

/-- Parser modes of the `csv.reader` state machine. -/
inductive CsvMode
  | sRec
  | sField
  | inFld
  | quot
  | quotEnd
  | eatCRNL
deriving DecidableEq

/-- Parser state: completed records, fields of the current record, the current
field buffer and the mode. -/
structure CsvSt where
  recs : List (List String)
  flds : List String
  buf : List Char
  mode : CsvMode
deriving DecidableEq

/-- One character step of the CSV reader (default dialect, non-strict). -/
def csvStep (st : CsvSt) (c : Char) : CsvSt :=
  match st.mode with
  | .sRec =>
    if c = '\r' then ⟨st.recs ++ [[]], [], [], .eatCRNL⟩
    else if c = '\n' then ⟨st.recs ++ [[]], [], [], .sRec⟩
    else if c = ',' then ⟨st.recs, [""], [], .sField⟩
    else if c = '"' then ⟨st.recs, st.flds, [], .quot⟩
    else ⟨st.recs, st.flds, [c], .inFld⟩
  | .sField =>
    if c = '\r' then ⟨st.recs ++ [st.flds ++ [""]], [], [], .eatCRNL⟩
    else if c = '\n' then ⟨st.recs ++ [st.flds ++ [""]], [], [], .sRec⟩
    else if c = ',' then ⟨st.recs, st.flds ++ [""], [], .sField⟩
    else if c = '"' then ⟨st.recs, st.flds, [], .quot⟩
    else ⟨st.recs, st.flds, [c], .inFld⟩
  | .inFld =>
    if c = '\r' then ⟨st.recs ++ [st.flds ++ [⟨st.buf⟩]], [], [], .eatCRNL⟩
    else if c = '\n' then ⟨st.recs ++ [st.flds ++ [⟨st.buf⟩]], [], [], .sRec⟩
    else if c = ',' then ⟨st.recs, st.flds ++ [⟨st.buf⟩], [], .sField⟩
    else ⟨st.recs, st.flds, st.buf ++ [c], .inFld⟩
  | .quot =>
    if c = '"' then ⟨st.recs, st.flds, st.buf, .quotEnd⟩
    else ⟨st.recs, st.flds, st.buf ++ [c], .quot⟩
  | .quotEnd =>
    if c = '"' then ⟨st.recs, st.flds, st.buf ++ ['"'], .quot⟩
    else if c = ',' then ⟨st.recs, st.flds ++ [⟨st.buf⟩], [], .sField⟩
    else if c = '\r' then ⟨st.recs ++ [st.flds ++ [⟨st.buf⟩]], [], [], .eatCRNL⟩
    else if c = '\n' then ⟨st.recs ++ [st.flds ++ [⟨st.buf⟩]], [], [], .sRec⟩
    else ⟨st.recs, st.flds, st.buf ++ [c], .inFld⟩
  | .eatCRNL =>
    if c = '\n' then ⟨st.recs, st.flds, st.buf, .sRec⟩
    else if c = '\r' then st
    else if c = ',' then ⟨st.recs, [""], [], .sField⟩
    else if c = '"' then ⟨st.recs, st.flds, [], .quot⟩
    else ⟨st.recs, st.flds, [c], .inFld⟩

/-- Flush at end of input. -/
def csvFinish (st : CsvSt) : List (List String) :=
  match st.mode with
  | .sRec => st.recs
  | .eatCRNL => st.recs
  | .sField => st.recs ++ [st.flds ++ [""]]
  | .inFld => st.recs ++ [st.flds ++ [⟨st.buf⟩]]
  | .quot => st.recs ++ [st.flds ++ [⟨st.buf⟩]]
  | .quotEnd => st.recs ++ [st.flds ++ [⟨st.buf⟩]]

/-- CSV parse of a character stream. -/
def parseCsv (s : List Char) : List (List String) :=
  csvFinish (s.foldl csvStep ⟨[], [], [], .sRec⟩)

/-- `re.sub(r"\s*-\s*", "-", s)`: the category normalisation of the export
helpers. -/
def normDashStr (s : String) : String := ⟨subWsAround '-' s.toList⟩

/-- The `processed_vals` matrix built by `shopee_creator.export_tem_csv`:
header rows and data rows lose the PID column, and the first cell of a data
row under a `Category` header has whitespace around hyphens removed. -/
def processedValsSC : Option (List String) → List (List String) → List (List String)
  | _, [] => []
  | cur, row :: rest =>
    if isHeaderRow row then (row.drop 1) :: processedValsSC (some (row.drop 1)) rest
    else if cur.isSome ∧ row.length > 1 then
      let dataRow := row.drop 1
      let dataRow2 :=
        if dataRow.length > 0 ∧ headerKeySC ((cur.getD []).headD "") = "category" then
          dataRow.set 0 (normDashStr (dataRow.headD ""))
        else dataRow
      dataRow2 :: processedValsSC cur rest
    else if row.length > 0 then (row.drop 1) :: processedValsSC cur rest
    else processedValsSC cur rest

/-- `shopee_creator.export_tem_csv` at text level: `none` for an empty sheet or
empty processed matrix, otherwise the CSV text of `processed_vals`. -/
def exportTemCsvSC (vals : List (List String)) : Option (List Char) :=
  if vals = [] then none
  else
    let pv := processedValsSC none vals
    if pv = [] then none else some (encodeCsv pv)

/-- `item_creator.ShopeeCreator.get_tem_values_csv` at text level: the raw
matrix is serialised unchanged. -/
def getTemValuesCsvIC (vals : List (List String)) : Option (List Char) :=
  if vals = [] then none else some (encodeCsv vals)

/-! ## Heap model of `forward_fill_by_group` (frame behaviour)

Python lists are mutable objects; to talk about aliasing and freshness the
function is embedded against an explicit object store.  Row objects and
matrix objects live in two arenas addressed by index; allocation appends. -/

/-- Object store: `rows` holds list-of-string objects, `mats` holds
list-of-row-address objects. -/
structure PyHeap where
  rows : List (List String)
  mats : List (List Nat)
deriving DecidableEq

/-- `item_creator.forward_fill_by_group` on the heap: `if not rows: return rows`
hands the argument back unchanged; otherwise `out = [list(r) for r in rows]`
allocates fresh row copies, the loop mutates only those copies (their final
values are `forwardFillIC` of the input values), and a fresh matrix object is
returned. -/
def ffHeapIC (h : PyHeap) (matA : Nat) (g : Nat) (cols : List Nat)
    (reset : List String → Bool) : PyHeap × Nat :=
  let addrs := h.mats.getD matA []
  if addrs = [] then (h, matA)
  else
    let outVals := forwardFillIC (addrs.map (fun a => h.rows.getD a [])) g cols reset
    let base := h.rows.length
    (⟨h.rows ++ outVals, h.mats ++ [(List.range outVals.length).map (base + ·)]⟩,
      h.mats.length)

/-- `shopee_creator.forward_fill_by_group` on the heap: `output = [list(row) for
row in data]` always allocates fresh copies, which the loop then mutates. -/
def ffHeapSC (h : PyHeap) (matA : Nat) (g : Nat) (cols : List Nat)
    (reset : List String → Bool) : PyHeap × Nat :=
  let addrs := h.mats.getD matA []
  let outVals := forwardFillSC (addrs.map (fun a => h.rows.getD a [])) g cols reset
  let base := h.rows.length
  (⟨h.rows ++ outVals, h.mats ++ [(List.range outVals.length).map (base + ·)]⟩,
    h.mats.length)

/-! ## Spec-side reference definitions -/

/-- Modelled from the spec: the nearest preceding non-blank value of column `c`
before data row `i`, searching upward within the same unbroken run — the scan
stops (yielding blank) at a fully-blank row or at the header row. -/
def nppGo (m : List (List String)) (c : Nat) : Nat → String
  | 0 => ""
  | j + 1 =>
    if fullyBlank (m.getD (j + 1) []) then ""
    else if !(isBlank (cell (m.getD (j + 1) []) c)) then cell (m.getD (j + 1) []) c
    else nppGo m c j

/-- Modelled from the spec: "the nearest preceding non-blank value of that
column within the same unbroken run of rows, where a fully-blank row breaks
the run". -/
def nearestPrevNonblank (m : List (List String)) (c : Nat) (i : Nat) : String :=
  nppGo m c (i - 1)

/-- Modelled from the spec: the nearest preceding non-blank value of column `c`
in the processed worksheet, scanning a start index downward but never below the
carry segment's start row `j` — at `j` the group-start row's own cell value is
returned whether or not it is blank. -/
def segNear (out : List (List String)) (c j : Nat) : Nat → String
  | 0 => cell (out.getD j []) c
  | k + 1 =>
    if k + 1 ≤ j then cell (out.getD j []) c
    else if !(isBlank (cell (out.getD (k + 1) []) c)) then cell (out.getD (k + 1) []) c
    else segNear out c j k

/-- Modelled from the spec: "the template-schema lookup key for a category path
is the normalization (lowercase, non-alphanumeric characters stripped) of the
path's top-level segment (the first segment of the slash-delimited path) with
any leading numeric id and hyphen removed". -/
def specTopKey (s : String) : String :=
  headerKeySC (stripCatIdSC ⟨s.toList.takeWhile (· ≠ '/')⟩)

/-! ## Concrete fixtures used by counterexamples and witnesses -/

/-- A TEM_OUTPUT block whose headers carry the image columns. -/
def temFix : List (List String) :=
  [["PID", "Category", "Variation Integration No.", "SKU", "Cover image",
      "Image per Variation", "Item Image 1", "Item Image 2"],
    ["V1", "101643 - Beauty/Makeup", "V1", "S1", "", "", "", ""]]

/-- A Collection sheet whose only product row requests zero detail images. -/
def collFix : List (List String) :=
  [["Create", "Variation", "SKU", "Brand", "x1", "Option", "x2", "Product Name",
      "x3", "Description", "Category", "Details Index"],
    ["TRUE", "V1", "S1", "", "", "", "", "", "", "", "101643 - Beauty/Makeup", "0"]]

/-- A minimal matrix for the forward-fill counterexample: two rows of the same
variation group, the second restating the group key with a blank description. -/
def ffFix : List (List String) := [["h", "hd"], ["V1", "D1"], ["V1", ""]]

/-- A sheet whose third row continues its group with a blank key and receives a
forward-filled value. -/
def ffW : List (List String) :=
  [["h", "x", "x2"], ["V1", "D1", "a"], ["", "", "b"]]

/-- TEM block whose only recognisable sku column is the `SKU Price` column
itself (the `sku` lookup falls through to substring matching). -/
def c4Tem : List (List String) := [["PID", "Category", "SKU Price"], ["p", "cat", "A"]]

/-- MARGIN data mapping `A ↦ B` and `B ↦ C`. -/
def c4Mg : List (List String) := [["SKU", "소비자가"], ["A", "B"], ["B", "C"]]

/-- TEM block with a resolved brand (`Nike`) in the brand column. -/
def c6Tem : List (List String) :=
  [["PID", "Category", "SKU", "Stock", "Brand"], ["p", "c", "S1", "", "Nike"]]

/-- TEM block with a category containing hyphen-adjacent spaces. -/
def csvFix : List (List String) :=
  [["PID", "Category", "Product Name", "SKU"], ["V1", "101643 - Beauty", "N", "S1"]]

/-! ## Claim theorems -/

/-- C6: a Collection row whose create flag is not true (after forward-fill)
contributes nothing in Step C2 — the row loop of both implementations leaves
the buckets and the failure log untouched, so no output row reaches any bucket
and nothing is appended to TEM_OUTPUT for that row. -/
theorem claim_C6_create_false_no_output (td : List (String × List String))
    (ix : CollIdx) (ri : Nat) (st : C2State) (row : List String)
    (h : isTrueStr (cell row ix.create) = false) :
    c2RowIC td ix ri st row = st ∧ c2RowSC td ix ri st row = st := by
  constructor <;> simp [c2RowIC, c2RowSC, h]

/-- Witness for C6 at a concrete skipped row. -/
theorem claim_C6_witness :
    isTrueStr (cell ["FALSE", "V1"] 0) = false ∧
      c2RowIC [] ⟨0, 1, 2, 3, 5, 7, 9, 10, 11⟩ 1 ⟨[], []⟩ ["FALSE", "V1"] = ⟨[], []⟩ ∧
      c2RowSC [] ⟨0, 1, 2, 3, 5, 7, 9, 10, 11⟩ 1 ⟨[], []⟩ ["FALSE", "V1"] = ⟨[], []⟩ :=
  ⟨by decide,
    (claim_C6_create_false_no_output [] ⟨0, 1, 2, 3, 5, 7, 9, 10, 11⟩ 1 ⟨[], []⟩
      ["FALSE", "V1"] (by decide)).1,
    (claim_C6_create_false_no_output [] ⟨0, 1, 2, 3, 5, 7, 9, 10, 11⟩ 1 ⟨[], []⟩
      ["FALSE", "V1"] (by decide)).2⟩

/-- C9: in the item variant of Step C2, a processed row (create true) with an
empty category, or with a top-level category absent from the TemplateDict,
yields no bucket row and exactly one five-field failure record with the
respective reason; the rest of the state is untouched, so no other row is
affected. -/
theorem claim_C9_failure_records (td : List (String × List String)) (ix : CollIdx)
    (ri : Nat) (st : C2State) (row : List String)
    (hc : isTrueStr (cell row ix.create) = true) :
    (pyStrip (cell row ix.category) = "" →
      ∃ rec, c2RowIC td ix ri st row = ⟨st.buckets, st.failures ++ [rec]⟩ ∧
        rec.length = 5 ∧ rec.getD 3 "" = "CATEGORY_MISSING") ∧
    (pyStrip (cell row ix.category) ≠ "" →
      (td.lookup (headerKeyIC ((topOfCategoryIC (pyStrip (cell row ix.category))).getD ""))).getD [] = [] →
      ∃ rec, c2RowIC td ix ri st row = ⟨st.buckets, st.failures ++ [rec]⟩ ∧
        rec.length = 5 ∧ rec.getD 3 "" = "TEMPLATE_TOPLEVEL_NOT_FOUND") := by
  constructor
  · intro hcat
    refine ⟨[(if pyStrip (cell row ix.variation) ≠ "" then pyStrip (cell row ix.variation)
        else if pyStrip (cell row ix.sku) ≠ "" then pyStrip (cell row ix.sku)
        else "ROW" ++ toString (ri + 1)), "", pyStrip (cell row ix.prodName),
        "CATEGORY_MISSING", "row=" ++ toString (ri + 1)], ?_, by simp, by simp⟩
    simp [c2RowIC, hc, hcat]
  · intro hcat htd
    refine ⟨["", pyStrip (cell row ix.category), pyStrip (cell row ix.prodName),
        "TEMPLATE_TOPLEVEL_NOT_FOUND",
        "top=" ++ optStr (topOfCategoryIC (pyStrip (cell row ix.category)))], ?_,
      by simp, by simp⟩
    simp [c2RowIC, hc, hcat, htd]

/-- Witness for C9: one row missing its category, one row whose top level is
not in the TemplateDict. -/
theorem claim_C9_witness :
    (∃ rec, c2RowIC [("beauty", ["Category"])] ⟨0, 1, 2, 3, 5, 7, 9, 10, 11⟩ 1 ⟨[], []⟩
        ["TRUE", "V9", "S9", "", "", "", "", "", "", "", ""] = ⟨[], [rec]⟩ ∧
        rec.length = 5 ∧ rec.getD 3 "" = "CATEGORY_MISSING") ∧
    (∃ rec, c2RowIC [("beauty", ["Category"])] ⟨0, 1, 2, 3, 5, 7, 9, 10, 11⟩ 1 ⟨[], []⟩
        ["TRUE", "V9", "S9", "", "", "", "", "", "", "", "Toys/Dolls"] = ⟨[], [rec]⟩ ∧
        rec.length = 5 ∧ rec.getD 3 "" = "TEMPLATE_TOPLEVEL_NOT_FOUND") := by
  constructor
  · exact (claim_C9_failure_records [("beauty", ["Category"])] ⟨0, 1, 2, 3, 5, 7, 9, 10, 11⟩
      1 ⟨[], []⟩ ["TRUE", "V9", "S9", "", "", "", "", "", "", "", ""] (by decide)).1
      (by decide)
  · exact (claim_C9_failure_records [("beauty", ["Category"])] ⟨0, 1, 2, 3, 5, 7, 9, 10, 11⟩
      1 ⟨[], []⟩ ["TRUE", "V9", "S9", "", "", "", "", "", "", "", "Toys/Dolls"] (by decide)).2
      (by decide) (by decide)

/-- C1 counterexample: in `item_creator.run_step_C5_images` the Collection row
of variation `V1` carries Details Index `"0"`, so by the claim (count clamped
to `[0,8]`) every detail-image cell should stay empty and any filled cell
should match `_D{n}.jpg` — yet the step writes
`https://img.example.com/V1_D1` (count clamped to `[1,8]`, no `.jpg`). -/
theorem claim_C1_counterexample :
    cell ((applyUpds temFix (runC5IC temFix collFix "TH01" "https://img.example.com"
        "https://img.example.com" "https://img.example.com")).getD 1 []) 6 =
      "https://img.example.com/V1_D1" ∧
    pyStrip (cell (collFix.getD 1 []) 11) = "0" ∧
    ("https://img.example.com/V1_D1" : String) ≠ "" ∧
    ("https://img.example.com/V1_D1" : String) ≠ "https://img.example.com/V1_D1.jpg" := by
  decide

/-- C2 counterexample: in `item_creator.forward_fill_by_group` the second row
of the `V1` group (which restates the group key) keeps its blank description
although the nearest preceding non-blank value within the unbroken run is
`D1`. -/
theorem claim_C2_counterexample :
    cell ((forwardFillIC ffFix 0 [1] fullyBlank).getD 2 []) 1 = "" ∧
    isBlank (cell (ffFix.getD 2 []) 1) = true ∧
    fullyBlank (ffFix.getD 2 []) = false ∧
    nearestPrevNonblank (forwardFillIC ffFix 0 [1] fullyBlank) 1 2 = "D1" ∧
    ("" : String) ≠ "D1" := by
  decide

/-- C3 counterexample: when the only sku-like column of a block is `SKU Price`
itself, the price write feeds the next run's sku lookup, and a second run of
Step C4 with the same MARGIN data writes again (`A ↦ B`, then `B ↦ C`). -/
theorem claim_C3_counterexample :
    runC4IC c4Tem c4Mg = [⟨1, 2, "B"⟩] ∧
    runC4IC (applyUpds c4Tem (runC4IC c4Tem c4Mg)) c4Mg = [⟨1, 2, "C"⟩] ∧
    ([⟨1, 2, "C"⟩] : List CellUpd).length ≠ 0 := by
  decide

/-- C4 counterexample: Step C6 (item variant) writes the brand placeholder `0`
even though the row's brand was resolved to `Nike`, and the shopee variant
aborts with `UnboundLocalError` instead of writing days-to-ship `1`. -/
theorem claim_C4_counterexample :
    (runC6IC c6Tem [] = [⟨1, 3, "1000"⟩, ⟨1, 4, "0"⟩] ∧
      cell (c6Tem.getD 1 []) 4 = "Nike" ∧
      ("Nike" : String) ≠ "" ∧
      cell ((applyUpds c6Tem (runC6IC c6Tem [])).getD 1 []) 4 = "0") ∧
    runC6SC c6Tem [] = Except.error "UnboundLocalError: idx_t_days" :=
  ⟨by decide, rfl⟩

/-- C5 counterexample: exporting and re-parsing loses the category spelling —
the written triple is `("101643 - Beauty", "S1", "N")` but the re-parsed data
row reads `("101643-Beauty", "S1", "N")`. -/
theorem claim_C5_counterexample :
    (exportTemCsvSC csvFix).map parseCsv =
      some [["Category", "Product Name", "SKU"], ["101643-Beauty", "N", "S1"]] ∧
    cell (csvFix.getD 1 []) 1 = "101643 - Beauty" ∧
    ("101643-Beauty" : String) ≠ "101643 - Beauty" := by
  decide

/-- C7 counterexample: the item variant's lookup key keeps hyphens, so for the
category `Mom-Baby/Toys` the derived key is `mom-baby`, not the claim's
alphanumeric-only normalisation `mombaby`. -/
theorem claim_C7_counterexample :
    headerKeyIC ((topOfCategoryIC "Mom-Baby/Toys").getD "") = "mom-baby" ∧
    specTopKey "Mom-Baby/Toys" = "mombaby" ∧
    ("mom-baby" : String) ≠ "mombaby" := by
  decide

/-- C10 counterexample: on an empty matrix `forward_fill_by_group` (item
variant) returns its argument object itself (`if not rows: return rows`), not
a freshly constructed matrix — the returned address `0` is the input address. -/
theorem claim_C10_counterexample :
    ffHeapIC ⟨[], [[]]⟩ 0 1 [2] fullyBlank = (⟨[], [[]]⟩, 0) ∧
    (0 : Nat) < (⟨[], [[]]⟩ : PyHeap).mats.length := by
  decide

/-- C10 (amended): on a non-empty matrix the item variant allocates a fresh
matrix of fresh row objects and leaves every pre-existing object unchanged; on
an empty matrix it returns the argument unchanged; the shopee variant always
returns a fresh matrix with the same frame guarantee. -/
theorem claim_C10_frame (h : PyHeap) (matA g : Nat) (cols : List Nat)
    (reset : List String → Bool) :
    (h.mats.getD matA [] ≠ [] →
      (∀ i, i < h.rows.length →
        (ffHeapIC h matA g cols reset).1.rows.getD i [] = h.rows.getD i []) ∧
      (∀ j, j < h.mats.length →
        (ffHeapIC h matA g cols reset).1.mats.getD j [] = h.mats.getD j []) ∧
      (ffHeapIC h matA g cols reset).2 = h.mats.length ∧
      (∀ a ∈ (ffHeapIC h matA g cols reset).1.mats.getD h.mats.length [],
        h.rows.length ≤ a)) ∧
    (h.mats.getD matA [] = [] → ffHeapIC h matA g cols reset = (h, matA)) ∧
    ((∀ i, i < h.rows.length →
        (ffHeapSC h matA g cols reset).1.rows.getD i [] = h.rows.getD i []) ∧
      (∀ j, j < h.mats.length →
        (ffHeapSC h matA g cols reset).1.mats.getD j [] = h.mats.getD j []) ∧
      (ffHeapSC h matA g cols reset).2 = h.mats.length ∧
      (∀ a ∈ (ffHeapSC h matA g cols reset).1.mats.getD h.mats.length [],
        h.rows.length ≤ a)) := by
  have frame : ∀ (out : List (List String)),
      (∀ i, i < h.rows.length → (h.rows ++ out).getD i [] = h.rows.getD i []) ∧
      (∀ j, j < h.mats.length →
        (h.mats ++ [(List.range out.length).map (h.rows.length + ·)]).getD j [] =
          h.mats.getD j []) ∧
      (∀ a ∈ (h.mats ++ [(List.range out.length).map (h.rows.length + ·)]).getD
          h.mats.length [], h.rows.length ≤ a) := by
    intro out
    refine ⟨fun i hi => List.getD_append _ _ _ _ hi,
      fun j hj => List.getD_append _ _ _ _ hj, ?_⟩
    intro a ha
    rw [List.getD_append_right _ _ _ _ (le_refl _), Nat.sub_self,
      List.getD_cons_zero, List.mem_map] at ha
    obtain ⟨x, _, hx⟩ := ha
    omega
  refine ⟨fun hne => ?_, fun he => ?_, ?_⟩
  · have e : ffHeapIC h matA g cols reset =
        ({ rows := h.rows ++ forwardFillIC
              ((h.mats.getD matA []).map (fun a => h.rows.getD a [])) g cols reset,
           mats := h.mats ++
              [(List.range (forwardFillIC
                ((h.mats.getD matA []).map (fun a => h.rows.getD a [])) g cols
                  reset).length).map (h.rows.length + ·)] },
          h.mats.length) := by
      unfold ffHeapIC
      rw [if_neg hne]
    rw [e]
    obtain ⟨f1, f2, f3⟩ := frame (forwardFillIC
      ((h.mats.getD matA []).map (fun a => h.rows.getD a [])) g cols reset)
    exact ⟨f1, f2, rfl, f3⟩
  · unfold ffHeapIC
    rw [if_pos he]
  · have e : ffHeapSC h matA g cols reset =
        ({ rows := h.rows ++ forwardFillSC
              ((h.mats.getD matA []).map (fun a => h.rows.getD a [])) g cols reset,
           mats := h.mats ++
              [(List.range (forwardFillSC
                ((h.mats.getD matA []).map (fun a => h.rows.getD a [])) g cols
                  reset).length).map (h.rows.length + ·)] },
          h.mats.length) := rfl
    rw [e]
    obtain ⟨f1, f2, f3⟩ := frame (forwardFillSC
      ((h.mats.getD matA []).map (fun a => h.rows.getD a [])) g cols reset)
    exact ⟨f1, f2, rfl, f3⟩

/-- Values of a string association lookup with a non-blank default. -/
theorem lookup_of_getD_ne (m : List (String × String)) (k : String)
    (h : (m.lookup k).getD "" ≠ "") : m.lookup k = some ((m.lookup k).getD "") := by
  cases hm : m.lookup k with
  | none => rw [hm] at h; simp at h
  | some v => simp

/-- Every cell write produced by the item variant of Step C6 carries `1000`,
`0`, or a MARGIN weight. -/
theorem c6Go_val_shape (wmap : List (String × String)) :
    ∀ (rows : List (List String)) (r0 : Nat)
      (st : Option (Option Nat × Option Nat × Option Nat × Option Nat))
      (u : CellUpd), u ∈ c6GoIC wmap r0 rows st →
      u.val = "1000" ∨ u.val = "0" ∨ ∃ k, wmap.lookup k = some u.val := by
  intro rows
  induction rows with
  | nil => intro r0 st u hu; simp [c6GoIC] at hu
  | cons row rest ih =>
    intro r0 st u hu
    by_cases hh : isHeaderRow row
    · simp only [c6GoIC, hh, if_true] at hu
      exact ih _ _ u hu
    · rcases st with _ | ⟨iS, iStock, iW, iB⟩
      · simp only [c6GoIC, hh, if_false, Bool.false_eq_true] at hu
        exact ih _ _ u hu
      · rcases iS with _ | iS
        · simp only [c6GoIC, hh, if_false, Bool.false_eq_true] at hu
          exact ih _ _ u hu
        · simp only [c6GoIC, hh, if_false, Bool.false_eq_true] at hu
          by_cases hsku : pyStrip (cell row (iS + 1)) = ""
          · rw [if_pos hsku] at hu
            exact ih _ _ u hu
          · rw [if_neg hsku] at hu
            simp only [List.mem_append] at hu
            rcases hu with ((⟨hu1 | hu2⟩ | hu3) | hurec)
            · rcases iStock with _ | j
              · simp at hu1
              · simp only at hu1
                split at hu1 <;> simp at hu1
                left; rw [hu1]
            · rcases iB with _ | j
              · simp at hu2
              · simp only at hu2
                split at hu2 <;> simp at hu2
                right; left; rw [hu2]
            · rcases iW with _ | j
              · simp at hu3
              · simp only at hu3
                split at hu3 <;> simp at hu3
                rename_i hcond
                right; right
                refine ⟨pyStrip (cell row (iS + 1)), ?_⟩
                rw [hu3]
                exact lookup_of_getD_ne _ _ hcond.1
            · exact ih _ _ u hurec

/-- C4 (amended): in the item variant of Step C6, every data row with a
non-blank sku gets stock `1000` and the brand placeholder `0` written
unconditionally (unless the cell already holds that value) — the placeholder
is not limited to rows without a resolved brand — and no other values than
`1000`, `0` and MARGIN weights are ever written (in particular no days-to-ship
default); the shopee variant aborts with `UnboundLocalError` on the first such
row, so its days-to-ship branch never runs. -/
theorem claim_C4_defaults :
    (∀ tem mg u, u ∈ runC6IC tem mg →
        u.val = "1000" ∨ u.val = "0" ∨ ∃ k, (c6WeightMapIC mg).lookup k = some u.val) ∧
    (∀ (wmap : List (String × String)) r0 row rest iS iW iB (j : Nat),
        isHeaderRow row = false → pyStrip (cell row (iS + 1)) ≠ "" →
        (pyStrip (cell row (j + 1)) = "1000" ∨
          (⟨r0, j + 1, "1000"⟩ : CellUpd) ∈
            c6GoIC wmap r0 (row :: rest) (some (some iS, some j, iW, iB)))) ∧
    (∀ (wmap : List (String × String)) r0 row rest iS iStock iW (j : Nat),
        isHeaderRow row = false → pyStrip (cell row (iS + 1)) ≠ "" →
        (pyStrip (cell row (j + 1)) = "0" ∨
          (⟨r0, j + 1, "0"⟩ : CellUpd) ∈
            c6GoIC wmap r0 (row :: rest) (some (some iS, iStock, iW, some j)))) ∧
    (∀ (wmap : List (String × String)) row rest iS iStock iW iB,
        isHeaderRow row = false → pyStrip (cell row (iS + 1)) ≠ "" →
        c6GoSC wmap (row :: rest) (some (some iS, iStock, iW, iB)) =
          Except.error "UnboundLocalError: idx_t_days") := by
  refine ⟨?_, ?_, ?_, ?_⟩
  · intro tem mg u hu
    unfold runC6IC at hu
    split at hu
    · simp at hu
    · exact c6Go_val_shape _ _ _ _ u hu
  · intro wmap r0 row rest iS iW iB j hh hsku
    by_cases hc : pyStrip (cell row (j + 1)) = "1000"
    · exact Or.inl hc
    · refine Or.inr ?_
      simp only [c6GoIC, hh, if_false, Bool.false_eq_true, if_neg hsku]
      simp [hc]
  · intro wmap r0 row rest iS iStock iW j hh hsku
    by_cases hc : pyStrip (cell row (j + 1)) = "0"
    · exact Or.inl hc
    · refine Or.inr ?_
      simp only [c6GoIC, hh, if_false, Bool.false_eq_true, if_neg hsku]
      simp [hc]
  · intro wmap row rest iS iStock iW iB hh hsku
    simp [c6GoSC, hh, hsku]

/-- Witness for the C4 theorem at the `Nike` row of `c6Tem`. -/
theorem claim_C4_defaults_witness :
    (⟨1, 3, "1000"⟩ : CellUpd).val = "1000" ∨ (⟨1, 3, "1000"⟩ : CellUpd).val = "0" ∨
      ∃ k, ((c6WeightMapIC []).lookup k) = some (⟨1, 3, "1000"⟩ : CellUpd).val :=
  claim_C4_defaults.1 c6Tem [] ⟨1, 3, "1000"⟩ (by decide)

theorem stepOf_len (tgt : Nat → Option Nat) (v : Nat → String) :
    ∀ (js : List Nat) (d : List String), (js.foldl (stepOf tgt v) d).length = d.length := by
  intro js
  induction js with
  | nil => intro d; rfl
  | cons j rest ih =>
    intro d
    rw [List.foldl_cons, ih]
    unfold stepOf
    cases tgt j with
    | none => rfl
    | some i =>
      by_cases hi : i < d.length
      · simp [hi]
      · simp [hi]

theorem stepOf_other (tgt : Nat → Option Nat) (v : Nat → String) (i : Nat) :
    ∀ (js : List Nat) (d : List String), (∀ j ∈ js, tgt j ≠ some i) →
      cell (js.foldl (stepOf tgt v) d) i = cell d i := by
  intro js
  induction js with
  | nil => intro d _; rfl
  | cons j rest ih =>
    intro d hj
    rw [List.foldl_cons, ih _ (fun x hx => hj x (List.mem_cons_of_mem _ hx))]
    unfold stepOf
    cases ht : tgt j with
    | none => rfl
    | some a =>
      have ha : a ≠ i := by
        intro h
        exact hj j (List.mem_cons_self _ _) (by rw [ht, h])
      by_cases hb : a < d.length
      · simp only [hb, if_true]
        unfold cell
        rw [List.getD_eq_getElem?_getD, List.getD_eq_getElem?_getD,
          List.getElem?_set_ne ha]
      · simp [hb]

theorem stepOf_last (tgt : Nat → Option Nat) (v : Nat → String) (i n1 : Nat) :
    ∀ (js : List Nat) (d : List String), js.Nodup → n1 ∈ js → tgt n1 = some i →
      (∀ j ∈ js, j ≠ n1 → tgt j ≠ some i) → i < d.length →
      cell (js.foldl (stepOf tgt v) d) i = v n1 := by
  intro js
  induction js with
  | nil => intro d _ h; simp at h
  | cons j rest ih =>
    intro d hnd hmem ht hothers hlen
    rcases List.mem_cons.1 hmem with he | hr
    · subst he
      rw [List.foldl_cons]
      have h1 : cell (stepOf tgt v d n1) i = v n1 := by
        unfold stepOf
        rw [ht]
        simp only [hlen, if_true]
        unfold cell
        rw [List.getD_eq_getElem?_getD, List.getElem?_set_self hlen]
        rfl
      have h2 : ∀ x ∈ rest, tgt x ≠ some i := by
        intro x hx
        have hxne : x ≠ n1 := by
          intro he2
          subst he2
          exact (List.nodup_cons.1 hnd).1 hx
        exact hothers x (List.mem_cons_of_mem _ hx) hxne
      rw [stepOf_other tgt v i rest _ h2, h1]
    · rw [List.foldl_cons]
      have hlen2 : i < (stepOf tgt v d j).length := by
        unfold stepOf
        cases tgt j with
        | none => exact hlen
        | some a =>
          by_cases hb : a < d.length
          · simpa [hb] using hlen
          · simpa [hb] using hlen
      exact ih _ (List.nodup_cons.1 hnd).2 hr ht
        (fun x hx => hothers x (List.mem_cons_of_mem _ hx)) hlen2

/-- `lookup` hits are members. -/
theorem lookup_mem {α β : Type} [BEq α] [LawfulBEq α] {l : List (α × β)} {k : α}
    {v : β} (h : l.lookup k = some v) : (k, v) ∈ l := by
  induction l with
  | nil => simp [List.lookup] at h
  | cons p rest ih =>
    cases he : (k == p.1) with
    | true =>
      simp only [List.lookup, he] at h
      have hk : k = p.1 := eq_of_beq he
      have hv : p.2 = v := by
        cases h
        rfl
      have he2 : (k, v) = p := by
        rw [hk, ← hv]
      rw [he2]
      exact List.mem_cons_self _ _
    | false =>
      simp only [List.lookup, he] at h
      exact List.mem_cons_of_mem _ (ih h)

theorem dictUpsertN_mem {m : List (String × Nat)} {k : String} {v : Nat} {p} :
    p ∈ dictUpsertN m k v → p.2 = v ∨ p ∈ m := by
  intro hp
  unfold dictUpsertN at hp
  split at hp
  · rw [List.mem_map] at hp
    obtain ⟨q, hq, he⟩ := hp
    by_cases hqk : q.1 = k
    · rw [if_pos hqk] at he
      left
      rw [← he]
    · rw [if_neg hqk] at he
      right
      rw [← he]
      exact hq
  · rcases List.mem_append.1 hp with h | h
    · exact Or.inr h
    · left
      simp at h
      rw [h]

/-- Every Details-Index count stored by `_build_details_count_by_var` is
clamped to at most 8. -/
theorem buildDmap_le8 (coll : List (List String)) (v : String) (d : Nat)
    (h : (buildDmapSC coll).lookup v = some d) : d ≤ 8 := by
  have main : ∀ (iv idt : Nat) (rs : List (List String)) (acc : List (String × Nat)),
      (∀ p ∈ acc, p.2 ≤ 8) →
      ∀ p ∈ rs.foldl (fun m row =>
        if row.length ≤ max iv idt then m
        else
          let vn := pyStrip (cell row iv)
          if vn = "" then m
          else
            let dr := pyStrip (cell row idt)
            let dc : Int := if dr = "" then 0 else (parseFloatTrunc dr).getD 0
            dictUpsertN m vn (Int.toNat (max 0 (min 8 dc)))) acc, p.2 ≤ 8 := by
    intro iv idt rs
    induction rs with
    | nil => intro acc hacc p hp; exact hacc p hp
    | cons row rest ih =>
      intro acc hacc p hp
      rw [List.foldl_cons] at hp
      refine ih _ ?_ p hp
      intro q hq
      split at hq
      · exact hacc q hq
      · dsimp only [] at hq
        split at hq
        · exact hacc q hq
        · rcases dictUpsertN_mem hq with he | hm
          · rw [he]; omega
          · exact hacc q hm
  have key : ∀ p ∈ buildDmapSC coll, p.2 ≤ 8 := by
    unfold buildDmapSC
    split
    · simp
    · dsimp only []
      split
      · rename_i iv idt heq1 heq2
        exact main iv idt _ [] (by simp)
      · simp
  exact key _ (lookup_mem h)

/-- Data rows of `runC5SCvalues` are produced by `c5RowSC`. -/
theorem runC5SC_getD (tem coll : List (List String)) (b shop : String)
    (out : List (List String)) (hr off : Nat) (ix : IxMap) (r : Nat)
    (hrun : runC5SCvalues tem coll b shop = some out)
    (hfind : findHeaderSC tem = some (hr, off, ix))
    (hlt : hr < r) (hrlen : r < tem.length) :
    out.getD r [] = c5RowSC ix off (buildDmapSC coll) (c5Base b) shop (tem.getD r []) := by
  have hne : tem.isEmpty = false := by
    cases tem with
    | nil => simp at hrlen
    | cons a t => rfl
  unfold runC5SCvalues at hrun
  rw [hne] at hrun
  simp only [Bool.false_eq_true, if_false] at hrun
  rw [hfind] at hrun
  simp only [Option.some.injEq] at hrun
  subst hrun
  have hlen : (tem.take (hr + 1)).length = hr + 1 := by
    rw [List.length_take]
    omega
  have hle : (tem.take (hr + 1)).length ≤ r := by rw [hlen]; omega
  rw [List.getD_append_right _ _ _ _ hle, hlen]
  rw [List.getD_eq_getElem?_getD, List.getElem?_map, List.getElem?_drop]
  have hidx : hr + 1 + (r - (hr + 1)) = r := by omega
  rw [hidx, List.getElem?_eq_getElem hrlen]
  rw [List.getD_eq_getElem?_getD, List.getElem?_eq_getElem hrlen]
  rfl

theorem c5CoverW_len (ix : IxMap) (base shop varNo : String) (data : List String) :
    (c5CoverW ix base shop varNo data).length = data.length := by
  unfold c5CoverW
  cases ix.cover with
  | none => rfl
  | some a =>
    by_cases hb : a < data.length
    · simp [hb]
    · simp [hb]

theorem c5IpvW_len (ix : IxMap) (base sku : String) (data : List String) :
    (c5IpvW ix base sku data).length = data.length := by
  unfold c5IpvW
  cases ix.ipv with
  | none => rfl
  | some a =>
    by_cases hb : a < data.length
    · simp [hb]
    · simp [hb]

theorem c5CoverW_other (ix : IxMap) (base shop varNo : String) (data : List String)
    (i : Nat) (h : ix.cover ≠ some i) :
    cell (c5CoverW ix base shop varNo data) i = cell data i := by
  unfold c5CoverW
  cases hc : ix.cover with
  | none => rfl
  | some a =>
    have ha : a ≠ i := fun he => h (by rw [hc, he])
    by_cases hb : a < data.length
    · simp only [hb, if_true]
      unfold cell
      rw [List.getD_eq_getElem?_getD, List.getD_eq_getElem?_getD,
        List.getElem?_set_ne ha]
    · simp [hb]

theorem c5IpvW_other (ix : IxMap) (base sku : String) (data : List String)
    (i : Nat) (h : ix.ipv ≠ some i) :
    cell (c5IpvW ix base sku data) i = cell data i := by
  unfold c5IpvW
  cases hc : ix.ipv with
  | none => rfl
  | some a =>
    have ha : a ≠ i := fun he => h (by rw [hc, he])
    by_cases hb : a < data.length
    · simp only [hb, if_true]
      unfold cell
      rw [List.getD_eq_getElem?_getD, List.getD_eq_getElem?_getD,
        List.getElem?_set_ne ha]
    · simp [hb]

theorem c5CoverW_hit (ix : IxMap) (base shop varNo : String) (data : List String)
    (i : Nat) (h : ix.cover = some i) (hl : i < data.length) :
    cell (c5CoverW ix base shop varNo data) i =
      (if varNo ≠ "" ∧ shop ≠ "" then base ++ varNo ++ "_C_" ++ shop ++ ".jpg" else "") := by
  unfold c5CoverW
  rw [h]
  simp only [hl, if_true]
  unfold cell
  rw [List.getD_eq_getElem?_getD, List.getElem?_set_self hl]
  rfl

/-- C1 (amended, shopee variant): in `run_step_C5_images_values` the detail
image cell `n` of a data row holds `{base}/{v}_D{n}.jpg` exactly when the
row's variation id `v` is non-blank and `n` is at most the Details-Index
count of `v` (clamped to `[0, 8]`, absent variations counting 0), and is the
empty string otherwise; every stored count is at most 8.  The `item_creator`
variant behaves differently (see the counterexample). -/
theorem claim_C1_detail_images :
    (∀ (tem coll : List (List String)) (b shop : String) (out : List (List String))
      (hr off : Nat) (ix : IxMap) (r n i : Nat),
      runC5SCvalues tem coll b shop = some out →
      findHeaderSC tem = some (hr, off, ix) →
      hr < r → r < tem.length →
      1 ≤ n → n ≤ 8 →
      ix.items.getD (n - 1) none = some i →
      i < ((tem.getD r []).drop off).length →
      ix.cover ≠ some i → ix.ipv ≠ some i →
      (∀ m, m < 8 → m ≠ n - 1 → ix.items.getD m none ≠ some i) →
      cell (out.getD r []) (off + i) =
        (if c5VarNo ix ((tem.getD r []).drop off) ≠ "" ∧
            n ≤ ((buildDmapSC coll).lookup (c5VarNo ix ((tem.getD r []).drop off))).getD 0
          then
            c5Base b ++ c5VarNo ix ((tem.getD r []).drop off) ++ "_D" ++ toString n ++ ".jpg"
          else "")) ∧
    (∀ coll v d, (buildDmapSC coll).lookup v = some d → d ≤ 8) := by
  constructor
  · intro tem coll b shop out hr off ix r n i hrun hfind hlt hrlen hn1 hn8 hitem hilen
      hcov hipv hoth
    rw [runC5SC_getD tem coll b shop out hr off ix r hrun hfind hlt hrlen]
    have hne : ((tem.getD r []).drop off).isEmpty = false := by
      cases hd : (tem.getD r []).drop off with
      | nil => rw [hd] at hilen; simp at hilen
      | cons a t => rfl
    simp only [c5RowSC, hne, Bool.false_eq_true, if_false]
    have hofflt : off ≤ (tem.getD r []).length := by
      by_contra hc
      push_neg at hc
      have : (tem.getD r []).drop off = [] := List.drop_eq_nil_of_le (le_of_lt hc)
      rw [this] at hilen
      simp at hilen
    have htake : ((tem.getD r []).take off).length = off := by
      rw [List.length_take]
      omega
    have htle : ((tem.getD r []).take off).length ≤ off + i := by omega
    unfold cell
    rw [List.getD_append_right _ _ _ _ htle, htake, Nat.add_sub_cancel_left]
    have hd2len :
        (c5IpvW ix (c5Base b) (c5SkuOf ix ((tem.getD r []).drop off))
          (c5CoverW ix (c5Base b) shop (c5VarNo ix ((tem.getD r []).drop off))
            ((tem.getD r []).drop off))).length =
          ((tem.getD r []).drop off).length := by
      rw [c5IpvW_len, c5CoverW_len]
    have := stepOf_last (fun j => ix.items.getD j none)
      (fun j =>
        if c5VarNo ix ((tem.getD r []).drop off) ≠ "" ∧
            j + 1 ≤ ((buildDmapSC coll).lookup
              (c5VarNo ix ((tem.getD r []).drop off))).getD 0 then
          c5Base b ++ c5VarNo ix ((tem.getD r []).drop off) ++ "_D" ++
            toString (j + 1) ++ ".jpg"
        else "") i (n - 1) (List.range 8)
      (c5IpvW ix (c5Base b) (c5SkuOf ix ((tem.getD r []).drop off))
        (c5CoverW ix (c5Base b) shop (c5VarNo ix ((tem.getD r []).drop off))
          ((tem.getD r []).drop off)))
      (List.nodup_range 8) (List.mem_range.2 (by omega)) hitem
      (fun j hj hne2 => hoth j (List.mem_range.1 hj) hne2)
      (by rw [hd2len]; exact hilen)
    unfold cell at this
    rw [this]
    have hnn : n - 1 + 1 = n := by omega
    simp only [hnn]
  · exact buildDmap_le8

/-- C8 (amended): in Step C5 (shopee variant) a data row with a non-blank
variation id `v` and a non-empty shop code `s` gets its cover-image cell set
to `{base}/{v}_C_{s}.jpg`.  The `item_creator` variant keys the URL by the
collection's sku-to-variation mapping, which can override the row's own
variation id (see the counterexample). -/
theorem claim_C8_cover_urls (tem coll : List (List String)) (b shop : String)
    (out : List (List String)) (hr off : Nat) (ix : IxMap) (r i : Nat)
    (hrun : runC5SCvalues tem coll b shop = some out)
    (hfind : findHeaderSC tem = some (hr, off, ix))
    (hlt : hr < r) (hrlen : r < tem.length)
    (hcov : ix.cover = some i)
    (hilen : i < ((tem.getD r []).drop off).length)
    (hipv : ix.ipv ≠ some i)
    (hoth : ∀ m, m < 8 → ix.items.getD m none ≠ some i)
    (hvar : c5VarNo ix ((tem.getD r []).drop off) ≠ "")
    (hshop : shop ≠ "") :
    cell (out.getD r []) (off + i) =
      c5Base b ++ c5VarNo ix ((tem.getD r []).drop off) ++ "_C_" ++ shop ++ ".jpg" := by
  rw [runC5SC_getD tem coll b shop out hr off ix r hrun hfind hlt hrlen]
  have hne : ((tem.getD r []).drop off).isEmpty = false := by
    cases hd : (tem.getD r []).drop off with
    | nil => rw [hd] at hilen; simp at hilen
    | cons a t => rfl
  simp only [c5RowSC, hne, Bool.false_eq_true, if_false]
  have hofflt : off ≤ (tem.getD r []).length := by
    by_contra hc
    push_neg at hc
    have : (tem.getD r []).drop off = [] := List.drop_eq_nil_of_le (le_of_lt hc)
    rw [this] at hilen
    simp at hilen
  have htake : ((tem.getD r []).take off).length = off := by
    rw [List.length_take]
    omega
  have htle : ((tem.getD r []).take off).length ≤ off + i := by omega
  unfold cell
  rw [List.getD_append_right _ _ _ _ htle, htake, Nat.add_sub_cancel_left]
  have hfold := stepOf_other (fun j => ix.items.getD j none)
    (fun j =>
      if c5VarNo ix ((tem.getD r []).drop off) ≠ "" ∧
          j + 1 ≤ ((buildDmapSC coll).lookup
            (c5VarNo ix ((tem.getD r []).drop off))).getD 0 then
        c5Base b ++ c5VarNo ix ((tem.getD r []).drop off) ++ "_D" ++
          toString (j + 1) ++ ".jpg"
      else "") i (List.range 8)
    (c5IpvW ix (c5Base b) (c5SkuOf ix ((tem.getD r []).drop off))
      (c5CoverW ix (c5Base b) shop (c5VarNo ix ((tem.getD r []).drop off))
        ((tem.getD r []).drop off)))
    (fun j hj => hoth j (List.mem_range.1 hj))
  unfold cell at hfold
  rw [hfold]
  have hipv2 := c5IpvW_other ix (c5Base b) (c5SkuOf ix ((tem.getD r []).drop off))
    (c5CoverW ix (c5Base b) shop (c5VarNo ix ((tem.getD r []).drop off))
      ((tem.getD r []).drop off)) i hipv
  unfold cell at hipv2
  rw [hipv2]
  have hhit := c5CoverW_hit ix (c5Base b) shop (c5VarNo ix ((tem.getD r []).drop off))
    ((tem.getD r []).drop off) i hcov hilen
  unfold cell at hhit
  rw [hhit]
  rw [if_pos (And.intro hvar hshop)]

/-- TEM block for the shopee C5 witnesses. -/
def temFix2 : List (List String) :=
  [["PID", "Category", "Variation Integration No.", "SKU", "Cover image",
      "Image per Variation", "Item Image 1", "Item Image 2"],
    ["V1", "cat", "V1", "S1", "", "", "x", ""]]

/-- Collection for the shopee C5 witnesses: variation `V1` has Details Index 1. -/
def collFix2 : List (List String) :=
  [["Create", "Variation", "SKU", "Brand", "x1", "Option", "x2", "Product Name",
      "x3", "Description", "Category", "Details Index"],
    ["TRUE", "V1", "S1", "", "", "", "", "", "", "", "cat", "1"]]

/-- The header map found in `temFix2`. -/
def ixFix2 : IxMap :=
  ⟨some 1, some 2, some 3, some 4, [some 5, some 6, none, none, none, none, none, none]⟩

/-- The output of Step C5 on `temFix2` / `collFix2`. -/
def outFix2 : List (List String) :=
  [["PID", "Category", "Variation Integration No.", "SKU", "Cover image",
      "Image per Variation", "Item Image 1", "Item Image 2"],
    ["V1", "cat", "V1", "S1", "https://b/V1_C_TH.jpg", "https://b/S1.jpg",
      "https://b/V1_D1.jpg", ""]]

/-- Witness for the C1 theorem: detail image 2 of `V1` (count 1) is blanked. -/
theorem claim_C1_witness :
    cell (outFix2.getD 1 []) (1 + 6) =
      (if c5VarNo ixFix2 ((temFix2.getD 1 []).drop 1) ≠ "" ∧
          2 ≤ ((buildDmapSC collFix2).lookup
            (c5VarNo ixFix2 ((temFix2.getD 1 []).drop 1))).getD 0
        then
          c5Base "https://b" ++ c5VarNo ixFix2 ((temFix2.getD 1 []).drop 1) ++ "_D" ++
            toString 2 ++ ".jpg"
        else "") :=
  claim_C1_detail_images.1 temFix2 collFix2 "https://b" "TH" outFix2 0 1 ixFix2 1 2 6
    (by decide) (by decide) (by decide) (by decide) (by decide) (by decide) (by decide)
    (by decide) (by decide) (by decide) (by decide)

/-- Witness for the C8 theorem: the cover cell of `V1`. -/
theorem claim_C8_witness :
    cell (outFix2.getD 1 []) (1 + 3) =
      c5Base "https://b" ++ c5VarNo ixFix2 ((temFix2.getD 1 []).drop 1) ++ "_C_" ++
        "TH" ++ ".jpg" :=
  claim_C8_cover_urls temFix2 collFix2 "https://b" "TH" outFix2 0 1 ixFix2 1 3
    (by decide) (by decide) (by decide) (by decide) (by decide) (by decide) (by decide)
    (by decide) (by decide) (by decide)

/-- TEM block for the item C5 counterexample: the data row carries variation
id `V1` and sku `S1`. -/
def temFix3 : List (List String) :=
  [["PID", "Category", "Variation Integration No.", "SKU", "Cover image",
      "Image per Variation", "Item Image 1", "Item Image 2"],
    ["p", "cat", "V1", "S1", "", "", "", ""]]

/-- Collection for the item C5 counterexample: a created row with sku `S1` and
a blank variation id. -/
def collFix3 : List (List String) :=
  [["Create", "Variation", "SKU", "Brand", "x1", "Option", "x2", "Product Name",
      "x3", "Description", "Category", "Details Index"],
    ["TRUE", "", "S1", "", "", "", "", "", "", "", "cat", "1"]]

/-- C8 counterexample (item variant): in `run_step_C5_images` the collection
row maps sku `S1` to an empty variation id, and that mapping overrides the TEM
row's own variation id `V1`; with shop code `TH` the cover cell is written with
the sku-keyed URL `{base}/S1_C_TH.jpg`, no pending write carries the
`{base}/V1_C_TH.jpg` URL of the claim, and the variation cell itself is not
rewritten, so the output row keeps variation id `V1`. -/
theorem claim_C8_counterexample :
    cell (temFix3.getD 1 []) 2 = "V1" ∧
    ("TH" : String) ≠ "" ∧
    CellUpd.mk 1 4 (joinUrl "https://b" "S1" ++ "_C_" ++ "TH" ++ ".jpg") ∈
      runC5IC temFix3 collFix3 "TH" "https://b" "https://d" "https://o" ∧
    (∀ u ∈ runC5IC temFix3 collFix3 "TH" "https://b" "https://d" "https://o",
      CellUpd.val u ≠ joinUrl "https://b" "V1" ++ "_C_" ++ "TH" ++ ".jpg") ∧
    (∀ u ∈ runC5IC temFix3 collFix3 "TH" "https://b" "https://d" "https://o",
      ¬(CellUpd.row u = 1 ∧ CellUpd.col u = 2)) := by decide

/-- The reader mode after consuming one encoded field mid-record. -/
def afterMode (f : String) : CsvMode :=
  if f = "" then .sField else if needsQuote f then .quotEnd else .inFld

/-- The reader mode after consuming one encoded field at record start. -/
def afterModeR (f : String) : CsvMode :=
  if f = "" then .sRec else if needsQuote f then .quotEnd else .inFld

theorem foldl_quot (l : List Char) :
    ∀ (recs : List (List String)) (flds : List String) (buf : List Char),
      List.foldl csvStep ⟨recs, flds, buf, .quot⟩ (l.flatMap escQ) =
        ⟨recs, flds, buf ++ l, .quot⟩ := by
  induction l with
  | nil => intro recs flds buf; simp
  | cons c rest ih =>
    intro recs flds buf
    rw [List.flatMap_cons, List.foldl_append]
    by_cases hc : c = '"'
    · subst hc
      have e1 : List.foldl csvStep ⟨recs, flds, buf, .quot⟩ (escQ '"') =
          ⟨recs, flds, buf ++ ['"'], .quot⟩ := by
        simp [escQ, csvStep]
      rw [e1, ih]
      simp
    · have e1 : List.foldl csvStep ⟨recs, flds, buf, .quot⟩ (escQ c) =
          ⟨recs, flds, buf ++ [c], .quot⟩ := by
        simp [escQ, hc, csvStep]
      rw [e1, ih]
      simp

theorem foldl_inFld (l : List Char) :
    ∀ (recs : List (List String)) (flds : List String) (buf : List Char),
      (∀ c ∈ l, c ≠ ',' ∧ c ≠ '\r' ∧ c ≠ '\n') →
      List.foldl csvStep ⟨recs, flds, buf, .inFld⟩ l = ⟨recs, flds, buf ++ l, .inFld⟩ := by
  induction l with
  | nil => intro recs flds buf _; simp
  | cons c rest ih =>
    intro recs flds buf hl
    obtain ⟨h1, h2, h3⟩ := hl c (List.mem_cons_self _ _)
    rw [List.foldl_cons]
    have e1 : csvStep ⟨recs, flds, buf, .inFld⟩ c = ⟨recs, flds, buf ++ [c], .inFld⟩ := by
      simp [csvStep, h1, h2, h3]
    rw [e1, ih _ _ _ (fun x hx => hl x (List.mem_cons_of_mem _ hx))]
    simp

/-- Characters of an unquoted field are plain. -/
theorem not_needsQuote_chars {f : String} (h : needsQuote f = false) :
    ∀ c ∈ f.toList, c ≠ ',' ∧ c ≠ '"' ∧ c ≠ '\r' ∧ c ≠ '\n' := by
  intro c hc
  unfold needsQuote at h
  rw [List.any_eq_false] at h
  have hx := h c hc
  simp only [Bool.or_eq_true, decide_eq_true_eq, not_or] at hx
  exact ⟨by tauto, by tauto, by tauto, by tauto⟩

/-- A non-empty string has non-empty characters. -/
theorem toList_nil_iff (f : String) : f.toList = [] ↔ f = "" := by
  constructor
  · intro h
    cases f with
    | mk d =>
      cases d with
      | nil => rfl
      | cons a t => simp [String.toList, String.data] at h
  · intro h
    rw [h]
    rfl

theorem fieldRun_sField (f : String) (recs : List (List String)) (flds : List String) :
    List.foldl csvStep ⟨recs, flds, [], .sField⟩ (encodeField f) =
      ⟨recs, flds, f.toList, afterMode f⟩ := by
  by_cases hf : f = ""
  · subst hf
    simp [encodeField, needsQuote, afterMode]
  · by_cases hq : needsQuote f
    · have em : afterMode f = .quotEnd := by simp [afterMode, hf, hq]
      have ee : encodeField f = ('"' :: f.toList.flatMap escQ) ++ ['"'] := by
        simp [encodeField, hq]
      have e1 : csvStep ⟨recs, flds, [], .sField⟩ '"' = ⟨recs, flds, [], .quot⟩ := by
        simp [csvStep]
      have einner : List.foldl csvStep ⟨recs, flds, [], .sField⟩
          ('"' :: f.toList.flatMap escQ) = ⟨recs, flds, f.toList, .quot⟩ := by
        rw [List.foldl_cons, e1, foldl_quot]
        simp
      rw [em, ee, List.foldl_append, einner]
      simp [csvStep]
    · have hq2 : needsQuote f = false := by simpa using hq
      have em : afterMode f = .inFld := by simp [afterMode, hf, hq]
      have ee : encodeField f = f.toList := by simp [encodeField, hq]
      rw [em, ee]
      have hchars := not_needsQuote_chars hq2
      cases hfl : f.toList with
      | nil => exact absurd ((toList_nil_iff f).1 hfl) hf
      | cons c rest =>
        rw [hfl] at hchars
        obtain ⟨h1, h2, h3, h4⟩ := hchars c (List.mem_cons_self _ _)
        rw [List.foldl_cons]
        have e1 : csvStep ⟨recs, flds, [], .sField⟩ c = ⟨recs, flds, [c], .inFld⟩ := by
          simp [csvStep, h1, h2, h3, h4]
        rw [e1, foldl_inFld rest recs flds [c]
          (fun x hx => by
            obtain ⟨a1, a2, a3, a4⟩ := hchars x (List.mem_cons_of_mem _ hx)
            exact ⟨a1, a3, a4⟩)]
        simp

theorem fieldRun_sRec (f : String) (recs : List (List String)) :
    List.foldl csvStep ⟨recs, [], [], .sRec⟩ (encodeField f) =
      ⟨recs, [], f.toList, afterModeR f⟩ := by
  by_cases hf : f = ""
  · subst hf
    simp [encodeField, needsQuote, afterModeR]
  · by_cases hq : needsQuote f
    · have em : afterModeR f = .quotEnd := by simp [afterModeR, hf, hq]
      have ee : encodeField f = ('"' :: f.toList.flatMap escQ) ++ ['"'] := by
        simp [encodeField, hq]
      have e1 : csvStep ⟨recs, [], [], .sRec⟩ '"' = ⟨recs, [], [], .quot⟩ := by
        simp [csvStep]
      have einner : List.foldl csvStep ⟨recs, [], [], .sRec⟩
          ('"' :: f.toList.flatMap escQ) = ⟨recs, [], f.toList, .quot⟩ := by
        rw [List.foldl_cons, e1, foldl_quot]
        simp
      rw [em, ee, List.foldl_append, einner]
      simp [csvStep]
    · have hq2 : needsQuote f = false := by simpa using hq
      have em : afterModeR f = .inFld := by simp [afterModeR, hf, hq]
      have ee : encodeField f = f.toList := by simp [encodeField, hq]
      rw [em, ee]
      have hchars := not_needsQuote_chars hq2
      cases hfl : f.toList with
      | nil => exact absurd ((toList_nil_iff f).1 hfl) hf
      | cons c rest =>
        rw [hfl] at hchars
        obtain ⟨h1, h2, h3, h4⟩ := hchars c (List.mem_cons_self _ _)
        rw [List.foldl_cons]
        have e1 : csvStep ⟨recs, [], [], .sRec⟩ c = ⟨recs, [], [c], .inFld⟩ := by
          simp [csvStep, h1, h2, h3, h4]
        rw [e1, foldl_inFld rest recs [] [c]
          (fun x hx => by
            obtain ⟨a1, a2, a3, a4⟩ := hchars x (List.mem_cons_of_mem _ hx)
            exact ⟨a1, a3, a4⟩)]
        simp

/-- String eta: rebuilding a string from its characters. -/
theorem string_mk_toList (f : String) : (⟨f.toList⟩ : String) = f := rfl

theorem step_comma (f : String) (recs : List (List String)) (flds : List String) :
    csvStep ⟨recs, flds, f.toList, afterMode f⟩ ',' = ⟨recs, flds ++ [f], [], .sField⟩ := by
  unfold afterMode
  by_cases hf : f = ""
  · rw [if_pos hf]
    subst hf
    simp [csvStep]
  · rw [if_neg hf]
    by_cases hq : needsQuote f
    · rw [if_pos hq]
      simp [csvStep, string_mk_toList]
    · rw [if_neg hq]
      simp [csvStep, string_mk_toList]

theorem step_comma_sRec (f : String) (recs : List (List String)) :
    csvStep ⟨recs, [], f.toList, afterModeR f⟩ ',' = ⟨recs, [f], [], .sField⟩ := by
  unfold afterModeR
  by_cases hf : f = ""
  · rw [if_pos hf]
    subst hf
    simp [csvStep]
  · rw [if_neg hf]
    by_cases hq : needsQuote f
    · rw [if_pos hq]
      simp [csvStep, string_mk_toList]
    · rw [if_neg hq]
      simp [csvStep, string_mk_toList]

theorem step_crlf (f : String) (recs : List (List String)) (flds : List String) :
    List.foldl csvStep ⟨recs, flds, f.toList, afterMode f⟩ ['\r', '\n'] =
      ⟨recs ++ [flds ++ [f]], [], [], .sRec⟩ := by
  unfold afterMode
  by_cases hf : f = ""
  · rw [if_pos hf]
    subst hf
    simp [csvStep]
  · rw [if_neg hf]
    by_cases hq : needsQuote f
    · rw [if_pos hq]
      simp [csvStep, string_mk_toList]
    · rw [if_neg hq]
      simp [csvStep, string_mk_toList]

theorem step_crlf_sRec (f : String) (recs : List (List String)) (hf : f ≠ "") :
    List.foldl csvStep ⟨recs, [], f.toList, afterModeR f⟩ ['\r', '\n'] =
      ⟨recs ++ [[f]], [], [], .sRec⟩ := by
  unfold afterModeR
  rw [if_neg hf]
  by_cases hq : needsQuote f
  · rw [if_pos hq]
    simp [csvStep, string_mk_toList]
  · rw [if_neg hq]
    simp [csvStep, string_mk_toList]

/-- `List.intercalate` over at least two chunks. -/
theorem intercalate_cons₂ (s : List Char) (a : List Char) (b : List Char)
    (t : List (List Char)) :
    List.intercalate s (a :: b :: t) = a ++ s ++ List.intercalate s (b :: t) := by
  unfold List.intercalate
  rw [List.intersperse_cons_cons]
  simp

theorem rec_tail (fs : List String) :
    ∀ (recs : List (List String)) (flds : List String), fs ≠ [] →
      List.foldl csvStep ⟨recs, flds, [], .sField⟩
        (List.intercalate [','] (fs.map encodeField) ++ ['\r', '\n']) =
        ⟨recs ++ [flds ++ fs], [], [], .sRec⟩ := by
  induction fs with
  | nil => intro recs flds h; exact absurd rfl h
  | cons g rest ih =>
    intro recs flds _
    cases rest with
    | nil =>
      have e0 : List.intercalate [','] ([g].map encodeField) = encodeField g := by
        simp [List.intercalate]
      rw [List.map_cons, List.map_nil] at *
      rw [e0, List.foldl_append, fieldRun_sField, step_crlf]
    | cons g2 t =>
      have e0 : List.intercalate [','] ((g :: g2 :: t).map encodeField) =
          encodeField g ++ [','] ++
            List.intercalate [','] ((g2 :: t).map encodeField) := by
        rw [List.map_cons, List.map_cons, intercalate_cons₂, ← List.map_cons]
      have e2 : encodeField g ++ [','] ++
            List.intercalate [','] ((g2 :: t).map encodeField) ++ ['\r', '\n'] =
          encodeField g ++ ([','] ++
            (List.intercalate [','] ((g2 :: t).map encodeField) ++ ['\r', '\n'])) := by
        simp [List.append_assoc]
      rw [e0, e2, List.foldl_append, fieldRun_sField, List.foldl_append]
      have e3 : List.foldl csvStep ⟨recs, flds, g.toList, afterMode g⟩ [','] =
          ⟨recs, flds ++ [g], [], .sField⟩ := by
        rw [List.foldl_cons, step_comma]
        rfl
      rw [e3, ih _ _ (by simp)]
      simp

theorem rec_full (r : List String) (recs : List (List String)) :
    List.foldl csvStep ⟨recs, [], [], .sRec⟩ (encodeRow r ++ ['\r', '\n']) =
      ⟨recs ++ [r], [], [], .sRec⟩ := by
  by_cases hsp : r = [""]
  · subst hsp
    have e0 : encodeRow [""] = ['"', '"'] := by simp [encodeRow]
    rw [e0]
    simp [csvStep]
  cases r with
  | nil =>
    have e0 : encodeRow [] = [] := by simp [encodeRow, List.intercalate]
    rw [e0]
    simp [csvStep]
  | cons f rest =>
    cases rest with
    | nil =>
      have hf : f ≠ "" := by
        intro he
        rw [he] at hsp
        exact hsp rfl
      have e0 : encodeRow [f] = encodeField f := by
        simp [encodeRow, List.intercalate, hf]
      rw [e0, List.foldl_append, fieldRun_sRec, step_crlf_sRec f recs hf]
    | cons g t =>
      have e0 : encodeRow (f :: g :: t) =
          encodeField f ++ [','] ++
            List.intercalate [','] ((g :: t).map encodeField) := by
        have e00 : encodeRow (f :: g :: t) =
            List.intercalate [','] ((f :: g :: t).map encodeField) := by
          simp [encodeRow]
        rw [e00, List.map_cons, List.map_cons, intercalate_cons₂, ← List.map_cons]
      have e2 : encodeField f ++ [','] ++
            List.intercalate [','] ((g :: t).map encodeField) ++ ['\r', '\n'] =
          encodeField f ++ ([','] ++
            (List.intercalate [','] ((g :: t).map encodeField) ++ ['\r', '\n'])) := by
        simp [List.append_assoc]
      rw [e0, e2, List.foldl_append, fieldRun_sRec, List.foldl_append]
      have e3 : List.foldl csvStep ⟨recs, [], f.toList, afterModeR f⟩ [','] =
          ⟨recs, [f], [], .sField⟩ := by
        rw [List.foldl_cons, step_comma_sRec]
        rfl
      rw [e3, rec_tail _ _ _ (by simp)]
      simp

theorem csv_cat (m : List (List String)) :
    ∀ (recs : List (List String)),
      List.foldl csvStep ⟨recs, [], [], .sRec⟩ (encodeCsv m) =
        ⟨recs ++ m, [], [], .sRec⟩ := by
  induction m with
  | nil => intro recs; simp [encodeCsv]
  | cons r rest ih =>
    intro recs
    have e0 : encodeCsv (r :: rest) = (encodeRow r ++ ['\r', '\n']) ++ encodeCsv rest := by
      simp [encodeCsv]
    rw [e0, List.foldl_append, rec_full r recs, ih]
    simp

/-- CSV round trip: parsing the writer's output recovers the matrix exactly
(a `[""]` row is written quoted, so it stays distinct from an empty row). -/
theorem csv_roundtrip (m : List (List String)) :
    parseCsv (encodeCsv m) = m := by
  unfold parseCsv
  rw [csv_cat m []]
  simp [csvFinish]

/-- C5 (amended): re-parsing the exported CSV returns exactly the written
matrix: for `shopee_creator.export_tem_csv` that is `processed_vals` (sku and
product name kept verbatim, the category cell hyphen-normalised), and for
`item_creator.get_tem_values_csv` the raw TEM matrix, so there the
(category, sku, product name) triples round-trip exactly. -/
theorem claim_C5_csv_roundtrip :
    (∀ (vals : List (List String)) (txt : List Char),
      exportTemCsvSC vals = some txt →
      parseCsv txt = processedValsSC none vals) ∧
    (∀ (vals : List (List String)) (txt : List Char),
      getTemValuesCsvIC vals = some txt →
      parseCsv txt = vals) := by
  constructor
  · intro vals txt hexp
    unfold exportTemCsvSC at hexp
    split at hexp
    · cases hexp
    · dsimp only [] at hexp
      split at hexp
      · cases hexp
      · cases hexp
        exact csv_roundtrip _
  · intro vals txt hexp
    unfold getTemValuesCsvIC at hexp
    split at hexp
    · cases hexp
    · cases hexp
      exact csv_roundtrip _

/-- Witness for the C5 round-trip theorem on `csvFix`, plus a matrix holding a
single-empty-field row and a zero-field row. -/
theorem claim_C5_csv_roundtrip_witness :
    parseCsv (encodeCsv [["Category", "Product Name", "SKU"],
        ["101643-Beauty", "N", "S1"]]) = processedValsSC none csvFix ∧
    parseCsv (encodeCsv [[""], [], ["a", ""]]) = [[""], [], ["a", ""]] :=
  ⟨claim_C5_csv_roundtrip.1 csvFix
      (encodeCsv [["Category", "Product Name", "SKU"], ["101643-Beauty", "N", "S1"]])
      (by decide),
    claim_C5_csv_roundtrip.2 [[""], [], ["a", ""]]
      (encodeCsv [[""], [], ["a", ""]]) (by decide)⟩

/-- Witness for the C10 frame theorem at a one-row heap. -/
theorem claim_C10_frame_witness :
    (⟨[["a"]], [[0]]⟩ : PyHeap).mats.getD 0 [] ≠ [] ∧
    (ffHeapIC ⟨[["a"]], [[0]]⟩ 0 0 [] fullyBlank).1.rows.getD 0 [] = [["a"]].getD 0 [] ∧
    (ffHeapIC ⟨[["a"]], [[0]]⟩ 0 0 [] fullyBlank).2 = 1 := by
  have h := claim_C10_frame ⟨[["a"]], [[0]]⟩ 0 0 [] fullyBlank
  exact ⟨by decide, (h.1 (by decide)).1 0 (by decide), (h.1 (by decide)).2.2.1⟩

/-! ## Step C4 idempotence -/

/-- `pyStripL` in terms of `rdropWhile`. -/
theorem pyStripL_eq (m : List Char) :
    pyStripL m = List.rdropWhile pyWs (List.dropWhile pyWs m) := rfl

/-- Stripping an already-stripped character list changes nothing. -/
theorem pyStripL_idem (l : List Char) : pyStripL (pyStripL l) = pyStripL l := by
  have key : List.dropWhile pyWs (List.rdropWhile pyWs (List.dropWhile pyWs l)) =
      List.rdropWhile pyWs (List.dropWhile pyWs l) := by
    rw [List.dropWhile_eq_self_iff]
    intro hl
    have hpre := List.rdropWhile_prefix pyWs (List.dropWhile pyWs l)
    have hlen : 0 < (List.dropWhile pyWs l).length :=
      lt_of_lt_of_le hl hpre.length_le
    have h0 := List.dropWhile_get_zero_not pyWs l hlen
    have he : (List.rdropWhile pyWs (List.dropWhile pyWs l)).get ⟨0, hl⟩ =
        (List.dropWhile pyWs l).get ⟨0, hlen⟩ := by
      rw [List.get_eq_getElem, List.get_eq_getElem]
      exact hpre.getElem hl
    rw [he]
    exact h0
  rw [pyStripL_eq, pyStripL_eq l, key, List.rdropWhile_idempotent]

/-- Python `strip` is idempotent. -/
theorem pyStrip_idem (s : String) : pyStrip (pyStrip s) = pyStrip s :=
  congrArg String.mk (pyStripL_idem s.toList)

/-- Reading from a run of padding cells yields the empty string. -/
theorem getD_replicate_empty (k j : Nat) :
    (List.replicate k ("" : String)).getD j "" = "" := by
  induction k generalizing j with
  | zero => rfl
  | succ k ih =>
    cases j with
    | zero => rfl
    | succ j => exact ih j

/-- Padding a row never changes any cell read. -/
theorem cell_padTo (r : List String) (n i : Nat) : cell (padTo r n) i = cell r i := by
  unfold cell padTo
  by_cases h : i < r.length
  · rw [List.getD_append _ _ _ _ h]
  · rw [List.getD_append_right _ _ _ _ (Nat.le_of_not_lt h),
      List.getD_eq_default _ _ (Nat.le_of_not_lt h), getD_replicate_empty]

/-- Writing one cell leaves the other cells unchanged. -/
theorem cell_set_ne (r : List String) (i j : Nat) (v : String) (h : i ≠ j) :
    cell (r.set i v) j = cell r j := by
  unfold cell
  rw [List.getD_eq_getElem?_getD, List.getD_eq_getElem?_getD, List.getElem?_set_ne h]

/-- Writing one in-range cell stores the value. -/
theorem cell_set_self (r : List String) (i : Nat) (v : String) (h : i < r.length) :
    cell (r.set i v) i = v := by
  unfold cell
  rw [List.getD_eq_getElem?_getD, List.getElem?_set_self h]
  rfl

/-- Padding reaches the requested length. -/
theorem padTo_len (r : List String) (n : Nat) : n ≤ (padTo r n).length := by
  unfold padTo
  rw [List.length_append, List.length_replicate]
  omega

/-- A single write changes no cell but its target. -/
theorem cell_patchCell_ne (u : CellUpd) (row : List String) (j : Nat)
    (h : j ≠ u.col) : cell (patchCell u row) j = cell row j := by
  unfold patchCell
  rw [cell_set_ne _ _ _ _ (Ne.symm h), cell_padTo]

/-- A single write stores its value at its target. -/
theorem cell_patchCell_self (u : CellUpd) (row : List String) :
    cell (patchCell u row) u.col = u.val := by
  unfold patchCell
  exact cell_set_self _ _ _ (Nat.lt_of_lt_of_le (Nat.lt_succ_self _) (padTo_len _ _))

/-- `patchFold` over an empty batch. -/
theorem patchFold_nil (r : Nat) (row : List String) : patchFold [] r row = row := rfl

/-- `patchFold` peels the first write. -/
theorem patchFold_cons (u : CellUpd) (us : List CellUpd) (r : Nat)
    (row : List String) :
    patchFold (u :: us) r row =
      patchFold us r (if u.row = r then patchCell u row else row) := rfl

/-- A batch containing no write for a row leaves that row unchanged. -/
theorem patchFold_of_ne (us : List CellUpd) (r : Nat) (row : List String)
    (h : ∀ u ∈ us, u.row ≠ r) : patchFold us r row = row := by
  induction us generalizing row with
  | nil => rfl
  | cons u us ih =>
    rw [patchFold_cons, if_neg (h u (List.mem_cons_self u us))]
    exact ih row (fun v hv => h v (List.mem_cons_of_mem u hv))

/-- A write aimed above the current window can be dropped from `patchList`. -/
theorem patchList_skip (u : CellUpd) (us : List CellUpd) :
    ∀ (rows : List (List String)) (r0 : Nat), u.row < r0 →
      patchList (u :: us) r0 rows = patchList us r0 rows := by
  intro rows
  induction rows with
  | nil => intro r0 _; rfl
  | cons row rest ih =>
    intro r0 hr
    simp only [patchList]
    rw [patchFold_cons, if_neg (Nat.ne_of_lt hr), ih (r0 + 1) (Nat.lt_succ_of_lt hr)]

/-- Pointwise description of `applyUpds`: each row receives exactly the writes
aimed at it, in batch order. -/
theorem applyUpds_getElem? (us : List CellUpd) :
    ∀ (m : List (List String)) (r : Nat),
      (applyUpds m us)[r]? = (m[r]?).map (fun row => patchFold us r row) := by
  induction us with
  | nil =>
    intro m r
    show m[r]? = _
    cases m[r]? <;> rfl
  | cons u us ih =>
    intro m r
    rw [show applyUpds m (u :: us) =
        applyUpds (m.set u.row (patchCell u (m.getD u.row []))) us from rfl, ih]
    by_cases hur : u.row = r
    · subst hur
      by_cases hlt : u.row < m.length
      · rw [List.getElem?_set_self hlt, List.getElem?_eq_getElem hlt,
          Option.map_some', Option.map_some', patchFold_cons, if_pos rfl,
          List.getD_eq_getElem m [] hlt]
      · have hle : m.length ≤ u.row := Nat.le_of_not_lt hlt
        rw [List.getElem?_eq_none (by rw [List.length_set]; exact hle),
          List.getElem?_eq_none hle]
        rfl
    · rw [List.getElem?_set_ne hur]
      cases he : m[r]? with
      | none => rfl
      | some row =>
        rw [Option.map_some', Option.map_some', patchFold_cons, if_neg hur]

/-- Pointwise description of `patchList`. -/
theorem patchList_getElem? (us : List CellUpd) :
    ∀ (rows : List (List String)) (r0 i : Nat),
      (patchList us r0 rows)[i]? =
        (rows[i]?).map (fun row => patchFold us (r0 + i) row) := by
  intro rows
  induction rows with
  | nil => intro r0 i; rfl
  | cons row rest ih =>
    intro r0 i
    cases i with
    | zero =>
      simp only [patchList, List.getElem?_cons_zero, Option.map_some', Nat.add_zero]
    | succ n =>
      simp only [patchList, List.getElem?_cons_succ]
      rw [ih (r0 + 1) n, show r0 + 1 + n = r0 + (n + 1) from by omega]

/-- `applyUpds` agrees with the row-by-row patch view. -/
theorem applyUpds_eq_patchList (m : List (List String)) (us : List CellUpd) :
    applyUpds m us = patchList us 0 m := by
  apply List.ext_getElem?
  intro n
  rw [applyUpds_getElem? us m n, patchList_getElem? us m 0 n, Nat.zero_add]

/-- A search starting behind a non-matching head lands at index 1 or later. -/
theorem findIdx?_cons_false {α : Type} (p : α → Bool) (a : α) (l : List α) (i : Nat)
    (hpa : p a = false) (h : List.findIdx? p (a :: l) 0 = some i) : 1 ≤ i := by
  rw [List.findIdx?_cons, hpa] at h
  rw [if_neg Bool.false_ne_true, List.findIdx?_succ] at h
  cases e : List.findIdx? p l 0 with
  | none => rw [e] at h; cases h
  | some j =>
    rw [e, Option.map_some'] at h
    cases h
    exact Nat.le_add_left 1 j

/-- `_find_col_index` never returns the head column when the head key matches
no alias exactly nor by substring. -/
theorem findColIdx_pos (hk : String → String) (k0 : String) (ks : List String)
    (name : String) (extra : List String) (i : Nat)
    (h0 : (extra.map hk ++ [hk name]).contains k0 = false)
    (h1 : (extra.map hk ++ [hk name]).any (fun a => a ≠ "" && hasSub k0 a) = false)
    (h : findColIdx hk (k0 :: ks) name extra = some i) : 1 ≤ i := by
  unfold findColIdx at h
  dsimp only [] at h
  split at h
  next j heq =>
    have hj := findIdx?_cons_false (fun k => (extra.map hk ++ [hk name]).contains k)
      k0 ks j h0 heq
    injection h with he
    omega
  next heq =>
    exact findIdx?_cons_false
      (fun k => (extra.map hk ++ [hk name]).any (fun a => a ≠ "" && hasSub k a))
      k0 ks i h1 h

/-- The Step C4 price-column search never lands on the block-marker column. -/
theorem price_pos (ks : List String) (i : Nat)
    (h : findColIdx headerKeyIC ("category" :: ks) "sku price"
      ["price", "selling price", "sell price"] = some i) : 1 ≤ i :=
  findColIdx_pos headerKeyIC "category" ks "sku price"
    ["price", "selling price", "sell price"] i (by decide) (by decide) h

/-- A cell whose stripped lowercase form is the block marker normalises to the
key `category`. -/
theorem headerKey_of_marker (s : String) (h : pyLower (pyStrip s) = "category") :
    headerKeyIC s = "category" := by
  unfold headerKeyIC normIC
  rw [h]
  rfl

/-- A header row has at least two cells, and its marker cell normalises to the
key `category`. -/
theorem headerRow_shape (row : List String) (hh : isHeaderRow row = true) :
    ∃ a b t, row = a :: b :: t ∧ headerKeyIC b = "category" := by
  match row with
  | [] => exact absurd hh (by decide)
  | [a] =>
    have : isHeaderRow [a] = false := rfl
    rw [this] at hh
    cases hh
  | a :: b :: t =>
    have hh' : (pyLower (pyStrip b) == "category") = true := hh
    exact ⟨a, b, t, rfl, headerKey_of_marker b (eq_of_beq hh')⟩

/-- Membership after a dictionary upsert: the new value or an old entry. -/
theorem dictUpsert_val {m : List (String × String)} {k v : String}
    {p : String × String} (hp : p ∈ dictUpsert m k v) : p.2 = v ∨ p ∈ m := by
  unfold dictUpsert at hp
  split at hp
  · rw [List.mem_map] at hp
    obtain ⟨q, hq, he⟩ := hp
    by_cases hqk : q.1 = k
    · rw [if_pos hqk] at he
      left
      rw [← he]
    · rw [if_neg hqk] at he
      right
      rw [← he]
      exact hq
  · rcases List.mem_append.1 hp with h | h
    · exact Or.inr h
    · left
      simp at h
      rw [h]

/-- Every value stored in a sku map is already stripped. -/
theorem buildSkuMap_stripped (rows : List (List String)) (iK iV : Nat) :
    ∀ p ∈ buildSkuMap rows iK iV, pyStrip p.2 = p.2 := by
  unfold buildSkuMap
  have main : ∀ (rs : List (List String)) (acc : List (String × String)),
      (∀ p ∈ acc, pyStrip p.2 = p.2) →
      ∀ p ∈ rs.foldl
        (fun m row =>
          let k := pyStrip (cell row iK)
          let v := pyStrip (cell row iV)
          if k ≠ "" ∧ v ≠ "" then dictUpsert m k v else m) acc,
        pyStrip p.2 = p.2 := by
    intro rs
    induction rs with
    | nil => exact fun acc hacc p hp => hacc p hp
    | cons row rest ih =>
      intro acc hacc p hp
      rw [List.foldl_cons] at hp
      refine ih _ ?_ p hp
      intro q hq
      dsimp only [] at hq
      split at hq
      · rcases dictUpsert_val hq with h | h
        · rw [h]
          exact pyStrip_idem _
        · exact hacc q h
      · exact hacc q hq
  exact main rows [] (fun p hp => absurd hp (List.not_mem_nil p))

/-- Step C4 only writes at or below the row it is visiting. -/
theorem c4Go_row_ge (prices : List (String × String)) :
    ∀ (rows : List (List String)) (r0 : Nat)
      (st : Option (Option Nat × Option Nat)) (u : CellUpd),
      u ∈ c4Go prices r0 rows st → r0 ≤ u.row := by
  intro rows
  induction rows with
  | nil => intro r0 st u hu; simp [c4Go] at hu
  | cons row rest ih =>
    intro r0 st u hu
    by_cases hh : isHeaderRow row
    · simp only [c4Go, hh, if_true] at hu
      exact Nat.le_of_succ_le (ih _ _ u hu)
    · rcases st with _ | ⟨oS, oP⟩
      · simp only [c4Go, hh, if_false, Bool.false_eq_true] at hu
        exact Nat.le_of_succ_le (ih _ _ u hu)
      · rcases oS with _ | iS
        · simp only [c4Go, hh, if_false, Bool.false_eq_true] at hu
          exact Nat.le_of_succ_le (ih _ _ u hu)
        · rcases oP with _ | iP
          · simp only [c4Go, hh, if_false, Bool.false_eq_true] at hu
            exact Nat.le_of_succ_le (ih _ _ u hu)
          · simp only [c4Go, hh, if_false, Bool.false_eq_true] at hu
            split at hu
            · exact Nat.le_of_succ_le (ih _ _ u hu)
            · split at hu
              · exact Nat.le_of_succ_le (ih _ _ u hu)
              · split at hu
                · rcases List.mem_cons.1 hu with he | hurec
                  · rw [he]
                  · exact Nat.le_of_succ_le (ih _ _ u hurec)
                · exact Nat.le_of_succ_le (ih _ _ u hu)

/-- Re-running the Step C4 row loop on its own patched output writes nothing:
the price value a row received (or already had) is stripped, so the comparison
against the MARGIN lookup succeeds on the second pass.  Requires the carried
state to satisfy the distinct-column invariant, re-established at each header
row from the per-header hypothesis. -/
theorem c4_second_run (prices : List (String × String))
    (hPv : ∀ p ∈ prices, pyStrip p.2 = p.2) :
    ∀ (rows : List (List String)) (r0 : Nat)
      (st : Option (Option Nat × Option Nat)),
      (∀ row ∈ rows, isHeaderRow row = true →
        findColIdx headerKeyIC ((row.drop 1).map headerKeyIC) "sku" [] ≠
            findColIdx headerKeyIC ((row.drop 1).map headerKeyIC) "sku price"
              ["price", "selling price", "sell price"] ∨
          findColIdx headerKeyIC ((row.drop 1).map headerKeyIC) "sku" [] = none) →
      stOK st →
      c4Go prices r0 (patchList (c4Go prices r0 rows st) r0 rows) st = [] := by
  intro rows
  induction rows with
  | nil => intro r0 st _ _; rfl
  | cons row rest ih =>
    intro r0 st hH hst
    have hHt := fun r hr => hH r (List.mem_cons_of_mem row hr)
    have hne : ∀ (st' : Option (Option Nat × Option Nat)) (u : CellUpd),
        u ∈ c4Go prices (r0 + 1) rest st' → u.row ≠ r0 := fun st' u hu =>
      Ne.symm (Nat.ne_of_lt (Nat.lt_of_succ_le (c4Go_row_ge prices rest (r0 + 1) st' u hu)))
    by_cases hh : isHeaderRow row
    · obtain ⟨a, b, t, hrow, hb⟩ := headerRow_shape row hh
      have hkeys : (row.drop 1).map headerKeyIC = "category" :: t.map headerKeyIC := by
        rw [hrow]
        show headerKeyIC b :: t.map headerKeyIC = "category" :: t.map headerKeyIC
        rw [hb]
      have hus : c4Go prices r0 (row :: rest) st =
          c4Go prices (r0 + 1) rest
            (some (findColIdx headerKeyIC ((row.drop 1).map headerKeyIC) "sku" [],
              findColIdx headerKeyIC ((row.drop 1).map headerKeyIC) "sku price"
                ["price", "selling price", "sell price"])) := by
        simp only [c4Go, hh, if_true]
      have hok : stOK (some
          (findColIdx headerKeyIC ((row.drop 1).map headerKeyIC) "sku" [],
            findColIdx headerKeyIC ((row.drop 1).map headerKeyIC) "sku price"
              ["price", "selling price", "sell price"])) := by
        cases eS : findColIdx headerKeyIC ((row.drop 1).map headerKeyIC) "sku" [] with
        | none => exact True.intro
        | some iS =>
          cases eP : findColIdx headerKeyIC ((row.drop 1).map headerKeyIC) "sku price"
              ["price", "selling price", "sell price"] with
          | none => exact True.intro
          | some iP =>
            show 1 ≤ iP ∧ iS ≠ iP
            refine ⟨?_, ?_⟩
            · apply price_pos (t.map headerKeyIC) iP
              rw [← hkeys]
              exact eP
            · rcases hH row (List.mem_cons_self row rest) hh with hd | hd
              · rw [eS, eP] at hd
                exact fun he => hd (congrArg some he)
              · rw [eS] at hd
                exact absurd hd (Option.some_ne_none iS)
      rw [hus]
      simp only [patchList]
      rw [patchFold_of_ne _ _ _ (hne _)]
      simp only [c4Go, hh, if_true]
      exact ih (r0 + 1) _ hHt hok
    · rcases st with _ | ⟨oS, oP⟩
      · have hus : c4Go prices r0 (row :: rest) none =
            c4Go prices (r0 + 1) rest none := by
          simp only [c4Go, hh, if_false, Bool.false_eq_true]
        rw [hus]
        simp only [patchList]
        rw [patchFold_of_ne _ _ _ (hne _)]
        simp only [c4Go, hh, if_false, Bool.false_eq_true]
        exact ih (r0 + 1) none hHt True.intro
      · rcases oS with _ | iS
        · have hus : c4Go prices r0 (row :: rest) (some (none, oP)) =
              c4Go prices (r0 + 1) rest (some (none, oP)) := by
            simp only [c4Go, hh, if_false, Bool.false_eq_true]
          rw [hus]
          simp only [patchList]
          rw [patchFold_of_ne _ _ _ (hne _)]
          simp only [c4Go, hh, if_false, Bool.false_eq_true]
          exact ih (r0 + 1) (some (none, oP)) hHt True.intro
        · rcases oP with _ | iP
          · have hus : c4Go prices r0 (row :: rest) (some (some iS, none)) =
                c4Go prices (r0 + 1) rest (some (some iS, none)) := by
              simp only [c4Go, hh, if_false, Bool.false_eq_true]
            rw [hus]
            simp only [patchList]
            rw [patchFold_of_ne _ _ _ (hne _)]
            simp only [c4Go, hh, if_false, Bool.false_eq_true]
            exact ih (r0 + 1) (some (some iS, none)) hHt True.intro
          · have hAnd : 1 ≤ iP ∧ iS ≠ iP := hst
            obtain ⟨hiP, hiSP⟩ := hAnd
            by_cases hs : pyStrip (cell row (iS + 1)) = ""
            · have hus : c4Go prices r0 (row :: rest) (some (some iS, some iP)) =
                  c4Go prices (r0 + 1) rest (some (some iS, some iP)) := by
                simp only [c4Go, hh, if_false, Bool.false_eq_true]
                rw [if_pos hs]
              rw [hus]
              simp only [patchList]
              rw [patchFold_of_ne _ _ _ (hne _)]
              simp only [c4Go, hh, if_false, Bool.false_eq_true]
              rw [if_pos hs]
              exact ih (r0 + 1) (some (some iS, some iP)) hHt hst
            · cases elk : prices.lookup (pyStrip (cell row (iS + 1))) with
              | none =>
                have hus : c4Go prices r0 (row :: rest) (some (some iS, some iP)) =
                    c4Go prices (r0 + 1) rest (some (some iS, some iP)) := by
                  simp only [c4Go, hh, if_false, Bool.false_eq_true]
                  rw [if_neg hs, elk, if_pos (show (none : Option String).getD "" = "" from rfl)]
                rw [hus]
                simp only [patchList]
                rw [patchFold_of_ne _ _ _ (hne _)]
                simp only [c4Go, hh, if_false, Bool.false_eq_true]
                rw [if_neg hs, elk, if_pos (show (none : Option String).getD "" = "" from rfl)]
                exact ih (r0 + 1) (some (some iS, some iP)) hHt hst
              | some w =>
                by_cases hw : w = ""
                · have hus : c4Go prices r0 (row :: rest) (some (some iS, some iP)) =
                      c4Go prices (r0 + 1) rest (some (some iS, some iP)) := by
                    simp only [c4Go, hh, if_false, Bool.false_eq_true]
                    rw [if_neg hs, elk]
                    simp only [Option.getD_some]
                    rw [if_pos hw]
                  rw [hus]
                  simp only [patchList]
                  rw [patchFold_of_ne _ _ _ (hne _)]
                  simp only [c4Go, hh, if_false, Bool.false_eq_true]
                  rw [if_neg hs, elk]
                  simp only [Option.getD_some]
                  rw [if_pos hw]
                  exact ih (r0 + 1) (some (some iS, some iP)) hHt hst
                · by_cases hc : pyStrip (cell row (iP + 1)) = w
                  · have hus : c4Go prices r0 (row :: rest) (some (some iS, some iP)) =
                        c4Go prices (r0 + 1) rest (some (some iS, some iP)) := by
                      simp only [c4Go, hh, if_false, Bool.false_eq_true]
                      rw [if_neg hs, elk]
                      simp only [Option.getD_some]
                      rw [if_neg hw, if_neg (not_not_intro hc)]
                    rw [hus]
                    simp only [patchList]
                    rw [patchFold_of_ne _ _ _ (hne _)]
                    simp only [c4Go, hh, if_false, Bool.false_eq_true]
                    rw [if_neg hs, elk]
                    simp only [Option.getD_some]
                    rw [if_neg hw, if_neg (not_not_intro hc)]
                    exact ih (r0 + 1) (some (some iS, some iP)) hHt hst
                  · have hw' : pyStrip w = w :=
                      hPv (pyStrip (cell row (iS + 1)), w) (lookup_mem elk)
                    have hus : c4Go prices r0 (row :: rest) (some (some iS, some iP)) =
                        (⟨r0, iP + 1, w⟩ : CellUpd) ::
                          c4Go prices (r0 + 1) rest (some (some iS, some iP)) := by
                      simp only [c4Go, hh, if_false, Bool.false_eq_true]
                      rw [if_neg hs, elk]
                      simp only [Option.getD_some]
                      rw [if_neg hw, if_pos hc]
                    rw [hus]
                    simp only [patchList]
                    rw [patchFold_cons, if_pos rfl, patchFold_of_ne _ _ _ (hne _),
                      patchList_skip _ _ rest (r0 + 1) (Nat.lt_succ_self r0)]
                    have hc1 : cell (patchCell ⟨r0, iP + 1, w⟩ row) 1 = cell row 1 :=
                      cell_patchCell_ne _ row 1 (by show (1 : Nat) ≠ iP + 1; omega)
                    have hh2 : ¬ isHeaderRow (patchCell ⟨r0, iP + 1, w⟩ row) := by
                      unfold isHeaderRow
                      rw [hc1]
                      exact hh
                    have hskuEq : cell (patchCell ⟨r0, iP + 1, w⟩ row) (iS + 1) =
                        cell row (iS + 1) :=
                      cell_patchCell_ne _ row (iS + 1) (by show iS + 1 ≠ iP + 1; omega)
                    have hcurEq : cell (patchCell ⟨r0, iP + 1, w⟩ row) (iP + 1) = w :=
                      cell_patchCell_self _ row
                    simp only [c4Go, hh2, if_false, Bool.false_eq_true]
                    rw [hskuEq, if_neg hs, elk]
                    simp only [Option.getD_some]
                    rw [hcurEq, hw', if_neg hw, if_neg (not_not_intro (rfl : w = w))]
                    exact ih (r0 + 1) (some (some iS, some iP)) hHt hst

/-- C3 (amended): `run_step_C4_prices` writes a price cell only when the
current cell differs from the MARGIN lookup (this is the shape of `c4Go`), and
re-running the step on the patched worksheet with the same MARGIN data yields
zero writes, provided in every header block the detected sku column differs
from the detected price column (or no sku column is detected).  Without that
proviso idempotence fails (`claim_C3_counterexample`). -/
theorem claim_C4_idempotent (tem mg : List (List String))
    (hH : ∀ row ∈ tem, isHeaderRow row = true →
      findColIdx headerKeyIC ((row.drop 1).map headerKeyIC) "sku" [] ≠
          findColIdx headerKeyIC ((row.drop 1).map headerKeyIC) "sku price"
            ["price", "selling price", "sell price"] ∨
        findColIdx headerKeyIC ((row.drop 1).map headerKeyIC) "sku" [] = none) :
    runC4IC (applyUpds tem (runC4IC tem mg)) mg = [] := by
  cases tem with
  | nil =>
    have h1 : runC4IC [] mg = [] := rfl
    rw [h1]
    show runC4IC [] mg = []
    exact h1
  | cons row0 temT =>
    by_cases hmg : mg.length < 2
    · have h1 : runC4IC (row0 :: temT) mg = [] := by
        unfold runC4IC
        simp only [List.isEmpty_cons, Bool.false_eq_true, if_false]
        rw [if_pos hmg]
      rw [h1]
      show runC4IC (row0 :: temT) mg = []
      exact h1
    · cases eSku : findColIdx headerKeyIC ((mg.headD []).map headerKeyIC) "sku"
          ["seller_sku"] with
      | none =>
        have h1 : runC4IC (row0 :: temT) mg = [] := by
          unfold runC4IC
          simp only [List.isEmpty_cons, Bool.false_eq_true, if_false]
          rw [if_neg hmg, eSku]
        rw [h1]
        show runC4IC (row0 :: temT) mg = []
        exact h1
      | some iSku =>
        cases ePr : findColIdx headerKeyIC ((mg.headD []).map headerKeyIC) "소비자가"
            ["consumer price", "consumerprice", "price", "list price",
              "selling price", "sell price"] with
        | none =>
          have h1 : runC4IC (row0 :: temT) mg = [] := by
            unfold runC4IC
            simp only [List.isEmpty_cons, Bool.false_eq_true, if_false]
            rw [if_neg hmg, eSku, ePr]
          rw [h1]
          show runC4IC (row0 :: temT) mg = []
          exact h1
        | some iPrice =>
          have h1 : runC4IC (row0 :: temT) mg =
              c4Go (buildSkuMap (mg.drop 1) iSku iPrice) 0 (row0 :: temT) none := by
            unfold runC4IC
            simp only [List.isEmpty_cons, Bool.false_eq_true, if_false]
            rw [if_neg hmg, eSku, ePr]
          rw [h1, applyUpds_eq_patchList]
          unfold runC4IC
          simp only [patchList]
          simp only [List.isEmpty_cons, Bool.false_eq_true, if_false]
          rw [if_neg hmg, eSku, ePr]
          exact c4_second_run (buildSkuMap (mg.drop 1) iSku iPrice)
            (buildSkuMap_stripped (mg.drop 1) iSku iPrice) (row0 :: temT) 0 none hH
            True.intro

/-- Witness for C3 at a worksheet whose sku and price columns are distinct:
the first run writes the looked-up price `9`, the second run writes nothing. -/
theorem claim_C4_idempotent_witness :
    (∀ row ∈ c4TemW, isHeaderRow row = true →
      findColIdx headerKeyIC ((row.drop 1).map headerKeyIC) "sku" [] ≠
          findColIdx headerKeyIC ((row.drop 1).map headerKeyIC) "sku price"
            ["price", "selling price", "sell price"] ∨
        findColIdx headerKeyIC ((row.drop 1).map headerKeyIC) "sku" [] = none) ∧
    runC4IC c4TemW c4MgW = [⟨1, 3, "9"⟩] ∧
    runC4IC (applyUpds c4TemW (runC4IC c4TemW c4MgW)) c4MgW = [] :=
  ⟨by decide, by decide, claim_C4_idempotent c4TemW c4MgW (by decide)⟩

/-! ## Forward-fill characterisation (item variant) -/

/-- The forward-fill loop writes one output row per data row. -/
theorem ffGoIC_length (g : Nat) (cols : List Nat) (reset : List String → Bool) :
    ∀ (data : List (List String)) (key : Option String) (carry : Nat → String),
      (ffGoIC g cols reset data key carry).length = data.length := by
  intro data
  induction data with
  | nil => intro key carry; rfl
  | cons r rest ih =>
    intro key carry
    by_cases hr : reset r
    · simp only [ffGoIC, hr, if_true, List.length_cons, ih]
    · simp only [ffGoIC, hr, if_false, Bool.false_eq_true, List.length_cons, ih]

/-- Row `i` of the forward-fill output is the row's own image under the state
accumulated over the preceding rows. -/
theorem ffGoIC_getD (g : Nat) (cols : List Nat) (reset : List String → Bool) :
    ∀ (data : List (List String)) (st : Option String × (Nat → String)) (i : Nat),
      i < data.length →
      (ffGoIC g cols reset data st.1 st.2).getD i [] =
        (if reset (data.getD i []) then data.getD i []
         else (ffRowIC g cols
            ((data.take i).foldl (ffStep g cols reset) st).1
            ((data.take i).foldl (ffStep g cols reset) st).2
            (data.getD i [])).1) := by
  intro data
  induction data with
  | nil => intro st i hi; exact absurd hi (Nat.not_lt_zero i)
  | cons r rest ih =>
    intro st i hi
    cases i with
    | zero =>
      by_cases hr : reset r
      · simp only [ffGoIC, hr, if_true, List.getD_cons_zero, List.take_zero,
          List.foldl_nil]
      · simp only [ffGoIC, hr, if_false, Bool.false_eq_true, List.getD_cons_zero,
          List.take_zero, List.foldl_nil]
    | succ n =>
      have hn : n < rest.length := Nat.lt_of_succ_lt_succ hi
      by_cases hr : reset r
      · have e2 : ffStep g cols reset st r = (none, fun _ => "") := by
          unfold ffStep
          rw [if_pos hr]
        have e : (ffGoIC g cols reset (r :: rest) st.1 st.2).getD (n + 1) [] =
            (ffGoIC g cols reset rest
              ((none : Option String), (fun _ => "" : Nat → String)).1
              ((none : Option String), (fun _ => "" : Nat → String)).2).getD n [] := by
          simp only [ffGoIC, hr, if_true, List.getD_cons_succ]
        rw [e, ih ((none : Option String), (fun _ => "" : Nat → String)) n hn]
        simp only [List.take_succ_cons, List.foldl_cons, List.getD_cons_succ, e2]
      · have e3 : ffStep g cols reset st r =
            ((ffRowIC g cols st.1 st.2 r).2.1, (ffRowIC g cols st.1 st.2 r).2.2) := by
          unfold ffStep
          rw [if_neg hr]
        have e : (ffGoIC g cols reset (r :: rest) st.1 st.2).getD (n + 1) [] =
            (ffGoIC g cols reset rest (ffStep g cols reset st r).1
              (ffStep g cols reset st r).2).getD n [] := by
          rw [e3]
          simp only [ffGoIC, hr, if_false, Bool.false_eq_true, List.getD_cons_succ]
        rw [e, ih (ffStep g cols reset st r) n hn]
        simp only [List.take_succ_cons, List.foldl_cons, List.getD_cons_succ]

/-- Peeling the last element off a prefix fold. -/
theorem foldl_take_succ {β : Type} (f : β → List String → β) (init : β)
    (l : List (List String)) (t : Nat) (h : t < l.length) :
    (l.take (t + 1)).foldl f init = f ((l.take t).foldl f init) (l.getD t []) := by
  rw [List.take_succ, List.foldl_append, List.getElem?_eq_getElem h]
  simp only [Option.toList_some, List.foldl_cons, List.foldl_nil]
  rw [List.getD_eq_getElem l [] h]

/-- After a group-start row the carry holds the row's own (raw) cells in every
fill column. -/
theorem carryRefresh_own (cols : List Nat) (r : List String) (c : Nat)
    (hc : c ∈ cols) : carryRefresh cols r (carryOfRow cols r) c = cell r c := by
  unfold carryRefresh carryOfRow
  have hct : cols.contains c = true := List.elem_eq_true_of_mem hc
  by_cases h1 : (cols.contains c && decide (c < r.length) && !isBlank (cell r c)) = true
  · rw [if_pos h1]
  · rw [if_neg h1, if_pos hct]

/-- A non-blank cell read lies inside the row. -/
theorem nonblank_lt (r : List String) (c : Nat)
    (h : ¬ isBlank (cell r c) = true) : c < r.length := by
  by_contra hc
  apply h
  unfold cell
  rw [List.getD_eq_default _ _ (Nat.le_of_not_lt hc)]
  rfl

/-- Cell-level description of the fill pass: a blank in-range cell of a fill
column receives the carry, everything else is untouched. -/
theorem fillRowIC_cell (cols : List Nat) (carry : Nat → String) :
    ∀ (r : List String) (c : Nat),
      cell (fillRowIC cols carry r) c =
        if c ∈ cols ∧ c < r.length ∧ isBlank (cell r c) = true then carry c
        else cell r c := by
  induction cols with
  | nil =>
    intro r c
    rw [if_neg (fun hcon => absurd hcon.1 (List.not_mem_nil c))]
    rfl
  | cons i cols ih =>
    intro r c
    have e : fillRowIC (i :: cols) carry r =
        fillRowIC cols carry
          (if i < r.length ∧ isBlank (cell r i) = true then r.set i (carry i) else r) :=
      rfl
    rw [e]
    by_cases hci : i < r.length ∧ isBlank (cell r i) = true
    · rw [if_pos hci, ih]
      by_cases hc : c = i
      · subst hc
        simp only [List.length_set]
        rw [cell_set_self r c (carry c) hci.1, ite_self,
          if_pos ⟨List.mem_cons_self c cols, hci.1, hci.2⟩]
      · rw [cell_set_ne r i c (carry i) (fun he => hc he.symm)]
        simp only [List.length_set]
        by_cases hcon : c ∈ cols ∧ c < r.length ∧ isBlank (cell r c) = true
        · rw [if_pos hcon, if_pos ⟨List.mem_cons_of_mem i hcon.1, hcon.2⟩]
        · rw [if_neg hcon,
            if_neg (fun hcon2 =>
              hcon ⟨(List.mem_cons.1 hcon2.1).resolve_left hc, hcon2.2⟩)]
    · rw [if_neg hci, ih]
      by_cases hcon : c ∈ cols ∧ c < r.length ∧ isBlank (cell r c) = true
      · rw [if_pos hcon, if_pos ⟨List.mem_cons_of_mem i hcon.1, hcon.2⟩]
      · rw [if_neg hcon]
        by_cases hcon2 : c ∈ i :: cols ∧ c < r.length ∧ isBlank (cell r c) = true
        · rcases List.mem_cons.1 hcon2.1 with he | hm
          · exact absurd (he ▸ hcon2.2) hci
          · exact absurd ⟨hm, hcon2.2⟩ hcon
        · rw [if_neg hcon2]

/-- The segment scan started at the segment's own start row yields that row's
cell. -/
theorem segNear_base (out : List (List String)) (c j : Nat) :
    segNear out c j j = cell (out.getD j []) c := by
  cases j with
  | zero => rfl
  | succ k =>
    unfold segNear
    rw [if_pos (Nat.le_refl (k + 1))]

/-- Unfolding one step of the segment scan above the segment start. -/
theorem segNear_step (out : List (List String)) (c j t : Nat) (hj : j ≤ t) :
    segNear out c j (t + 1) =
      if !(isBlank (cell (out.getD (t + 1) []) c)) then cell (out.getD (t + 1) []) c
      else segNear out c j t := by
  unfold segNear
  rw [if_neg (by omega : ¬ (t + 1 ≤ j))]
  cases t with
  | zero => rfl
  | succ k => rfl

/-- A fully-blank data row passes through the fill loop unchanged. -/
theorem ffOut_reset (g : Nat) (cols : List Nat) (data : List (List String))
    (st : Option String × (Nat → String)) (t : Nat) (ht : t < data.length)
    (hr : fullyBlank (data.getD t []) = true) :
    (ffGoIC g cols fullyBlank data st.1 st.2).getD t [] = data.getD t [] := by
  rw [ffGoIC_getD g cols fullyBlank data st t ht, if_pos hr]

/-- A data row with a non-blank group key passes through unchanged. -/
theorem ffOut_key (g : Nat) (cols : List Nat) (data : List (List String))
    (st : Option String × (Nat → String)) (t : Nat) (ht : t < data.length)
    (hr : ¬ fullyBlank (data.getD t []) = true)
    (hg : pyStrip (cell (data.getD t []) g) ≠ "") :
    (ffGoIC g cols fullyBlank data st.1 st.2).getD t [] = data.getD t [] := by
  rw [ffGoIC_getD g cols fullyBlank data st t ht, if_neg hr]
  simp only [ffRowIC]
  rw [if_pos hg]

/-- A blank-key data row reached with no active carry segment passes through
unchanged. -/
theorem ffOut_none (g : Nat) (cols : List Nat) (data : List (List String))
    (st : Option String × (Nat → String)) (t : Nat) (ht : t < data.length)
    (hr : ¬ fullyBlank (data.getD t []) = true)
    (hg : pyStrip (cell (data.getD t []) g) = "")
    (hk : ((data.take t).foldl (ffStep g cols fullyBlank) st).1 = none) :
    (ffGoIC g cols fullyBlank data st.1 st.2).getD t [] = data.getD t [] := by
  rw [ffGoIC_getD g cols fullyBlank data st t ht, if_neg hr]
  simp only [ffRowIC]
  rw [if_neg (not_not_intro hg), hk]
  simp only [Option.isSome_none, Bool.false_eq_true, if_false]

/-- A blank-key data row reached with an active carry segment is the fill
pass's image of the raw row under the accumulated carry. -/
theorem ffOut_fill (g : Nat) (cols : List Nat) (data : List (List String))
    (st : Option String × (Nat → String)) (t : Nat) (v : String)
    (ht : t < data.length)
    (hr : ¬ fullyBlank (data.getD t []) = true)
    (hg : pyStrip (cell (data.getD t []) g) = "")
    (hk : ((data.take t).foldl (ffStep g cols fullyBlank) st).1 = some v) :
    (ffGoIC g cols fullyBlank data st.1 st.2).getD t [] =
      fillRowIC cols ((data.take t).foldl (ffStep g cols fullyBlank) st).2
        (data.getD t []) := by
  rw [ffGoIC_getD g cols fullyBlank data st t ht, if_neg hr]
  simp only [ffRowIC]
  rw [if_neg (not_not_intro hg), hk]
  simp only [Option.isSome_some, if_true]

/-- The cache refresh after a processed row keeps the row's cell when it is
non-blank and otherwise keeps the previous carry. -/
theorem carryRefresh_segNear (cols : List Nat) (carry : Nat → String)
    (r2 : List String) (c : Nat) (hc : c ∈ cols) (prev : String)
    (hprev : carry c = prev) :
    carryRefresh cols r2 carry c =
      if !(isBlank (cell r2 c)) then cell r2 c else prev := by
  unfold carryRefresh
  by_cases hbc : isBlank (cell r2 c) = true
  · rw [if_neg (fun hcon => by
        rw [Bool.and_eq_true, Bool.and_eq_true] at hcon
        rw [hbc] at hcon
        exact absurd hcon.2 (by decide)),
      if_neg (by rw [hbc]; decide), hprev]
  · have hbf : isBlank (cell r2 c) = false := by
      rw [Bool.not_eq_true] at hbc
      exact hbc
    rw [if_pos (by
        rw [Bool.and_eq_true, Bool.and_eq_true]
        exact ⟨⟨List.elem_eq_true_of_mem hc, decide_eq_true (nonblank_lt _ _ hbc)⟩,
          by rw [hbf]; decide⟩),
      if_pos (by rw [hbf]; decide)]

/-- Invariant of the forward-fill loop state: whenever a carry segment is
active after `t` data rows, it started at a data row `j` whose group key is
non-blank, every later row up to `t` has a blank group key, no row of the
segment is fully blank, and the carry of every fill column is the segment scan
of the processed output at `t`. -/
theorem ffInv (g : Nat) (cols : List Nat) (hdr : List String)
    (data : List (List String)) :
    ∀ t, t ≤ data.length →
      ∀ v, ((data.take t).foldl (ffStep g cols fullyBlank)
          ((none : Option String), (fun _ => "" : Nat → String))).1 = some v →
      ∃ j, 1 ≤ j ∧ j ≤ t ∧
        pyStrip (cell ((hdr :: data).getD j []) g) ≠ "" ∧
        (∀ k, j < k → k ≤ t → pyStrip (cell ((hdr :: data).getD k []) g) = "") ∧
        (∀ k, j ≤ k → k ≤ t → fullyBlank ((hdr :: data).getD k []) = false) ∧
        (∀ c, c ∈ cols →
          ((data.take t).foldl (ffStep g cols fullyBlank)
            ((none : Option String), (fun _ => "" : Nat → String))).2 c =
            segNear (forwardFillIC (hdr :: data) g cols fullyBlank) c j t) := by
  intro t
  induction t with
  | zero =>
    intro _ v hv
    simp only [List.take_zero, List.foldl_nil] at hv
    cases hv
  | succ t iht =>
    intro ht v hv
    have htlen : t < data.length := Nat.lt_of_succ_le ht
    rw [foldl_take_succ _ _ _ _ htlen] at hv
    by_cases hr : fullyBlank (data.getD t [])
    · rw [show ffStep g cols fullyBlank
          ((data.take t).foldl (ffStep g cols fullyBlank)
            ((none : Option String), (fun _ => "" : Nat → String)))
          (data.getD t []) = (none, fun _ => "") from by
          unfold ffStep; rw [if_pos hr]] at hv
      cases hv
    · have hrf : fullyBlank (data.getD t []) = false := by
        rw [Bool.not_eq_true] at hr
        exact hr
      rw [show ffStep g cols fullyBlank
          ((data.take t).foldl (ffStep g cols fullyBlank)
            ((none : Option String), (fun _ => "" : Nat → String)))
          (data.getD t []) =
          ((ffRowIC g cols
              ((data.take t).foldl (ffStep g cols fullyBlank)
                ((none : Option String), (fun _ => "" : Nat → String))).1
              ((data.take t).foldl (ffStep g cols fullyBlank)
                ((none : Option String), (fun _ => "" : Nat → String))).2
              (data.getD t [])).2.1,
            (ffRowIC g cols
              ((data.take t).foldl (ffStep g cols fullyBlank)
                ((none : Option String), (fun _ => "" : Nat → String))).1
              ((data.take t).foldl (ffStep g cols fullyBlank)
                ((none : Option String), (fun _ => "" : Nat → String))).2
              (data.getD t [])).2.2) from by
          unfold ffStep; rw [if_neg hr]] at hv
      dsimp only [] at hv
      simp only [ffRowIC] at hv
      by_cases hg : pyStrip (cell (data.getD t []) g) = ""
      · rw [if_neg (not_not_intro hg)] at hv
        dsimp only [] at hv
        obtain ⟨j, hj1, hjt, hjk, hkb, hnb, hcar⟩ := iht (Nat.le_of_lt htlen) v hv
        have hout : (forwardFillIC (hdr :: data) g cols fullyBlank).getD (t + 1) [] =
            fillRowIC cols
              ((data.take t).foldl (ffStep g cols fullyBlank)
                ((none : Option String), (fun _ => "" : Nat → String))).2
              (data.getD t []) := by
          show (hdr :: ffGoIC g cols fullyBlank data none (fun _ => "")).getD
              (t + 1) [] = _
          rw [List.getD_cons_succ]
          exact ffOut_fill g cols data
            ((none : Option String), (fun _ => "" : Nat → String)) t v htlen hr hg hv
        refine ⟨j, hj1, Nat.le_succ_of_le hjt, hjk, ?_, ?_, ?_⟩
        · intro k hk1 hk2
          by_cases hke : k ≤ t
          · exact hkb k hk1 hke
          · have hkeq : k = t + 1 := by omega
            subst hkeq
            rw [List.getD_cons_succ]
            exact hg
        · intro k hk1 hk2
          by_cases hke : k ≤ t
          · exact hnb k hk1 hke
          · have hkeq : k = t + 1 := by omega
            subst hkeq
            rw [List.getD_cons_succ]
            exact hrf
        · intro c hc
          rw [foldl_take_succ _ _ _ _ htlen]
          rw [show ffStep g cols fullyBlank
              ((data.take t).foldl (ffStep g cols fullyBlank)
                ((none : Option String), (fun _ => "" : Nat → String)))
              (data.getD t []) =
              ((ffRowIC g cols
                  ((data.take t).foldl (ffStep g cols fullyBlank)
                    ((none : Option String), (fun _ => "" : Nat → String))).1
                  ((data.take t).foldl (ffStep g cols fullyBlank)
                    ((none : Option String), (fun _ => "" : Nat → String))).2
                  (data.getD t [])).2.1,
                (ffRowIC g cols
                  ((data.take t).foldl (ffStep g cols fullyBlank)
                    ((none : Option String), (fun _ => "" : Nat → String))).1
                  ((data.take t).foldl (ffStep g cols fullyBlank)
                    ((none : Option String), (fun _ => "" : Nat → String))).2
                  (data.getD t [])).2.2) from by
              unfold ffStep; rw [if_neg hr]]
          dsimp only []
          simp only [ffRowIC]
          rw [if_neg (not_not_intro hg), hv]
          simp only [Option.isSome_some, if_true]
          rw [segNear_step (forwardFillIC (hdr :: data) g cols fullyBlank) c j t hjt,
            hout]
          exact carryRefresh_segNear cols _ _ c hc _ (hcar c hc)
      · refine ⟨t + 1, by omega, Nat.le_refl _, ?_, ?_, ?_, ?_⟩
        · rw [List.getD_cons_succ]
          exact hg
        · intro k hk1 hk2
          exact absurd hk2 (by omega)
        · intro k hk1 hk2
          have hkeq : k = t + 1 := by omega
          subst hkeq
          rw [List.getD_cons_succ]
          exact hrf
        · intro c hc
          rw [foldl_take_succ _ _ _ _ htlen]
          rw [show ffStep g cols fullyBlank
              ((data.take t).foldl (ffStep g cols fullyBlank)
                ((none : Option String), (fun _ => "" : Nat → String)))
              (data.getD t []) =
              ((ffRowIC g cols
                  ((data.take t).foldl (ffStep g cols fullyBlank)
                    ((none : Option String), (fun _ => "" : Nat → String))).1
                  ((data.take t).foldl (ffStep g cols fullyBlank)
                    ((none : Option String), (fun _ => "" : Nat → String))).2
                  (data.getD t [])).2.1,
                (ffRowIC g cols
                  ((data.take t).foldl (ffStep g cols fullyBlank)
                    ((none : Option String), (fun _ => "" : Nat → String))).1
                  ((data.take t).foldl (ffStep g cols fullyBlank)
                    ((none : Option String), (fun _ => "" : Nat → String))).2
                  (data.getD t [])).2.2) from by
              unfold ffStep; rw [if_neg hr]]
          dsimp only []
          simp only [ffRowIC]
          rw [if_pos hg]
          dsimp only []
          rw [carryRefresh_own cols _ c hc, segNear_base]
          have hout : (forwardFillIC (hdr :: data) g cols fullyBlank).getD
              (t + 1) [] = data.getD t [] := by
            show (hdr :: ffGoIC g cols fullyBlank data none (fun _ => "")).getD
                (t + 1) [] = _
            rw [List.getD_cons_succ]
            exact ffOut_key g cols data
              ((none : Option String), (fun _ => "" : Nat → String)) t htlen hr hg
          rw [hout]

/-- The shopee data-row loop keeps the row count. -/
theorem ffGoSC_length (cols : List Nat) (reset : List String → Bool) :
    ∀ (data : List (List String)) (prev : List String),
      (ffGoSC cols reset prev data).length = data.length := by
  intro data
  induction data with
  | nil => intro prev; rfl
  | cons r rest ih =>
    intro prev
    by_cases hr : reset r
    · simp only [ffGoSC, hr, if_true, List.length_cons, ih]
    · simp only [ffGoSC, hr, if_false, Bool.false_eq_true, List.length_cons, ih]

/-- Row `i` of the shopee loop output: a reset row is blanked, any other row is
filled from the previous processed row (the initial `prev` for the first row). -/
theorem ffGoSC_getD (cols : List Nat) (reset : List String → Bool) :
    ∀ (data : List (List String)) (prev : List String) (i : Nat),
      i < data.length →
      (ffGoSC cols reset prev data).getD i [] =
        (if reset (data.getD i []) then scBlankRow cols (data.getD i [])
         else scFillRow cols
            (if i = 0 then prev else (ffGoSC cols reset prev data).getD (i - 1) [])
            (data.getD i [])) := by
  intro data
  induction data with
  | nil => intro prev i hi; exact absurd hi (Nat.not_lt_zero i)
  | cons r rest ih =>
    intro prev i hi
    by_cases hr : reset r
    · have e3 : ffGoSC cols reset prev (r :: rest) =
          scBlankRow cols r :: ffGoSC cols reset (scBlankRow cols r) rest := by
        simp only [ffGoSC, hr, if_true]
      cases i with
      | zero =>
        rw [e3]
        simp only [List.getD_cons_zero]
        rw [if_pos hr]
      | succ n =>
        have hn : n < rest.length := Nat.lt_of_succ_lt_succ hi
        rw [e3]
        simp only [List.getD_cons_succ]
        rw [ih (scBlankRow cols r) n hn]
        cases n with
        | zero => rfl
        | succ m => rfl
    · have e3 : ffGoSC cols reset prev (r :: rest) =
          scFillRow cols prev r :: ffGoSC cols reset (scFillRow cols prev r) rest := by
        simp only [ffGoSC, hr, if_false, Bool.false_eq_true]
      cases i with
      | zero =>
        rw [e3]
        simp only [List.getD_cons_zero]
        rw [if_neg hr]
        simp
      | succ n =>
        have hn : n < rest.length := Nat.lt_of_succ_lt_succ hi
        rw [e3]
        simp only [List.getD_cons_succ]
        rw [ih (scFillRow cols prev r) n hn]
        cases n with
        | zero => rfl
        | succ m => rfl

/-- Cell-level description of the shopee reset branch: in-range cells of the
fill columns are blanked, everything else is untouched. -/
theorem scBlankRow_cell (cols : List Nat) :
    ∀ (r : List String) (c : Nat),
      cell (scBlankRow cols r) c =
        if c ∈ cols ∧ c < r.length then "" else cell r c := by
  induction cols with
  | nil =>
    intro r c
    rw [if_neg (fun hcon => absurd hcon.1 (List.not_mem_nil c))]
    rfl
  | cons i cols ih =>
    intro r c
    have e : scBlankRow (i :: cols) r =
        scBlankRow cols (if i < r.length then r.set i "" else r) := rfl
    rw [e]
    by_cases hci : i < r.length
    · rw [if_pos hci, ih]
      by_cases hc : c = i
      · subst hc
        simp only [List.length_set]
        rw [cell_set_self r c "" hci, ite_self,
          if_pos ⟨List.mem_cons_self c cols, hci⟩]
      · rw [cell_set_ne r i c "" (fun he => hc he.symm)]
        simp only [List.length_set]
        by_cases hcon : c ∈ cols ∧ c < r.length
        · rw [if_pos hcon, if_pos ⟨List.mem_cons_of_mem i hcon.1, hcon.2⟩]
        · rw [if_neg hcon,
            if_neg (fun hcon2 =>
              hcon ⟨(List.mem_cons.1 hcon2.1).resolve_left hc, hcon2.2⟩)]
    · rw [if_neg hci, ih]
      by_cases hcon : c ∈ cols ∧ c < r.length
      · rw [if_pos hcon, if_pos ⟨List.mem_cons_of_mem i hcon.1, hcon.2⟩]
      · rw [if_neg hcon]
        by_cases hcon2 : c ∈ i :: cols ∧ c < r.length
        · rcases List.mem_cons.1 hcon2.1 with he | hm
          · exact absurd (he ▸ hcon2.2) hci
          · exact absurd ⟨hm, hcon2.2⟩ hcon
        · rw [if_neg hcon2]

/-- Cell-level description of the shopee fill branch: an in-range cell of a
fill column that strips to blank receives the stripped value of the previous
processed row when that strips non-blank; everything else is untouched. -/
theorem scFillRow_cell (cols : List Nat) (prev : List String) :
    ∀ (r : List String) (c : Nat),
      cell (scFillRow cols prev r) c =
        if c ∈ cols ∧ c < r.length ∧ c < prev.length ∧
            pyStrip (cell r c) = "" ∧ pyStrip (cell prev c) ≠ "" then
          pyStrip (cell prev c)
        else cell r c := by
  induction cols with
  | nil =>
    intro r c
    rw [if_neg (fun hcon => absurd hcon.1 (List.not_mem_nil c))]
    rfl
  | cons i cols ih =>
    intro r c
    have e : scFillRow (i :: cols) prev r =
        scFillRow cols prev
          (if i < r.length ∧ i < prev.length then
            (if pyStrip (cell r i) = "" ∧ pyStrip (cell prev i) ≠ "" then
              r.set i (pyStrip (cell prev i))
            else r)
          else r) := rfl
    rw [e]
    by_cases h1 : i < r.length ∧ i < prev.length
    · rw [if_pos h1]
      by_cases h2 : pyStrip (cell r i) = "" ∧ pyStrip (cell prev i) ≠ ""
      · rw [if_pos h2, ih]
        by_cases hc : c = i
        · subst hc
          simp only [List.length_set]
          rw [cell_set_self r c (pyStrip (cell prev c)) h1.1, ite_self,
            if_pos ⟨List.mem_cons_self c cols, h1.1, h1.2, h2.1, h2.2⟩]
        · rw [cell_set_ne r i c (pyStrip (cell prev i)) (fun he => hc he.symm)]
          simp only [List.length_set]
          by_cases hcon : c ∈ cols ∧ c < r.length ∧ c < prev.length ∧
              pyStrip (cell r c) = "" ∧ pyStrip (cell prev c) ≠ ""
          · rw [if_pos hcon, if_pos ⟨List.mem_cons_of_mem i hcon.1, hcon.2⟩]
          · rw [if_neg hcon,
              if_neg (fun hcon2 =>
                hcon ⟨(List.mem_cons.1 hcon2.1).resolve_left hc, hcon2.2⟩)]
      · rw [if_neg h2, ih]
        by_cases hcon : c ∈ cols ∧ c < r.length ∧ c < prev.length ∧
            pyStrip (cell r c) = "" ∧ pyStrip (cell prev c) ≠ ""
        · rw [if_pos hcon, if_pos ⟨List.mem_cons_of_mem i hcon.1, hcon.2⟩]
        · rw [if_neg hcon]
          by_cases hcon2 : c ∈ i :: cols ∧ c < r.length ∧ c < prev.length ∧
              pyStrip (cell r c) = "" ∧ pyStrip (cell prev c) ≠ ""
          · rcases List.mem_cons.1 hcon2.1 with he | hm
            · exact absurd (he ▸ hcon2.2.2.2) h2
            · exact absurd ⟨hm, hcon2.2⟩ hcon
          · rw [if_neg hcon2]
    · rw [if_neg h1, ih]
      by_cases hcon : c ∈ cols ∧ c < r.length ∧ c < prev.length ∧
          pyStrip (cell r c) = "" ∧ pyStrip (cell prev c) ≠ ""
      · rw [if_pos hcon, if_pos ⟨List.mem_cons_of_mem i hcon.1, hcon.2⟩]
      · rw [if_neg hcon]
        by_cases hcon2 : c ∈ i :: cols ∧ c < r.length ∧ c < prev.length ∧
            pyStrip (cell r c) = "" ∧ pyStrip (cell prev c) ≠ ""
        · rcases List.mem_cons.1 hcon2.1 with he | hm
          · exact absurd (he ▸ ⟨hcon2.2.1, hcon2.2.2.1⟩) h1
          · exact absurd ⟨hm, hcon2.2⟩ hcon
        · rw [if_neg hcon2]

/-- C2 (amended): in `item_creator.forward_fill_by_group` with the fully-blank
reset predicate, the header row passes through, every data row that is fully
blank or restates a non-blank group key passes through unchanged (so such a row
is never filled), and every changed cell lies in a fill column, was blank, sits
in a row whose group key is blank, and receives the segment scan value: the
nearest preceding non-blank processed value of that column within the carry
segment, which starts at the nearest preceding row with a non-blank group key,
contains no fully-blank row, and defaults to the group-start row's own cell.
In `shopee_creator.forward_fill_by_group` the header row passes through and a
changed cell lies in a fill column and either belongs to a fully-blank row and
is blanked, or strips to blank and receives the stripped value of the cell of
the previous processed row (the header for the first data row, and also when
the row restates the group key — the source's `is_same_group` flag is dead). -/
theorem claim_C2_forward_fill (hdr : List String) (data : List (List String))
    (g : Nat) (cols : List Nat) :
    (forwardFillIC (hdr :: data) g cols fullyBlank).length = (hdr :: data).length ∧
    (forwardFillIC (hdr :: data) g cols fullyBlank).getD 0 [] = hdr ∧
    (∀ i, 1 ≤ i →
      fullyBlank ((hdr :: data).getD i []) = true ∨
        pyStrip (cell ((hdr :: data).getD i []) g) ≠ "" →
      (forwardFillIC (hdr :: data) g cols fullyBlank).getD i [] =
        (hdr :: data).getD i []) ∧
    (∀ i c,
      cell ((forwardFillIC (hdr :: data) g cols fullyBlank).getD i []) c ≠
        cell ((hdr :: data).getD i []) c →
      1 ≤ i ∧ c ∈ cols ∧
        isBlank (cell ((hdr :: data).getD i []) c) = true ∧
        pyStrip (cell ((hdr :: data).getD i []) g) = "" ∧
        fullyBlank ((hdr :: data).getD i []) = false ∧
        ∃ j, 1 ≤ j ∧ j < i ∧
          pyStrip (cell ((hdr :: data).getD j []) g) ≠ "" ∧
          (∀ k, j < k → k ≤ i → pyStrip (cell ((hdr :: data).getD k []) g) = "") ∧
          (∀ k, j ≤ k → k ≤ i → fullyBlank ((hdr :: data).getD k []) = false) ∧
          cell ((forwardFillIC (hdr :: data) g cols fullyBlank).getD i []) c =
            segNear (forwardFillIC (hdr :: data) g cols fullyBlank) c j (i - 1)) ∧
    (forwardFillSC (hdr :: data) g cols fullyBlank).length = (hdr :: data).length ∧
    (forwardFillSC (hdr :: data) g cols fullyBlank).getD 0 [] = hdr ∧
    (∀ i c,
      cell ((forwardFillSC (hdr :: data) g cols fullyBlank).getD i []) c ≠
        cell ((hdr :: data).getD i []) c →
      1 ≤ i ∧ c ∈ cols ∧
        ((fullyBlank ((hdr :: data).getD i []) = true ∧
            c < ((hdr :: data).getD i []).length ∧
            cell ((forwardFillSC (hdr :: data) g cols fullyBlank).getD i []) c = "") ∨
          (fullyBlank ((hdr :: data).getD i []) = false ∧
            c < ((hdr :: data).getD i []).length ∧
            c < ((forwardFillSC (hdr :: data) g cols fullyBlank).getD
              (i - 1) []).length ∧
            pyStrip (cell ((hdr :: data).getD i []) c) = "" ∧
            pyStrip (cell ((forwardFillSC (hdr :: data) g cols fullyBlank).getD
              (i - 1) []) c) ≠ "" ∧
            cell ((forwardFillSC (hdr :: data) g cols fullyBlank).getD i []) c =
              pyStrip (cell ((forwardFillSC (hdr :: data) g cols fullyBlank).getD
                (i - 1) []) c)))) := by
  have e0 : forwardFillIC (hdr :: data) g cols fullyBlank =
      hdr :: ffGoIC g cols fullyBlank data none (fun _ => "") := rfl
  have e1 : forwardFillSC (hdr :: data) g cols fullyBlank =
      hdr :: ffGoSC cols fullyBlank hdr data := rfl
  have hlenEq : (forwardFillIC (hdr :: data) g cols fullyBlank).length =
      (hdr :: data).length := by
    rw [e0]
    simp only [List.length_cons]
    rw [ffGoIC_length]
  have hlenEq2 : (forwardFillSC (hdr :: data) g cols fullyBlank).length =
      (hdr :: data).length := by
    rw [e1]
    simp only [List.length_cons]
    rw [ffGoSC_length]
  refine ⟨hlenEq, by rw [e0, List.getD_cons_zero], ?_, ?_, hlenEq2,
    by rw [e1, List.getD_cons_zero], ?_⟩
  · intro i hi hcase
    by_cases hlen : i < (hdr :: data).length
    · cases i with
      | zero => exact absurd hi (by decide)
      | succ t =>
        have htlen : t < data.length := Nat.lt_of_succ_lt_succ hlen
        rw [e0, List.getD_cons_succ, List.getD_cons_succ]
        rcases hcase with hb | hg
        · rw [List.getD_cons_succ] at hb
          exact ffOut_reset g cols data
            ((none : Option String), (fun _ => "" : Nat → String)) t htlen hb
        · rw [List.getD_cons_succ] at hg
          by_cases hb2 : fullyBlank (data.getD t []) = true
          · exact ffOut_reset g cols data
              ((none : Option String), (fun _ => "" : Nat → String)) t htlen hb2
          · exact ffOut_key g cols data
              ((none : Option String), (fun _ => "" : Nat → String)) t htlen hb2 hg
    · have hle : (hdr :: data).length ≤ i := Nat.le_of_not_lt hlen
      rw [List.getD_eq_default _ _ hle, List.getD_eq_default _ _ (hlenEq.symm ▸ hle)]
  · intro i c hchg
    by_cases hlen : i < (hdr :: data).length
    · cases i with
      | zero =>
        exfalso
        apply hchg
        rw [e0, List.getD_cons_zero, List.getD_cons_zero]
      | succ t =>
        have htlen : t < data.length := Nat.lt_of_succ_lt_succ hlen
        by_cases hb : fullyBlank (data.getD t []) = true
        · exfalso
          apply hchg
          rw [e0, List.getD_cons_succ, List.getD_cons_succ,
            ffOut_reset g cols data
              ((none : Option String), (fun _ => "" : Nat → String)) t htlen hb]
        · by_cases hg : pyStrip (cell (data.getD t []) g) = ""
          · cases hk : ((data.take t).foldl (ffStep g cols fullyBlank)
                ((none : Option String), (fun _ => "" : Nat → String))).1 with
            | none =>
              exfalso
              apply hchg
              rw [e0, List.getD_cons_succ, List.getD_cons_succ,
                ffOut_none g cols data
                  ((none : Option String), (fun _ => "" : Nat → String)) t htlen
                  hb hg hk]
            | some v =>
              have hout : (ffGoIC g cols fullyBlank data none
                  (fun _ => "")).getD t [] =
                  fillRowIC cols
                    ((data.take t).foldl (ffStep g cols fullyBlank)
                      ((none : Option String), (fun _ => "" : Nat → String))).2
                    (data.getD t []) :=
                ffOut_fill g cols data
                  ((none : Option String), (fun _ => "" : Nat → String)) t v htlen
                  hb hg hk
              rw [e0, List.getD_cons_succ, List.getD_cons_succ, hout,
                fillRowIC_cell] at hchg
              by_cases hcon : c ∈ cols ∧ c < (data.getD t []).length ∧
                  isBlank (cell (data.getD t []) c) = true
              · obtain ⟨j, hj1, hjt, hjk, hkb, hnb, hcar⟩ :=
                  ffInv g cols hdr data t (Nat.le_of_lt htlen) v hk
                refine ⟨by omega, hcon.1, ?_, ?_, ?_, j, hj1, by omega, hjk,
                  ?_, ?_, ?_⟩
                · rw [List.getD_cons_succ]
                  exact hcon.2.2
                · rw [List.getD_cons_succ]
                  exact hg
                · rw [List.getD_cons_succ]
                  rw [Bool.not_eq_true] at hb
                  exact hb
                · intro k hk1 hk2
                  by_cases hke : k ≤ t
                  · exact hkb k hk1 hke
                  · have hkeq : k = t + 1 := by omega
                    subst hkeq
                    rw [List.getD_cons_succ]
                    exact hg
                · intro k hk1 hk2
                  by_cases hke : k ≤ t
                  · exact hnb k hk1 hke
                  · have hkeq : k = t + 1 := by omega
                    subst hkeq
                    rw [List.getD_cons_succ]
                    rw [Bool.not_eq_true] at hb
                    exact hb
                · rw [e0, List.getD_cons_succ, hout, fillRowIC_cell, if_pos hcon]
                  exact hcar c hcon.1
              · rw [if_neg hcon] at hchg
                exact absurd rfl hchg
          · exfalso
            apply hchg
            rw [e0, List.getD_cons_succ, List.getD_cons_succ,
              ffOut_key g cols data
                ((none : Option String), (fun _ => "" : Nat → String)) t htlen
                hb hg]
    · exfalso
      apply hchg
      have hle : (hdr :: data).length ≤ i := Nat.le_of_not_lt hlen
      rw [List.getD_eq_default _ _ hle, List.getD_eq_default _ _ (hlenEq.symm ▸ hle)]
  · intro i c hchg
    by_cases hlen : i < (hdr :: data).length
    · cases i with
      | zero =>
        exfalso
        apply hchg
        rw [e1, List.getD_cons_zero, List.getD_cons_zero]
      | succ t =>
        have htlen : t < data.length := Nat.lt_of_succ_lt_succ hlen
        have hform := ffGoSC_getD cols fullyBlank data hdr t htlen
        have hprev : (if t = 0 then hdr
              else (ffGoSC cols fullyBlank hdr data).getD (t - 1) []) =
            (forwardFillSC (hdr :: data) g cols fullyBlank).getD t [] := by
          cases t with
          | zero =>
            rw [if_pos (show (0 : Nat) = 0 from rfl), e1, List.getD_cons_zero]
          | succ m =>
            rw [if_neg (Nat.succ_ne_zero m), e1, List.getD_cons_succ]
            simp
        rw [e1] at hchg
        simp only [List.getD_cons_succ] at hchg
        rw [hform] at hchg
        by_cases hb : fullyBlank (data.getD t []) = true
        · rw [if_pos hb, scBlankRow_cell] at hchg
          by_cases hcon : c ∈ cols ∧ c < (data.getD t []).length
          · refine ⟨by omega, hcon.1, Or.inl ⟨?_, ?_, ?_⟩⟩
            · simp only [List.getD_cons_succ]
              exact hb
            · simp only [List.getD_cons_succ]
              exact hcon.2
            · rw [e1]
              simp only [List.getD_cons_succ]
              rw [hform, if_pos hb, scBlankRow_cell, if_pos hcon]
          · rw [if_neg hcon] at hchg
            exact absurd rfl hchg
        · rw [if_neg hb, scFillRow_cell] at hchg
          by_cases hcon : c ∈ cols ∧ c < (data.getD t []).length ∧
              c < (if t = 0 then hdr
                else (ffGoSC cols fullyBlank hdr data).getD (t - 1) []).length ∧
              pyStrip (cell (data.getD t []) c) = "" ∧
              pyStrip (cell (if t = 0 then hdr
                else (ffGoSC cols fullyBlank hdr data).getD (t - 1) []) c) ≠ ""
          · refine ⟨by omega, hcon.1, Or.inr ⟨?_, ?_, ?_, ?_, ?_, ?_⟩⟩
            · simp only [List.getD_cons_succ]
              rw [Bool.not_eq_true] at hb
              exact hb
            · simp only [List.getD_cons_succ]
              exact hcon.2.1
            · show c < ((forwardFillSC (hdr :: data) g cols fullyBlank).getD
                t []).length
              rw [← hprev]
              exact hcon.2.2.1
            · simp only [List.getD_cons_succ]
              exact hcon.2.2.2.1
            · show pyStrip (cell ((forwardFillSC (hdr :: data) g cols
                fullyBlank).getD t []) c) ≠ ""
              rw [← hprev]
              exact hcon.2.2.2.2
            · have hL : cell ((forwardFillSC (hdr :: data) g cols
                  fullyBlank).getD (t + 1) []) c =
                  pyStrip (cell (if t = 0 then hdr
                    else (ffGoSC cols fullyBlank hdr data).getD (t - 1) []) c) := by
                rw [e1, List.getD_cons_succ, hform, if_neg hb, scFillRow_cell,
                  if_pos hcon]
              show cell ((forwardFillSC (hdr :: data) g cols fullyBlank).getD
                  (t + 1) []) c =
                pyStrip (cell ((forwardFillSC (hdr :: data) g cols
                  fullyBlank).getD t []) c)
              rw [hL, ← hprev]
          · rw [if_neg hcon] at hchg
            exact absurd rfl hchg
    · exfalso
      apply hchg
      have hle : (hdr :: data).length ≤ i := Nat.le_of_not_lt hlen
      rw [List.getD_eq_default _ _ hle, List.getD_eq_default _ _ (hlenEq2.symm ▸ hle)]

/-- Witness for C2: in `ffW` the third row's blank option cell (column 1) is
changed by both fills; the item theorem locates its carry segment at the second
row and the filled value as the segment scan result (`D1`), and the shopee
theorem yields the stripped value of the previous processed row. -/
theorem claim_C2_forward_fill_witness :
    (cell ((forwardFillIC ffW 0 [1] fullyBlank).getD 2 []) 1 ≠
      cell (ffW.getD 2 []) 1 ∧
    (1 ≤ 2 ∧ 1 ∈ [1] ∧ isBlank (cell (ffW.getD 2 []) 1) = true ∧
      pyStrip (cell (ffW.getD 2 []) 0) = "" ∧ fullyBlank (ffW.getD 2 []) = false ∧
      ∃ j, 1 ≤ j ∧ j < 2 ∧ pyStrip (cell (ffW.getD j []) 0) ≠ "" ∧
        (∀ k, j < k → k ≤ 2 → pyStrip (cell (ffW.getD k []) 0) = "") ∧
        (∀ k, j ≤ k → k ≤ 2 → fullyBlank (ffW.getD k []) = false) ∧
        cell ((forwardFillIC ffW 0 [1] fullyBlank).getD 2 []) 1 =
          segNear (forwardFillIC ffW 0 [1] fullyBlank) 1 j (2 - 1))) ∧
    (cell ((forwardFillSC ffW 0 [1] fullyBlank).getD 2 []) 1 ≠
      cell (ffW.getD 2 []) 1 ∧
    (1 ≤ 2 ∧ 1 ∈ [1] ∧
      ((fullyBlank (ffW.getD 2 []) = true ∧ 1 < (ffW.getD 2 []).length ∧
          cell ((forwardFillSC ffW 0 [1] fullyBlank).getD 2 []) 1 = "") ∨
        (fullyBlank (ffW.getD 2 []) = false ∧ 1 < (ffW.getD 2 []).length ∧
          1 < ((forwardFillSC ffW 0 [1] fullyBlank).getD 1 []).length ∧
          pyStrip (cell (ffW.getD 2 []) 1) = "" ∧
          pyStrip (cell ((forwardFillSC ffW 0 [1] fullyBlank).getD 1 []) 1) ≠ "" ∧
          cell ((forwardFillSC ffW 0 [1] fullyBlank).getD 2 []) 1 =
            pyStrip (cell ((forwardFillSC ffW 0 [1] fullyBlank).getD 1 []) 1))))) :=
  ⟨⟨by decide,
    (claim_C2_forward_fill ["h", "x", "x2"] [["V1", "D1", "a"], ["", "", "b"]]
      0 [1]).2.2.2.1 2 1 (by decide)⟩,
  ⟨by decide,
    (claim_C2_forward_fill ["h", "x", "x2"] [["V1", "D1", "a"], ["", "", "b"]]
      0 [1]).2.2.2.2.2.2 2 1 (by decide)⟩⟩

/-! ## List toolkit for the category-key comparison (C7) -/

/-- `dropWhile` eats a satisfying prefix wholesale. -/
theorem dropWhile_append_all {p : Char → Bool} (A X : List Char)
    (hA : ∀ a ∈ A, p a = true) :
    List.dropWhile p (A ++ X) = List.dropWhile p X := by
  induction A with
  | nil => rfl
  | cons a A ih =>
    rw [List.cons_append, List.dropWhile_cons, if_pos (hA a (List.mem_cons_self a A))]
    exact ih (fun x hx => hA x (List.mem_cons_of_mem a hx))

/-- `takeWhile` passes a satisfying prefix through. -/
theorem takeWhile_append_all {q : Char → Bool} (A X : List Char)
    (hA : ∀ a ∈ A, q a = true) :
    List.takeWhile q (A ++ X) = A ++ List.takeWhile q X := by
  induction A with
  | nil => rfl
  | cons a A ih =>
    rw [List.cons_append, List.takeWhile_cons, if_pos (hA a (List.mem_cons_self a A)),
      ih (fun x hx => hA x (List.mem_cons_of_mem a hx)), List.cons_append]

/-- `takeWhile` of an everywhere-satisfying list is the list. -/
theorem takeWhile_all {q : Char → Bool} (X : List Char)
    (hX : ∀ a ∈ X, q a = true) : List.takeWhile q X = X := by
  induction X with
  | nil => rfl
  | cons a X ih =>
    rw [List.takeWhile_cons, if_pos (hX a (List.mem_cons_self a X)),
      ih (fun x hx => hX x (List.mem_cons_of_mem a hx))]

/-- `dropWhile` never scans past a failing separator. -/
theorem dropWhile_append_stop {p : Char → Bool} (X : List Char) (c : Char)
    (Z : List Char) (hc : p c = false) :
    List.dropWhile p (X ++ c :: Z) = List.dropWhile p X ++ c :: Z := by
  induction X with
  | nil =>
    rw [List.nil_append, List.dropWhile_cons,
      if_neg (by rw [hc]; exact Bool.false_ne_true)]
    rfl
  | cons x X ih =>
    rw [List.cons_append, List.dropWhile_cons, List.dropWhile_cons]
    by_cases hx : p x = true
    · rw [if_pos hx, if_pos hx, ih]
    · rw [if_neg hx, if_neg hx, List.cons_append]

/-- `dropWhile` distributes over an append whose first part survives. -/
theorem dropWhile_append_ne {p : Char → Bool} (U V : List Char)
    (hU : List.dropWhile p U ≠ []) :
    List.dropWhile p (U ++ V) = List.dropWhile p U ++ V := by
  induction U with
  | nil => exact absurd rfl hU
  | cons u U ih =>
    by_cases hu : p u = true
    · rw [List.dropWhile_cons, if_pos hu] at hU
      rw [List.cons_append, List.dropWhile_cons, if_pos hu, List.dropWhile_cons,
        if_pos hu, ih hU]
    · rw [List.cons_append, List.dropWhile_cons, if_neg hu, List.dropWhile_cons,
        if_neg hu, List.cons_append]

/-- Trailing-strip passes over everything before a failing separator. -/
theorem rdropWhile_append_cons {p : Char → Bool} (A : List Char) (c : Char)
    (Y : List Char) (hc : p c = false) :
    List.rdropWhile p (A ++ c :: Y) = A ++ c :: List.rdropWhile p Y := by
  unfold List.rdropWhile
  rw [List.reverse_append, List.reverse_cons, List.append_assoc,
    List.singleton_append, dropWhile_append_stop _ c _ hc, List.reverse_append,
    List.reverse_cons, List.reverse_reverse, List.append_assoc,
    List.singleton_append]

/-- Trailing-strip absorbs an everywhere-satisfying suffix. -/
theorem rdropWhile_append_all {p : Char → Bool} (X W : List Char)
    (hW : ∀ a ∈ W, p a = true) :
    List.rdropWhile p (X ++ W) = List.rdropWhile p X := by
  unfold List.rdropWhile
  rw [List.reverse_append,
    dropWhile_append_all _ _ (fun a ha => hW a (List.mem_reverse.1 ha))]

/-- Trailing-strip of an everywhere-satisfying list is empty. -/
theorem rdropWhile_all {p : Char → Bool} (W : List Char)
    (hW : ∀ a ∈ W, p a = true) : List.rdropWhile p W = [] := by
  have h := rdropWhile_append_all [] W hW
  rwa [List.nil_append, List.rdropWhile_nil] at h

/-- Trailing-strip of a nowhere-satisfying list is the list. -/
theorem rdropWhile_no {p : Char → Bool} (X : List Char)
    (hX : ∀ a ∈ X, p a = false) : List.rdropWhile p X = X := by
  unfold List.rdropWhile
  rw [List.dropWhile_eq_self_iff.2 (fun hl => by
      rw [hX _ (List.mem_reverse.1 (List.get_mem _ 0 hl))]
      exact Bool.false_ne_true),
    List.reverse_reverse]

/-- An empty trailing-strip means every element satisfied the predicate. -/
theorem rdropWhile_eq_nil {p : Char → Bool} {y : List Char}
    (h : List.rdropWhile p y = []) : ∀ c ∈ y, p c = true := by
  unfold List.rdropWhile at h
  have h2 : List.dropWhile p y.reverse = [] := by
    have h3 := congrArg List.reverse h
    rwa [List.reverse_reverse, List.reverse_nil] at h3
  intro c hc
  exact List.dropWhile_eq_nil_iff.1 h2 c (List.mem_reverse.2 hc)

/-- Trailing-strip distributes over an append whose second part survives. -/
theorem rdropWhile_append_left {p : Char → Bool} (X Y : List Char)
    (hY : List.rdropWhile p Y ≠ []) :
    List.rdropWhile p (X ++ Y) = X ++ List.rdropWhile p Y := by
  unfold List.rdropWhile at hY ⊢
  rw [List.reverse_append, dropWhile_append_ne _ _ (fun h0 => hY (by rw [h0]; rfl)),
    List.reverse_append, List.reverse_reverse]

/-- A non-empty trailing-strip keeps the head of the list. -/
theorem prefix_head_eq {p : Char → Bool} (d : Char) (Bd : List Char) (e : Char)
    (E : List Char) (h : List.rdropWhile p (d :: Bd) = e :: E) : e = d := by
  obtain ⟨tl, htl⟩ := List.rdropWhile_prefix p (d :: Bd)
  rw [h, List.cons_append] at htl
  injection htl with h1 h2

/-- Leading- and trailing-strip commute. -/
theorem dropWhile_rdropWhile_comm {p : Char → Bool} (x : List Char) :
    List.dropWhile p (List.rdropWhile p x) =
      List.rdropWhile p (List.dropWhile p x) := by
  cases hA : List.dropWhile p x with
  | nil =>
    have hall := List.dropWhile_eq_nil_iff.1 hA
    rw [List.rdropWhile_nil, rdropWhile_all x hall]
    rfl
  | cons a A =>
    have hw : List.dropWhile p x ≠ [] := by rw [hA]; exact List.cons_ne_nil a A
    have ha : p a = false := by
      have h0 := List.head_dropWhile_not p x hw
      simp only [hA, List.head_cons] at h0
      exact h0
    have hx : List.takeWhile p x ++ a :: A = x := by
      rw [← hA]
      exact List.takeWhile_append_dropWhile p x
    have hW : ∀ c ∈ List.takeWhile p x, p c = true :=
      fun c hc => List.mem_takeWhile_imp hc
    calc List.dropWhile p (List.rdropWhile p x)
        = List.dropWhile p (List.rdropWhile p (List.takeWhile p x ++ a :: A)) := by
          rw [hx]
      _ = List.dropWhile p (List.takeWhile p x ++ a :: List.rdropWhile p A) := by
          rw [rdropWhile_append_cons _ _ _ ha]
      _ = List.dropWhile p (a :: List.rdropWhile p A) := dropWhile_append_all _ _ hW
      _ = a :: List.rdropWhile p A := by
          rw [List.dropWhile_cons, if_neg (by rw [ha]; exact Bool.false_ne_true)]
      _ = List.rdropWhile p (a :: A) := (rdropWhile_append_cons [] a A ha).symm

/-- Leading-strip before a full strip is absorbed. -/
theorem pyStripL_dropWhile (x : List Char) :
    pyStripL (List.dropWhile pyWs x) = pyStripL x := by
  rw [pyStripL_eq, pyStripL_eq, List.dropWhile_idempotent]

/-- Trailing-strip before a full strip is absorbed. -/
theorem pyStripL_rdrop (x : List Char) :
    pyStripL (List.rdropWhile pyWs x) = pyStripL x := by
  rw [pyStripL_eq, pyStripL_eq, dropWhile_rdropWhile_comm, List.rdropWhile_idempotent]

/-- A stripped list has no leading whitespace. -/
theorem dropWhile_strip (x : List Char) :
    List.dropWhile pyWs (pyStripL x) = pyStripL x := by
  rw [pyStripL_eq, dropWhile_rdropWhile_comm, List.dropWhile_idempotent]

/-- Whitespace characters never survive the `header_key` filter. -/
theorem ws_not_kept (c : Char) (h : pyWs c = true) :
    keepSC (Char.toLower c) = false := by
  simp only [pyWs, Bool.or_eq_true, decide_eq_true_eq] at h
  rcases h with ((((((h|h)|h)|h)|h)|h)|h) <;> subst h <;> decide

/-- Digits are not whitespace. -/
theorem digit_not_ws (c : Char) (h : Char.isDigit c = true) : pyWs c = false := by
  cases hw : pyWs c
  · rfl
  · exfalso
    simp only [pyWs, Bool.or_eq_true, decide_eq_true_eq] at hw
    rcases hw with ((((((h1|h1)|h1)|h1)|h1)|h1)|h1) <;> subst h1 <;> exact absurd h (by decide)

/-- Whitespace is never the slash separator. -/
theorem ws_ne_slash (c : Char) (h : pyWs c = true) : (decide (c ≠ '/')) = true := by
  simp only [pyWs, Bool.or_eq_true, decide_eq_true_eq] at h
  rcases h with ((((((h|h)|h)|h)|h)|h)|h) <;> subst h <;> decide

/-- The lowercase-and-filter pipeline of `header_key` ignores leading
whitespace. -/
theorem filterLower_dropWhile (l : List Char) :
    ((List.dropWhile pyWs l).map Char.toLower).filter keepSC =
      (l.map Char.toLower).filter keepSC := by
  induction l with
  | nil => rfl
  | cons c l ih =>
    by_cases hc : pyWs c = true
    · rw [List.dropWhile_cons, if_pos hc, ih, List.map_cons, List.filter_cons,
        if_neg (by rw [ws_not_kept c hc]; exact Bool.false_ne_true)]
    · rw [List.dropWhile_cons, if_neg hc]

/-- The lowercase-and-filter pipeline of `header_key` ignores trailing
whitespace. -/
theorem filterLower_rdrop (l : List Char) :
    ((List.rdropWhile pyWs l).map Char.toLower).filter keepSC =
      (l.map Char.toLower).filter keepSC := by
  have hrev : ∀ m : List Char,
      ((m.reverse).map Char.toLower).filter keepSC =
        ((m.map Char.toLower).filter keepSC).reverse := by
    intro m
    rw [List.map_reverse, List.filter_reverse]
  unfold List.rdropWhile
  rw [hrev, filterLower_dropWhile, hrev, List.reverse_reverse]

/-- The lowercase-and-filter pipeline of `header_key` ignores outer
whitespace. -/
theorem filterLower_strip (l : List Char) :
    ((pyStripL l).map Char.toLower).filter keepSC =
      (l.map Char.toLower).filter keepSC := by
  rw [pyStripL_eq, filterLower_rdrop, filterLower_dropWhile]

/-- `header_key` (shopee variant) is blind to outer whitespace. -/
theorem headerKeySC_strip (s : String) :
    headerKeySC (pyStrip s) = headerKeySC s :=
  congrArg String.mk (filterLower_strip s.toList)

/-- Stripping trailing whitespace commutes with a take-prefix up to a full
strip. -/
theorem pyStripL_takeWhile_rdrop (q : Char → Bool) (B : List Char) :
    pyStripL (List.takeWhile q (List.rdropWhile pyWs B)) =
      pyStripL (List.takeWhile q B) := by
  cases hBd : List.dropWhile q B with
  | nil =>
    have hall : ∀ c ∈ B, q c = true := List.dropWhile_eq_nil_iff.1 hBd
    rw [takeWhile_all B hall,
      takeWhile_all _ (fun c hc =>
        hall c ((( List.rdropWhile_prefix pyWs B).sublist).mem hc)),
      pyStripL_rdrop]
  | cons d Bd =>
    have hC : List.takeWhile q B ++ d :: Bd = B := by
      rw [← hBd]
      exact List.takeWhile_append_dropWhile q B
    have hCq : ∀ c ∈ List.takeWhile q B, q c = true :=
      fun c hc => List.mem_takeWhile_imp hc
    by_cases hE : List.rdropWhile pyWs (d :: Bd) = []
    · have hallws := rdropWhile_eq_nil hE
      have hr : List.rdropWhile pyWs B =
          List.rdropWhile pyWs (List.takeWhile q B) := by
        conv_lhs => rw [← hC]
        rw [rdropWhile_append_all _ _ hallws]
      rw [hr,
        takeWhile_all _ (fun c hc =>
          hCq c ((( List.rdropWhile_prefix pyWs _).sublist).mem hc)),
        pyStripL_rdrop]
    · have hr : List.rdropWhile pyWs B =
          List.takeWhile q B ++ List.rdropWhile pyWs (d :: Bd) := by
        conv_lhs => rw [← hC]
        rw [rdropWhile_append_left _ _ hE]
      have hd : q d = false := by
        have hw : List.dropWhile q B ≠ [] := by
          rw [hBd]
          exact List.cons_ne_nil d Bd
        have h0 := List.head_dropWhile_not q B hw
        simp only [hBd, List.head_cons] at h0
        exact h0
      cases hrd : List.rdropWhile pyWs (d :: Bd) with
      | nil => exact absurd hrd hE
      | cons e E =>
        have he : e = d := prefix_head_eq d Bd e E hrd
        subst he
        rw [hr, hrd, takeWhile_append_all _ _ hCq, List.takeWhile_cons,
          if_neg (by rw [hd]; exact Bool.false_ne_true), List.append_nil]

/-- Stripping trailing whitespace neither changes the leading digit run nor
reaches past it other than by stripping the remainder. -/
theorem digits_rdrop (l1 : List Char) :
    List.takeWhile Char.isDigit (List.rdropWhile pyWs l1) =
        List.takeWhile Char.isDigit l1 ∧
      List.dropWhile Char.isDigit (List.rdropWhile pyWs l1) =
        List.rdropWhile pyWs (List.dropWhile Char.isDigit l1) := by
  cases hR : List.dropWhile Char.isDigit l1 with
  | nil =>
    have hall : ∀ c ∈ l1, Char.isDigit c = true := List.dropWhile_eq_nil_iff.1 hR
    have hno : List.rdropWhile pyWs l1 = l1 :=
      rdropWhile_no l1 (fun c hc => digit_not_ws c (hall c hc))
    rw [hno, hR, List.rdropWhile_nil]
    exact ⟨rfl, rfl⟩
  | cons r R0 =>
    have hD : List.takeWhile Char.isDigit l1 ++ r :: R0 = l1 := by
      rw [← hR]
      exact List.takeWhile_append_dropWhile _ _
    have hDq : ∀ c ∈ List.takeWhile Char.isDigit l1, Char.isDigit c = true :=
      fun c hc => List.mem_takeWhile_imp hc
    have hrd : Char.isDigit r = false := by
      have hw : List.dropWhile Char.isDigit l1 ≠ [] := by
        rw [hR]
        exact List.cons_ne_nil r R0
      have h0 := List.head_dropWhile_not Char.isDigit l1 hw
      simp only [hR, List.head_cons] at h0
      exact h0
    by_cases hE : List.rdropWhile pyWs (r :: R0) = []
    · have hallws := rdropWhile_eq_nil hE
      have hl : List.rdropWhile pyWs l1 = List.takeWhile Char.isDigit l1 := by
        conv_lhs => rw [← hD]
        rw [rdropWhile_append_all _ _ hallws,
          rdropWhile_no _ (fun c hc => digit_not_ws c (hDq c hc))]
      rw [hl, hE]
      exact ⟨takeWhile_all _ hDq, List.dropWhile_eq_nil_iff.2 hDq⟩
    · have hl : List.rdropWhile pyWs l1 =
          List.takeWhile Char.isDigit l1 ++ List.rdropWhile pyWs (r :: R0) := by
        conv_lhs => rw [← hD]
        rw [rdropWhile_append_left _ _ hE]
      cases hrd2 : List.rdropWhile pyWs (r :: R0) with
      | nil => exact absurd hrd2 hE
      | cons e E =>
        have he : e = r := prefix_head_eq r R0 e E hrd2
        subst he
        constructor
        · rw [hl, hrd2, takeWhile_append_all _ _ hDq, List.takeWhile_cons,
            if_neg (by rw [hrd]; exact Bool.false_ne_true), List.append_nil]
        · rw [hl, hrd2, dropWhile_append_all _ _ hDq, List.dropWhile_cons,
            if_neg (by rw [hrd]; exact Bool.false_ne_true)]

/-- Cutting at the first slash commutes with stripping leading whitespace. -/
theorem takeWhile_slash_dropWhile (L : List Char) :
    (List.dropWhile pyWs L).takeWhile (· ≠ '/') =
      List.dropWhile pyWs (L.takeWhile (· ≠ '/')) := by
  induction L with
  | nil => rfl
  | cons c L ih =>
    by_cases hc : pyWs c = true
    · rw [List.dropWhile_cons, if_pos hc, List.takeWhile_cons,
        if_pos (ws_ne_slash c hc), List.dropWhile_cons, if_pos hc, ih]
    · rw [List.dropWhile_cons, if_neg hc]
      by_cases hsl : c = '/'
      · subst hsl
        rw [List.takeWhile_cons, if_neg (by decide)]
        rfl
      · rw [List.takeWhile_cons, if_pos (decide_eq_true hsl), List.dropWhile_cons,
          if_neg hc]

/-- Normalising whitespace around slashes does not change the text before the
first slash, up to trailing whitespace; the buffered whitespace run of the
scanner stands in front. -/
theorem subGo_slash_front :
    ∀ (m ws : List Char), (∀ c ∈ ws, pyWs c = true) →
      List.rdropWhile pyWs ((subGo '/' false ws m).takeWhile (· ≠ '/')) =
        List.rdropWhile pyWs ((ws.reverse ++ m).takeWhile (· ≠ '/')) := by
  intro m
  induction m with
  | nil =>
    intro ws hws
    rw [show subGo '/' false ws [] = ws.reverse from rfl, List.append_nil]
  | cons c m ih =>
    intro ws hws
    have hQ : ∀ a ∈ ws.reverse, (decide (a ≠ '/')) = true :=
      fun a ha => ws_ne_slash a (hws a (List.mem_reverse.1 ha))
    have hWS : ∀ a ∈ ws.reverse, pyWs a = true :=
      fun a ha => hws a (List.mem_reverse.1 ha)
    by_cases hw : pyWs c = true
    · have e : subGo '/' false ws (c :: m) = subGo '/' false (c :: ws) m := by
        simp only [subGo, Bool.false_eq_true, if_false]
        rw [if_pos hw]
      have hws' : ∀ x ∈ c :: ws, pyWs x = true := by
        intro x hx
        rcases List.mem_cons.1 hx with h | h
        · rw [h]
          exact hw
        · exact hws x h
      rw [e, ih (c :: ws) hws', List.reverse_cons, List.append_assoc,
        List.singleton_append]
    · by_cases hsl : c = '/'
      · subst hsl
        have e : subGo '/' false ws ('/' :: m) = '/' :: subGo '/' true [] m := by
          simp only [subGo, Bool.false_eq_true, if_false]
          rw [if_neg hw, if_pos True.intro]
        rw [e, List.takeWhile_cons, if_neg (by decide), List.rdropWhile_nil,
          takeWhile_append_all _ _ hQ, List.takeWhile_cons, if_neg (by decide),
          List.append_nil, rdropWhile_all _ hWS]
      · have hwf : pyWs c = false := by
          rw [Bool.not_eq_true] at hw
          exact hw
        have e : subGo '/' false ws (c :: m) =
            ws.reverse ++ c :: subGo '/' false [] m := by
          simp only [subGo, Bool.false_eq_true, if_false]
          rw [if_neg hw, if_neg hsl]
        have hexp : ∀ X : List Char,
            List.rdropWhile pyWs ((ws.reverse ++ c :: X).takeWhile (· ≠ '/')) =
              ws.reverse ++ c :: List.rdropWhile pyWs (X.takeWhile (· ≠ '/')) := by
          intro X
          rw [takeWhile_append_all _ _ hQ, List.takeWhile_cons,
            if_pos (decide_eq_true hsl), rdropWhile_append_cons _ _ _ hwf]
        rw [e, hexp, hexp, ih [] (fun x hx => absurd hx (List.not_mem_nil x))]
        rfl

/-- `stripCatIdSC` returns its input when no leading digit run exists. -/
theorem stripCatId_empty (u : String)
    (h : (List.takeWhile Char.isDigit (u.toList.dropWhile pyWs)).isEmpty = true) :
    stripCatIdSC u = u := by
  simp only [stripCatIdSC]
  rw [if_pos h]

/-- `stripCatIdSC` in the id-and-hyphen case. -/
theorem stripCatId_dash (u : String) (rest : List Char)
    (h : ¬ (List.takeWhile Char.isDigit (u.toList.dropWhile pyWs)).isEmpty = true)
    (hm : ((u.toList.dropWhile pyWs).dropWhile Char.isDigit).dropWhile pyWs =
      '-' :: rest) :
    stripCatIdSC u = pyStrip ⟨(rest.dropWhile pyWs).takeWhile (· ≠ '\n')⟩ := by
  simp only [stripCatIdSC]
  rw [if_neg h, hm]
  rfl

/-- `stripCatIdSC` returns its input when the digits exhaust the text. -/
theorem stripCatId_nil (u : String)
    (h : ¬ (List.takeWhile Char.isDigit (u.toList.dropWhile pyWs)).isEmpty = true)
    (hm : ((u.toList.dropWhile pyWs).dropWhile Char.isDigit).dropWhile pyWs = []) :
    stripCatIdSC u = u := by
  simp only [stripCatIdSC]
  rw [if_neg h, hm]

/-- `stripCatIdSC` returns its input when no hyphen follows the digit run. -/
theorem stripCatId_other (u : String) (x : Char) (rest : List Char)
    (h : ¬ (List.takeWhile Char.isDigit (u.toList.dropWhile pyWs)).isEmpty = true)
    (hm : ((u.toList.dropWhile pyWs).dropWhile Char.isDigit).dropWhile pyWs =
      x :: rest)
    (hx : x ≠ '-') : stripCatIdSC u = u := by
  simp only [stripCatIdSC]
  rw [if_neg h, hm]
  split
  next heq =>
    exfalso
    injection heq with h1 _
    exact hx h1
  next => rfl

/-- Outer whitespace changes `stripCatIdSC` only through outer whitespace of
its input: either both runs return their (stripped resp. raw) input, or they
return the same remainder. -/
theorem stripCatId_strip_cases (v : String) :
    (stripCatIdSC (pyStrip v) = pyStrip v ∧ stripCatIdSC v = v) ∨
      stripCatIdSC (pyStrip v) = stripCatIdSC v := by
  have hl1 : List.dropWhile pyWs (pyStrip v).toList =
      List.rdropWhile pyWs (List.dropWhile pyWs v.toList) := by
    show List.dropWhile pyWs (pyStripL v.toList) = _
    rw [dropWhile_strip, pyStripL_eq]
  obtain ⟨hds, hdr⟩ := digits_rdrop (List.dropWhile pyWs v.toList)
  by_cases hempty :
      (List.takeWhile Char.isDigit (List.dropWhile pyWs v.toList)).isEmpty = true
  · left
    refine ⟨stripCatId_empty _ ?_, stripCatId_empty v hempty⟩
    rw [hl1, hds]
    exact hempty
  · have hempty' : ¬ (List.takeWhile Char.isDigit
        (List.dropWhile pyWs (pyStrip v).toList)).isEmpty = true := by
      rw [hl1, hds]
      exact hempty
    have hscr : ((List.dropWhile pyWs (pyStrip v).toList).dropWhile
          Char.isDigit).dropWhile pyWs =
        List.rdropWhile pyWs (((List.dropWhile pyWs v.toList).dropWhile
          Char.isDigit).dropWhile pyWs) := by
      rw [hl1, hdr, dropWhile_rdropWhile_comm]
    cases hSr : ((List.dropWhile pyWs v.toList).dropWhile
        Char.isDigit).dropWhile pyWs with
    | nil =>
      left
      refine ⟨stripCatId_nil _ hempty' ?_, stripCatId_nil v hempty hSr⟩
      rw [hscr, hSr, List.rdropWhile_nil]
    | cons x Sr =>
      have hx : pyWs x = false := by
        have hw : ((List.dropWhile pyWs v.toList).dropWhile
            Char.isDigit).dropWhile pyWs ≠ [] := by
          rw [hSr]
          exact List.cons_ne_nil x Sr
        have h0 := List.head_dropWhile_not pyWs _ hw
        simp only [hSr, List.head_cons] at h0
        exact h0
      have hSs : List.rdropWhile pyWs (x :: Sr) = x :: List.rdropWhile pyWs Sr :=
        rdropWhile_append_cons [] x Sr hx
      by_cases hdash : x = '-'
      · subst hdash
        right
        rw [stripCatId_dash _ (List.rdropWhile pyWs Sr) hempty'
            (by rw [hscr, hSr, hSs]),
          stripCatId_dash v Sr hempty hSr]
        show (⟨pyStripL (((List.rdropWhile pyWs Sr).dropWhile pyWs).takeWhile
            (· ≠ '\n'))⟩ : String) =
          ⟨pyStripL ((Sr.dropWhile pyWs).takeWhile (· ≠ '\n'))⟩
        apply congrArg String.mk
        rw [dropWhile_rdropWhile_comm, pyStripL_takeWhile_rdrop]
      · left
        refine ⟨stripCatId_other _ x (List.rdropWhile pyWs Sr) hempty'
            (by rw [hscr, hSr, hSs]) hdash,
          stripCatId_other v x Sr hempty hSr hdash⟩

/-- Up to the shopee `header_key` normalisation, `stripCatIdSC` is blind to
outer whitespace of its argument. -/
theorem headerKeySC_stripCatId_strip (v : String) :
    headerKeySC (stripCatIdSC (pyStrip v)) = headerKeySC (stripCatIdSC v) := by
  rcases stripCatId_strip_cases v with ⟨h1, h2⟩ | h
  · rw [h1, h2]
    exact headerKeySC_strip v
  · rw [h]

/-- C7 (amended, shopee variant): the template-schema lookup key computed by
`shopee_creator` — `header_key` of `top_of_category` — equals the claim's
normalization: lowercase alphanumerics of the slash-delimited path's first
segment with its leading numeric id and hyphen removed.  (The item variant
keeps hyphens and more separators; see `claim_C7_counterexample`.) -/
theorem claim_C7_top_key (s : String) :
    headerKeySC (topOfCategorySC s) = specTopKey s := by
  have hT1 : pyStripL (List.takeWhile (· ≠ '/') (subWsAround '/' (pyStrip s).toList)) =
      pyStripL (List.takeWhile (· ≠ '/') s.toList) := by
    unfold subWsAround
    have hA := subGo_slash_front (pyStrip s).toList []
      (fun c hc => absurd hc (List.not_mem_nil c))
    calc pyStripL (List.takeWhile (· ≠ '/') (subGo '/' false [] (pyStrip s).toList))
        = pyStripL (List.rdropWhile pyWs
            (List.takeWhile (· ≠ '/') (subGo '/' false [] (pyStrip s).toList))) :=
          (pyStripL_rdrop _).symm
      _ = pyStripL (List.rdropWhile pyWs
            (List.takeWhile (· ≠ '/') (([] : List Char).reverse ++ (pyStrip s).toList))) := by
          rw [hA]
      _ = pyStripL (List.takeWhile (· ≠ '/') ((pyStrip s).toList)) :=
          pyStripL_rdrop _
      _ = pyStripL (List.takeWhile (· ≠ '/')
            (List.rdropWhile pyWs (List.dropWhile pyWs s.toList))) := by
          have hsl : (pyStrip s).toList =
              List.rdropWhile pyWs (List.dropWhile pyWs s.toList) :=
            pyStripL_eq s.toList
          rw [hsl]
      _ = pyStripL (List.takeWhile (· ≠ '/') (List.dropWhile pyWs s.toList)) :=
          pyStripL_takeWhile_rdrop _ _
      _ = pyStripL (List.dropWhile pyWs (List.takeWhile (· ≠ '/') s.toList)) := by
          rw [takeWhile_slash_dropWhile]
      _ = pyStripL (List.takeWhile (· ≠ '/') s.toList) := pyStripL_dropWhile _
  have hps : pyStrip ⟨List.takeWhile (· ≠ '/') (subWsAround '/' (pyStrip s).toList)⟩ =
      pyStrip ⟨List.takeWhile (· ≠ '/') s.toList⟩ := congrArg String.mk hT1
  simp only [topOfCategorySC, specTopKey]
  rw [hps]
  by_cases hb : pyStrip ⟨List.takeWhile (· ≠ '/') s.toList⟩ == ""
  · rw [if_pos hb, ← headerKeySC_stripCatId_strip ⟨List.takeWhile (· ≠ '/') s.toList⟩,
      eq_of_beq hb, show stripCatIdSC "" = "" from rfl]
  · rw [if_neg hb, ← headerKeySC_stripCatId_strip ⟨List.takeWhile (· ≠ '/') s.toList⟩]

end Shopee
